import Mathlib

/-!
Metering and billing controller (sealos `controllers/metering`).

A shallow embedding of `metering_controller.go` and `podresource_controller.go`.

Modelling conventions:

* Go `int64` values (amounts, timestamps, sequence numbers) are mathematical
  integers (`Int`); arithmetic overflow is outside the model, except for the
  product inside the sampler's cost expressions, which wraps (`wrapInt64`).
* A `*resource.Quantity` is represented by its integer milli-value, so
  `Quantity.Add` is integer addition.
* A Go `map[ResourceName]ResourceInfo` is an association list with pairwise
  distinct keys; `range` visits the entries in list order.  A `nil` map and an
  empty map are both the empty list.
* The API server is a `Store` of typed object lists.  Every client call first
  consumes one entry of a fault schedule (`World.faults`): `some e` makes the
  call fail with the store error `e` without touching the store, `none` (or an
  exhausted schedule) lets it run.  A pass is sequential: no other writer acts
  between two calls of the same pass.
* `time.Now().Unix()` is one reading `now` for the whole pass.
* `Reconcile` serves three kinds of request in one body.  The embedding covers the sections
  reached when no Namespace object answers the request: `ingestionPass` (from the read of the
  Resource-Usage Record to the end) and `billingPass` (from the read of the Metering Record
  to the end).  The Namespace branch (`initMetering`, `DelMetering`) is not modelled.
* A deletion timestamp is `none` when the pointer is nil or the time is zero
  (`DeletionTimestamp.IsZero()`).
* The sampler computes its costs in float64.  The two cost expressions are parameters of the
  sampler (`FloatOps`), and every general statement about the sampler holds for all such
  parameters.  `float64Ops` is the pair that the code computes, over a model of binary64
  rounding on the rationals; `exactOps` evaluates the same quotients in integer arithmetic
  and agrees with it on products below `2 ^ 53` (`float64Ops_eq_exactOps`).
* A map read of an absent key gives Go's zero value.  The zero `ResourcePrice` has a nil
  `Unit`, and `Unit.MilliValue()` on a nil pointer panics: the sampler's map computations are
  `Option`-valued (`none` is the panic) and the pass then ends with `Err.Panic`.  The `Used`
  pointers are set by the code itself and are never nil.
-/

namespace Sealos

/-! ## Data model -/

/-- Errors: the store's error classes, the errors built by the controller with `fmt.Errorf`,
and `Panic`, the outcome of a pass that a nil pointer dereference aborts. -/
inductive Err where
  | NotFound
  | AlreadyExists
  | Conflict
  | Unavailable
  | DeductionNegative
  | AccountBalanceExisted
  | Errorf (cause : Err)
  | Panic
deriving DecidableEq, Repr

/-- A store fault that can hit any client call. -/
inductive Fault where
  | Conflict
  | Unavailable
deriving DecidableEq, Repr

def Fault.toErr : Fault → Err
  | .Conflict => .Conflict
  | .Unavailable => .Unavailable

/-- The value of `client.IgnoreNotFound`. -/
def IgnoreNotFound : Option Err → Option Err
  | some .NotFound => none
  | e => e

/-- The constants `meteringv1.HOUR` and `meteringv1.DAY`. -/
inductive TimeIntervalType where
  | HOUR
  | DAY
deriving DecidableEq, Repr

structure BillingList where
  Timestamp : Int
  TimeInterval : TimeIntervalType
  Settled : Bool
  Amount : Int
deriving DecidableEq, Repr

instance : Inhabited BillingList := ⟨⟨0, .HOUR, false, 0⟩⟩

structure ResourceInfo where
  Used : Int
  Timestamp : Int
  Namespace : String
  Cost : Int
  ResourceName : String
deriving DecidableEq, Repr

abbrev ResourceMap := List (String × ResourceInfo)

structure NamespacedName where
  Namespace : String
  Name : String
deriving DecidableEq, Repr

structure MeteringSpec where
  Namespace : String
  Owner : String
  TimeInterval : Int
  Resources : ResourceMap
deriving DecidableEq, Repr

structure MeteringStatus where
  BillingListH : List BillingList
  BillingListD : List BillingList
  TotalAmount : Int
  LatestUpdateTime : Int
  SeqID : Int
deriving DecidableEq, Repr

structure Metering where
  Name : String
  Namespace : String
  Spec : MeteringSpec
  Status : MeteringStatus
deriving DecidableEq, Repr

/-- Modelled from the spec: the status of a Resource-Usage Record, `Pending` or `Complete`
(the type and the constant `meteringcommonv1.Complete` are declared outside the sources). -/
inductive ResourceStatus where
  | Pending
  | Complete
deriving DecidableEq, Repr

structure Resource where
  Name : String
  Namespace : String
  DeletionTimestamp : Option Int
  Resources : ResourceMap
  Status : ResourceStatus
deriving DecidableEq, Repr

structure AccountBalance where
  Name : String
  Namespace : String
  Owner : String
  Timestamp : Int
  Amount : Int
  ResourceInfoList : List ResourceInfo
deriving DecidableEq, Repr

/-- The reconciler's configuration together with the API constants it reads. -/
structure MeteringReconcile where
  MeteringSystemNamespace : String
  MeteringInterval : Int
  MeteringPrefix : String
  AccountBalancePrefix : String
deriving DecidableEq, Repr

structure Result where
  Requeue : Bool
  RequeueAfter : Int
deriving DecidableEq, Repr

/-! ## Data model of the workload usage sampler (`podresource_controller.go`) -/

/-- The fields of `meteringcommonv1.ResourcePrice` that the sampler reads: the unit quantity
(a `*resource.Quantity`: `none` is the nil pointer, `some u` a quantity of milli-value `u`) and
the price per unit. -/
structure ResourcePrice where
  Unit : Option Int
  Price : Int
deriving DecidableEq, Repr

abbrev PriceMap := List (String × ResourcePrice)

/-- The sampler object `meteringv1.PodResource`: spec (interval, price table, resource name)
and status (last sample time, sequence). -/
structure PodResource where
  Name : String
  Namespace : String
  Interval : Int
  Resources : PriceMap
  ResourceName : String
  LatestUpdateTime : Int
  SeqID : Int
deriving DecidableEq, Repr

/-- A container: its resource limits and requests, quantities as milli-values. -/
structure Container where
  Limits : List (String × Int)
  Requests : List (String × Int)
deriving DecidableEq, Repr

structure Pod where
  Name : String
  Namespace : String
  Phase : String
  Containers : List Container
deriving DecidableEq, Repr

/-- A namespace object with its annotations. -/
structure NamespaceObj where
  Name : String
  Annotations : List (String × String)
deriving DecidableEq, Repr

/-- A resource quota with its `Status.Used` list, quantities as milli-values. -/
structure ResourceQuota where
  Name : String
  Namespace : String
  Used : List (String × Int)
deriving DecidableEq, Repr

structure ExtensionResourcePrice where
  Name : String
  Namespace : String
  Resources : PriceMap
  ResourceName : String
  GroupVersionKinds : List String
deriving DecidableEq, Repr

/-- The sampler's configuration together with the API constants it reads. -/
structure PodResourceReconciler where
  MeteringSystemNamespace : String
  PodResourcePricePrefix : String
  ResourceQuotaPrefix : String
  ExtensionResourcePricePrefix : String
  UserAnnotationOwnerKey : String
  DefaultPodResourceGVK : List String
deriving DecidableEq, Repr

/-- The two float64 expressions of the sampler, as functions of their integer operands:
`quot a b` is `int64(float64(a) / float64(b))` and `quotCeil a b` is
`int64(math.Ceil(float64(a) / float64(b)))`.  The sampler takes these as parameters; the
instance `float64Ops` is the one that the code computes. -/
structure FloatOps where
  quot : Int → Int → Int
  quotCeil : Int → Int → Int

/-! ## The object store and the client -/

structure Store where
  Meterings : List Metering
  Resources : List Resource
  AccountBalances : List AccountBalance
  Pods : List Pod := []
  Namespaces : List NamespaceObj := []
  ResourceQuotas : List ResourceQuota := []
  PodResources : List PodResource := []
  ExtensionResourcePrices : List ExtensionResourcePrice := []
deriving DecidableEq, Repr

structure World where
  store : Store
  faults : List (Option Fault)
deriving DecidableEq, Repr

def Metering.key (m : Metering) : NamespacedName := ⟨m.Namespace, m.Name⟩

def Resource.key (x : Resource) : NamespacedName := ⟨x.Namespace, x.Name⟩

def AccountBalance.key (a : AccountBalance) : NamespacedName := ⟨a.Namespace, a.Name⟩

/-- Consume the next entry of the fault schedule. -/
def nextFault (w : World) : Option Fault × World :=
  match w.faults with
  | [] => (none, w)
  | f :: fs => (f, { w with faults := fs })

def Store.findMetering (s : Store) (k : NamespacedName) : Option Metering :=
  s.Meterings.find? (fun m => decide (m.key = k))

def Store.findResource (s : Store) (k : NamespacedName) : Option Resource :=
  s.Resources.find? (fun x => decide (x.key = k))

def Store.findAccountBalance (s : Store) (k : NamespacedName) : Option AccountBalance :=
  s.AccountBalances.find? (fun a => decide (a.key = k))

/-- The call `r.Get(ctx, key, &metering)`. -/
def getMetering (k : NamespacedName) (w : World) : Except Err Metering × World :=
  match nextFault w with
  | (some f, w1) => (.error f.toErr, w1)
  | (none, w1) =>
    match w1.store.findMetering k with
    | some m => (.ok m, w1)
    | none => (.error .NotFound, w1)

/-- The call `r.Get(ctx, key, resources)`. -/
def getResource (k : NamespacedName) (w : World) : Except Err Resource × World :=
  match nextFault w with
  | (some f, w1) => (.error f.toErr, w1)
  | (none, w1) =>
    match w1.store.findResource k with
    | some x => (.ok x, w1)
    | none => (.error .NotFound, w1)

/-- The call `r.Get(ctx, key, &accountBalance)`. -/
def getAccountBalance (k : NamespacedName) (w : World) : Except Err AccountBalance × World :=
  match nextFault w with
  | (some f, w1) => (.error f.toErr, w1)
  | (none, w1) =>
    match w1.store.findAccountBalance k with
    | some a => (.ok a, w1)
    | none => (.error .NotFound, w1)

/-- The call `r.Create(ctx, &metering)`. -/
def createMetering (m : Metering) (w : World) : Option Err × World :=
  match nextFault w with
  | (some f, w1) => (some f.toErr, w1)
  | (none, w1) =>
    match w1.store.findMetering m.key with
    | some _ => (some .AlreadyExists, w1)
    | none => (none, { w1 with store := { w1.store with Meterings := w1.store.Meterings ++ [m] } })

/-- The call `r.Update(ctx, &metering)`. -/
def updateMetering (m : Metering) (w : World) : Option Err × World :=
  match nextFault w with
  | (some f, w1) => (some f.toErr, w1)
  | (none, w1) =>
    match w1.store.findMetering m.key with
    | none => (some .NotFound, w1)
    | some _ =>
      (none, { w1 with store := { w1.store with
        Meterings := w1.store.Meterings.map (fun x => if x.key = m.key then m else x) } })

/-- The call `r.Status().Update(ctx, &metering)`: only the status is written. -/
def statusUpdateMetering (m : Metering) (w : World) : Option Err × World :=
  match nextFault w with
  | (some f, w1) => (some f.toErr, w1)
  | (none, w1) =>
    match w1.store.findMetering m.key with
    | none => (some .NotFound, w1)
    | some _ =>
      (none, { w1 with store := { w1.store with
        Meterings := w1.store.Meterings.map
          (fun x => if x.key = m.key then { x with Status := m.Status } else x) } })

/-- The call `r.Status().Update(ctx, resources)`: only the status is written. -/
def statusUpdateResource (x : Resource) (w : World) : Option Err × World :=
  match nextFault w with
  | (some f, w1) => (some f.toErr, w1)
  | (none, w1) =>
    match w1.store.findResource x.key with
    | none => (some .NotFound, w1)
    | some _ =>
      (none, { w1 with store := { w1.store with
        Resources := w1.store.Resources.map
          (fun y => if y.key = x.key then { y with Status := x.Status } else y) } })

/-- The call `r.Create(ctx, &accountBalance)`. -/
def createAccountBalanceObj (a : AccountBalance) (w : World) : Option Err × World :=
  match nextFault w with
  | (some f, w1) => (some f.toErr, w1)
  | (none, w1) =>
    match w1.store.findAccountBalance a.key with
    | some _ => (some .AlreadyExists, w1)
    | none =>
      (none, { w1 with store := { w1.store with AccountBalances := w1.store.AccountBalances ++ [a] } })

/-- The helper `controllerutil.CreateOrUpdate` on a Metering Record: read the object, apply
the mutation, then create it (when absent) or update it (when the mutation changed it). -/
def CreateOrUpdate (obj : Metering) (f : Metering → Metering) (w : World) :
    Option Err × Metering × World :=
  match getMetering obj.key w with
  | (.error .NotFound, w1) =>
    let obj1 := f obj
    match createMetering obj1 w1 with
    | (some e, w2) => (some e, obj1, w2)
    | (none, w2) => (none, obj1, w2)
  | (.error e, w1) => (some e, obj, w1)
  | (.ok existing, w1) =>
    let obj1 := f existing
    if existing = obj1 then (none, obj1, w1)
    else
      match updateMetering obj1 w1 with
      | (some e, w2) => (some e, obj1, w2)
      | (none, w2) => (none, obj1, w2)

/-- The loop of `retry.OnError`: run `fn` until it succeeds, fails with a non-conflict error,
or the steps are used up (then the last conflict is returned). -/
def retryLoop {σ : Type} (fn : σ → World → Option Err × σ × World) :
    Nat → Option Err → σ → World → Option Err × σ × World
  | 0, lastErr, s, w => (lastErr, s, w)
  | n + 1, _, s, w =>
    match fn s w with
    | (none, s1, w1) => (none, s1, w1)
    | (some e, s1, w1) =>
      if e = Err.Conflict then retryLoop fn n (some e) s1 w1 else (some e, s1, w1)

/-- The number of attempts of `retry.DefaultRetry` (`Steps: 5`). -/
def DefaultRetrySteps : Nat := 5

/-- The helper `retry.RetryOnConflict(retry.DefaultRetry, fn)`. -/
def RetryOnConflict {σ : Type} (fn : σ → World → Option Err × σ × World) (s : σ) (w : World) :
    Option Err × σ × World :=
  retryLoop fn DefaultRetrySteps none s w

/-! ## History rotation -/

def NewBillingList (now : Int) (TimeInterval : TimeIntervalType) (amount : Int) : BillingList :=
  { Timestamp := now, TimeInterval := TimeInterval, Settled := false, Amount := amount }

/-- The body of the closure of `updateBillingList` between the read and the status write. -/
def rotateBillingList (now amount : Int) (st : MeteringStatus) : MeteringStatus :=
  let h := st.BillingListH ++ [NewBillingList now .HOUR amount]
  let hd : List BillingList × List BillingList :=
    if 24 ≤ h.length then
      let totalAmountD := (List.range 24).foldl (fun acc i => acc + (h.getD i default).Amount) 0
      (h.drop 24, st.BillingListD ++ [NewBillingList now .DAY totalAmountD])
    else (h, st.BillingListD)
  { BillingListH := hd.1
    BillingListD := hd.2
    TotalAmount := st.TotalAmount + amount
    LatestUpdateTime := now
    SeqID := st.SeqID + 1 }

/-- One run of the closure passed to `retry.RetryOnConflict` in `updateBillingList`. -/
def updateBillingListAttempt (now amount : Int) (metering : Metering) (w : World) :
    Option Err × Metering × World :=
  match getMetering metering.key w with
  | (.error e, w1) => (some e, metering, w1)
  | (.ok m, w1) =>
    let m1 : Metering := { m with Status := rotateBillingList now amount m.Status }
    match statusUpdateMetering m1 w1 with
    | (some e, w2) => (some e, m1, w2)
    | (none, w2) => (none, m1, w2)

def updateBillingList (now amount : Int) (metering : Metering) (w : World) :
    Option Err × Metering × World :=
  RetryOnConflict (updateBillingListAttempt now amount) metering w

/-! ## Accumulator maps -/

/-- The map read `m[k]`. -/
def mapGet (k : String) : ResourceMap → Option ResourceInfo
  | [] => none
  | (k1, v1) :: rest => if k1 = k then some v1 else mapGet k rest

/-- The map write `m[k] = v`. -/
def mapSet (k : String) (v : ResourceInfo) : ResourceMap → ResourceMap
  | [] => [(k, v)]
  | (k1, v1) :: rest => if k1 = k then (k, v) :: rest else (k1, v1) :: mapSet k v rest

/-- The builtin `delete(m, k)`. -/
def mapDelete (k : String) (m : ResourceMap) : ResourceMap :=
  m.filter (fun kv => decide (kv.1 ≠ k))

/-! ## Time -/

/-- The constant `time.Second`, in nanoseconds. -/
def Second : Int := 1000000000

/-- The constant `time.Minute`, in nanoseconds. -/
def Minute : Int := 60 * Second

/-- The value `int64(d.Seconds())`: the whole seconds of a duration. -/
def DurationSeconds (d : Int) : Int := Int.tdiv d Second

/-- The value `int64(d.Minutes())`: the whole minutes of a duration. -/
def DurationMinutes (d : Int) : Int := Int.tdiv d Minute

/-! ## The billing pass -/

def overTimeInterval (now : Int) (metering : Metering) : Bool :=
  decide (now - metering.Status.LatestUpdateTime
    ≥ DurationSeconds Minute * metering.Spec.TimeInterval)

def CalculateCost (metering : Metering) : Int × Option Err :=
  (metering.Spec.Resources.foldl (fun totalAmount kv => totalAmount + kv.2.Cost) 0, none)

/-- The mutation of `clearResourceUsed`: delete every key of the accumulator. -/
def clearResources (metering : Metering) : Metering :=
  { metering with Spec := { metering.Spec with
      Resources := metering.Spec.Resources.foldl (fun m kv => mapDelete kv.1 m)
        metering.Spec.Resources } }

def clearResourceUsed (metering : Metering) (w : World) : Option Err × Metering × World :=
  CreateOrUpdate metering clearResources w

/-- The name `fmt.Sprintf("%s-%s-%v", accountv1.AccountBalancePrefix, owner, seqID)`. -/
def accountBalanceName (r : MeteringReconcile) (owner : String) (seqID : Int) : String :=
  r.AccountBalancePrefix ++ "-" ++ owner ++ "-" ++ toString seqID

/-- The ledger object that `createAccountBalance` fills in before `r.Create`. -/
def newAccountBalance (r : MeteringReconcile) (now : Int) (metering : Metering)
    (totalAmount : Int) : AccountBalance :=
  { Name := accountBalanceName r metering.Spec.Owner metering.Status.SeqID
    Namespace := r.MeteringSystemNamespace
    Owner := metering.Spec.Owner
    Timestamp := now
    Amount := totalAmount
    ResourceInfoList := metering.Spec.Resources.map
      (fun kv => { kv.2 with ResourceName := kv.1 }) }

def createAccountBalance (r : MeteringReconcile) (now : Int) (metering : Metering)
    (totalAmount : Int) (w : World) : Option Err × World :=
  if totalAmount = 0 then (none, w)
  else if totalAmount < 0 then (some .DeductionNegative, w)
  else
    match getAccountBalance (newAccountBalance r now metering totalAmount).key w with
    | (.ok _, w1) => (some .AccountBalanceExisted, w1)
    | (.error e, w1) =>
      if IgnoreNotFound (some e) = none then
        match createAccountBalanceObj (newAccountBalance r now metering totalAmount) w1 with
        | (some e1, w2) => (some e1, w2)
        | (none, w2) => (none, w2)
      else (some e, w1)

/-- The billing section of `Reconcile` (from the read of the Metering Record to the end):
what a reconcile does for a request that names a Metering Record. -/
def billingPass (r : MeteringReconcile) (now : Int) (req : NamespacedName) (w : World) :
    Result × Option Err × World :=
  match getMetering req w with
  | (.error e, w1) => (⟨false, 0⟩, IgnoreNotFound (some e), w1)
  | (.ok metering, w1) =>
    if overTimeInterval now metering then
      match CalculateCost metering with
      | (_, some e) => (⟨false, 0⟩, some e, w1)
      | (totalAmount, none) =>
        match createAccountBalance r now metering totalAmount w1 with
        | (some e, w2) => (⟨false, 0⟩, some (.Errorf e), w2)
        | (none, w2) =>
          match clearResourceUsed metering w2 with
          | (some e, _, w3) => (⟨true, 0⟩, some e, w3)
          | (none, metering1, w3) =>
            match updateBillingList now totalAmount metering1 w3 with
            | (some e, _, w4) => (⟨false, 0⟩, some e, w4)
            | (none, _, w4) => (⟨true, Minute * r.MeteringInterval⟩, none, w4)
    else (⟨true, Minute * r.MeteringInterval⟩, none, w1)

/-! ## Usage ingestion -/

/-- The closure passed to `controllerutil.CreateOrUpdate` in the ingestion loop. -/
def foldResource (now : Int) (resourceName : String) (resourceInfo : ResourceInfo)
    (metering : Metering) : Metering :=
  match mapGet resourceName metering.Spec.Resources with
  | none =>
    { metering with Spec := { metering.Spec with
        Resources := mapSet resourceName resourceInfo metering.Spec.Resources } }
  | some cur =>
    { metering with Spec := { metering.Spec with
        Resources := mapSet resourceName
          { Timestamp := now
            Namespace := cur.Namespace
            Cost := cur.Cost + resourceInfo.Cost
            Used := cur.Used + resourceInfo.Used
            ResourceName := "" }
          metering.Spec.Resources } }

/-- The two lookups that resolve the Metering Record of one resource entry. -/
def resolveMetering (r : MeteringReconcile) (req : NamespacedName) (resourceInfo : ResourceInfo)
    (w : World) : Option Metering × World :=
  match getMetering ⟨r.MeteringSystemNamespace, r.MeteringPrefix ++ resourceInfo.Namespace⟩ w with
  | (.ok m, w1) => (some m, w1)
  | (.error _, w1) =>
    match getMetering ⟨r.MeteringSystemNamespace, r.MeteringPrefix ++ req.Namespace⟩ w1 with
    | (.ok m, w2) => (some m, w2)
    | (.error _, w2) => (none, w2)

/-- The loop over `resources.Spec.Resources` in `Reconcile`; `some _` is an early return. -/
def ingestLoop (r : MeteringReconcile) (now : Int) (req : NamespacedName) :
    List (String × ResourceInfo) → Resource → World → Option (Result × Err) × Resource × World
  | [], resources, w => (none, resources, w)
  | (resourceName, resourceInfo) :: rest, resources, w =>
    match resolveMetering r req resourceInfo w with
    | (none, w1) => ingestLoop r now req rest resources w1
    | (some metering, w1) =>
      match CreateOrUpdate metering (foldResource now resourceName resourceInfo) w1 with
      | (some e, _, w2) => (some (⟨true, 0⟩, e), resources, w2)
      | (none, _, w2) =>
        let resources1 : Resource := { resources with Status := .Complete }
        match statusUpdateResource resources1 w2 with
        | (some e, w3) => (some (⟨true, 0⟩, e), resources1, w3)
        | (none, w3) => ingestLoop r now req rest resources1 w3

/-- The sections of `Reconcile` from the read of the Resource-Usage Record on: what a
reconcile does for a request that no Namespace object answers. -/
def ingestionPass (r : MeteringReconcile) (now : Int) (req : NamespacedName) (w : World) :
    Result × Option Err × World :=
  match getResource req w with
  | (.ok resources, w1) =>
    if resources.Status = .Complete ∨ resources.DeletionTimestamp ≠ none then
      (⟨false, 0⟩, none, w1)
    else
      match ingestLoop r now req resources.Resources resources w1 with
      | (some (res, e), _, w2) => (res, some e, w2)
      | (none, _, w2) => billingPass r now req w2
  | (.error e, w1) =>
    if IgnoreNotFound (some e) ≠ none then (⟨false, 0⟩, some e, w1)
    else billingPass r now req w1

/-! ## Sequences of billing passes -/

/-- The sum of `Spec.Amount` over the ledger objects of an owner. -/
def ledgerSum (owner : String) (s : Store) : Int :=
  ((s.AccountBalances.filter (fun a => decide (a.Owner = owner))).map (fun a => a.Amount)).sum

/-- What one billing pass of a run meets: the clock, the fault schedule of its store calls and
the accumulator that ingestion has left in the record since the previous pass. -/
structure PassInput where
  now : Int
  faults : List (Option Fault)
  usage : ResourceMap
deriving DecidableEq, Repr

/-- Ingestion between two billing passes: the accumulator of the record at `req` is replaced. -/
def setAccumulator (req : NamespacedName) (usage : ResourceMap) (s : Store) : Store :=
  { s with
    Meterings := s.Meterings.map (fun x =>
      if x.key = req then { x with Spec := { x.Spec with Resources := usage } } else x) }

/-- The world a pass of a run starts from. -/
def passStart (req : NamespacedName) (w : World) (p : PassInput) : World :=
  { store := setAccumulator req p.usage w.store, faults := p.faults }

def runPass (r : MeteringReconcile) (req : NamespacedName) (w : World) (p : PassInput) : World :=
  (billingPass r p.now req (passStart req w p)).2.2

def runPasses (r : MeteringReconcile) (req : NamespacedName) (ps : List PassInput) (w : World) :
    World :=
  ps.foldl (runPass r req) w

/-- A pass that completes, or fails without having created a ledger object. -/
def cleanPass (r : MeteringReconcile) (req : NamespacedName) (w : World) (p : PassInput) : Bool :=
  decide ((billingPass r p.now req (passStart req w p)).2.1 = none ∨
    (billingPass r p.now req (passStart req w p)).2.2.store.AccountBalances
      = (passStart req w p).store.AccountBalances)

/-- Every pass of the run is clean. -/
def cleanRun (r : MeteringReconcile) (req : NamespacedName) : List PassInput → World → Bool
  | [], _ => true
  | p :: ps, w => cleanPass r req w p && cleanRun r req ps (runPass r req w p)

/-- Repeated delivery of the same request to the ingestion sections, each delivery with its own
clock and fault schedule. -/
def deliverAll (r : MeteringReconcile) (req : NamespacedName)
    (ds : List (Int × List (Option Fault))) (w : World) : World :=
  ds.foldl (fun w1 d => (ingestionPass r d.1 req { w1 with faults := d.2 }).2.2) w

/-- A run of history rotations on one record: each entry gives the clock, the amount and the
fault schedule of one `updateBillingList` call; the run is `none` as soon as a call fails. -/
def rotateAll (mp : Metering) : List (Int × Int × List (Option Fault)) → World → Option World
  | [], w => some w
  | (now, amount, faults) :: rest, w =>
    match updateBillingList now amount mp { w with faults := faults } with
    | (none, _, w1) => rotateAll mp rest w1
    | (some _, _, _) => none

/-! ## The workload usage sampler -/

def PodResource.key (p : PodResource) : NamespacedName := ⟨p.Namespace, p.Name⟩

def ResourceQuota.key (q : ResourceQuota) : NamespacedName := ⟨q.Namespace, q.Name⟩

def ExtensionResourcePrice.key (x : ExtensionResourcePrice) : NamespacedName :=
  ⟨x.Namespace, x.Name⟩

/-- The constant `v1.PodRunning`. -/
def PodRunning : String := "Running"

def Store.findNamespace (s : Store) (name : String) : Option NamespaceObj :=
  s.Namespaces.find? (fun n => decide (n.Name = name))

def Store.findResourceQuota (s : Store) (k : NamespacedName) : Option ResourceQuota :=
  s.ResourceQuotas.find? (fun q => decide (q.key = k))

def Store.findPodResource (s : Store) (k : NamespacedName) : Option PodResource :=
  s.PodResources.find? (fun p => decide (p.key = k))

def Store.findExtensionResourcePrice (s : Store) (k : NamespacedName) :
    Option ExtensionResourcePrice :=
  s.ExtensionResourcePrices.find? (fun x => decide (x.key = k))

/-- The call `r.List(ctx, &podList)`. -/
def listPods (w : World) : Except Err (List Pod) × World :=
  match nextFault w with
  | (some f, w1) => (.error f.toErr, w1)
  | (none, w1) => (.ok w1.store.Pods, w1)

/-- The call `r.Get(ctx, client.ObjectKey{Name: name}, &ns)`. -/
def getNamespace (name : String) (w : World) : Except Err NamespaceObj × World :=
  match nextFault w with
  | (some f, w1) => (.error f.toErr, w1)
  | (none, w1) =>
    match w1.store.findNamespace name with
    | some n => (.ok n, w1)
    | none => (.error .NotFound, w1)

/-- The call `r.Get(ctx, key, &resourceQuota)`. -/
def getResourceQuota (k : NamespacedName) (w : World) : Except Err ResourceQuota × World :=
  match nextFault w with
  | (some f, w1) => (.error f.toErr, w1)
  | (none, w1) =>
    match w1.store.findResourceQuota k with
    | some q => (.ok q, w1)
    | none => (.error .NotFound, w1)

/-- The call `r.Get(ctx, key, podController)`. -/
def getPodResource (k : NamespacedName) (w : World) : Except Err PodResource × World :=
  match nextFault w with
  | (some f, w1) => (.error f.toErr, w1)
  | (none, w1) =>
    match w1.store.findPodResource k with
    | some p => (.ok p, w1)
    | none => (.error .NotFound, w1)

/-- The call `r.Status().Update(ctx, podController)`: only the status is written. -/
def statusUpdatePodResource (p : PodResource) (w : World) : Option Err × World :=
  match nextFault w with
  | (some f, w1) => (some f.toErr, w1)
  | (none, w1) =>
    match w1.store.findPodResource p.key with
    | none => (some .NotFound, w1)
    | some _ =>
      (none, { w1 with store := { w1.store with
        PodResources := w1.store.PodResources.map (fun x =>
          if x.key = p.key then
            { x with LatestUpdateTime := p.LatestUpdateTime, SeqID := p.SeqID }
          else x) } })

/-- The call `r.Create(ctx, &Resource)`. -/
def createResourceObj (x : Resource) (w : World) : Option Err × World :=
  match nextFault w with
  | (some f, w1) => (some f.toErr, w1)
  | (none, w1) =>
    match w1.store.findResource x.key with
    | some _ => (some .AlreadyExists, w1)
    | none => (none, { w1 with store := { w1.store with Resources := w1.store.Resources ++ [x] } })

/-- The call `c.Get(ctx, key, extensionResourcesPrice)` inside `controllerutil.CreateOrUpdate`. -/
def getExtensionResourcePrice (k : NamespacedName) (w : World) :
    Except Err ExtensionResourcePrice × World :=
  match nextFault w with
  | (some f, w1) => (.error f.toErr, w1)
  | (none, w1) =>
    match w1.store.findExtensionResourcePrice k with
    | some x => (.ok x, w1)
    | none => (.error .NotFound, w1)

/-- The call `c.Create(ctx, extensionResourcesPrice)`. -/
def createExtensionResourcePrice (x : ExtensionResourcePrice) (w : World) : Option Err × World :=
  match nextFault w with
  | (some f, w1) => (some f.toErr, w1)
  | (none, w1) =>
    match w1.store.findExtensionResourcePrice x.key with
    | some _ => (some .AlreadyExists, w1)
    | none =>
      (none, { w1 with store := { w1.store with
        ExtensionResourcePrices := w1.store.ExtensionResourcePrices ++ [x] } })

/-- The call `c.Update(ctx, extensionResourcesPrice)`. -/
def updateExtensionResourcePrice (x : ExtensionResourcePrice) (w : World) : Option Err × World :=
  match nextFault w with
  | (some f, w1) => (some f.toErr, w1)
  | (none, w1) =>
    match w1.store.findExtensionResourcePrice x.key with
    | none => (some .NotFound, w1)
    | some _ =>
      (none, { w1 with store := { w1.store with
        ExtensionResourcePrices := w1.store.ExtensionResourcePrices.map
          (fun y => if y.key = x.key then x else y) } })

/-- The mutation that `CreateOrUpdateExtensionResourcesPrice` applies to the price object. -/
def setExtensionResourcePrice (r : PodResourceReconciler) (podController : PodResource)
    (x : ExtensionResourcePrice) : ExtensionResourcePrice :=
  { x with
    Resources := podController.Resources
    ResourceName := podController.ResourceName
    GroupVersionKinds := r.DefaultPodResourceGVK }

def CreateOrUpdateExtensionResourcesPrice (r : PodResourceReconciler)
    (podController : PodResource) (w : World) : Option Err × World :=
  let obj : ExtensionResourcePrice :=
    { Name := r.ExtensionResourcePricePrefix ++ r.PodResourcePricePrefix
      Namespace := r.MeteringSystemNamespace
      Resources := [], ResourceName := "", GroupVersionKinds := [] }
  match getExtensionResourcePrice obj.key w with
  | (.error .NotFound, w1) =>
    match createExtensionResourcePrice (setExtensionResourcePrice r podController obj) w1 with
    | (some e, w2) => (some (.Errorf e), w2)
    | (none, w2) => (none, w2)
  | (.error e, w1) => (some (.Errorf e), w1)
  | (.ok existing, w1) =>
    if existing = setExtensionResourcePrice r podController existing then (none, w1)
    else
      match updateExtensionResourcePrice (setExtensionResourcePrice r podController existing) w1
        with
      | (some e, w2) => (some (.Errorf e), w2)
      | (none, w2) => (none, w2)

def checkPodStatus (pod : Pod) : Bool :=
  decide (pod.Phase = PodRunning)

def checkPodNamespace (r : PodResourceReconciler) (pod : Pod) (w : World) : Bool × World :=
  match getNamespace pod.Namespace w with
  | (.error _, w1) => (false, w1)
  | (.ok ns, w1) => ((ns.Annotations.lookup r.UserAnnotationOwnerKey).isSome, w1)

def checkResourceExist (resourceName : String) (container : Container) : Option Int :=
  match container.Limits.lookup resourceName with
  | some q => some q
  | none => container.Requests.lookup resourceName

/-- The map read `podController.Spec.Resources[resourceName]`; an absent kind reads as Go's
zero value, whose `Unit` is the nil pointer. -/
def priceOf (podController : PodResource) (resourceName : String) : ResourcePrice :=
  (podController.Resources.lookup resourceName).getD ⟨none, 0⟩

/-- The unit milli-value that the price table gives for a kind (0 when the unit is nil). -/
def unitOf (podController : PodResource) (resourceName : String) : Int :=
  ((priceOf podController resourceName).Unit).getD 0

def GetResourceName (r : PodResourceReconciler) (namespaceName podName : String)
    (seqID : Int) : String :=
  namespaceName ++ "-" ++ r.PodResourcePricePrefix ++ "-" ++ podName ++ "-" ++ toString seqID

/-- The two struct literals of the container loop: the entry written for a kind, given the
container's quantity and the unit milli-value of the kind. -/
def setContainerEntry (fl : FloatOps) (now : Int) (podController : PodResource) (pod : Pod)
    (resourceInfos : ResourceMap) (resourceName : String) (resourceQuantity unit : Int) :
    ResourceMap :=
  match mapGet resourceName resourceInfos with
  | none =>
    mapSet resourceName
      { Used := resourceQuantity
        Timestamp := now
        Namespace := pod.Namespace
        Cost := fl.quot (resourceQuantity * (priceOf podController resourceName).Price) unit
        ResourceName := "" }
      resourceInfos
  | some cur =>
    mapSet resourceName
      { Cost := cur.Cost
          + fl.quot (resourceQuantity * (priceOf podController resourceName).Price) unit
        Timestamp := now
        Namespace := pod.Namespace
        Used := cur.Used + resourceQuantity
        ResourceName := "" }
      resourceInfos

/-- The body of the loop over `podController.Spec.Resources` for one container and one
resource kind; `none` is the panic of `Unit.MilliValue()` on a nil unit. -/
def addContainerResource (fl : FloatOps) (now : Int) (podController : PodResource) (pod : Pod)
    (con : Container) (resourceInfos : ResourceMap) (resourceName : String) :
    Option ResourceMap :=
  match checkResourceExist resourceName con with
  | none => some resourceInfos
  | some resourceQuantity =>
    match (priceOf podController resourceName).Unit with
    | none => none
    | some unit =>
      some (setContainerEntry fl now podController pod resourceInfos resourceName
        resourceQuantity unit)

/-- The two nested loops over the containers of a pod and the priced resource kinds. -/
def containerResources (fl : FloatOps) (now : Int) (podController : PodResource) (pod : Pod) :
    Option ResourceMap :=
  pod.Containers.foldlM
    (fun infos con =>
      podController.Resources.foldlM
        (fun infos1 kv => addContainerResource fl now podController pod con infos1 kv.1) infos)
    []

/-- The two struct literals of the storage step, given the unit milli-value of `storage`. -/
def setStorageEntry (fl : FloatOps) (now : Int) (podController : PodResource) (pod : Pod)
    (storage unit : Int) (resourceInfos : ResourceMap) : ResourceMap :=
  match mapGet "storage" resourceInfos with
  | none =>
    mapSet "storage"
      { Used := storage
        Timestamp := now
        Namespace := pod.Namespace
        Cost := fl.quotCeil (storage * (priceOf podController "storage").Price) unit
        ResourceName := "" }
      resourceInfos
  | some cur =>
    mapSet "storage"
      { Cost := cur.Cost
          + fl.quotCeil (storage * (priceOf podController "storage").Price) unit
        Timestamp := now
        Namespace := pod.Namespace
        Used := cur.Used + storage
        ResourceName := "" }
      resourceInfos

/-- The storage step: the quota's `requests.storage` usage is priced with ceiling rounding and
added to the pod's map under the kind `storage`; `none` is the panic of `Unit.MilliValue()`
when the price table gives `storage` no unit (in particular when it does not list it). -/
def addStorage (fl : FloatOps) (now : Int) (podController : PodResource) (pod : Pod)
    (storage : Int) (resourceInfos : ResourceMap) : Option ResourceMap :=
  match (priceOf podController "storage").Unit with
  | none => none
  | some unit => some (setStorageEntry fl now podController pod storage unit resourceInfos)

/-- The value `resourceQuota.Status.Used.Name("requests.storage", resource.BinarySI)`: the
listed quantity, or zero when the quota does not list it. -/
def quotaStorage (resourceQuota : ResourceQuota) : Int :=
  (resourceQuota.Used.lookup "requests.storage").getD 0

/-- The Resource-Usage Record that `syncResource` creates for a pod. -/
def newResource (r : PodResourceReconciler) (pod : Pod) (ResourceCR : ResourceMap)
    (podController : PodResource) : Resource :=
  { Name := GetResourceName r pod.Namespace pod.Name podController.SeqID
    Namespace := r.MeteringSystemNamespace
    DeletionTimestamp := none
    Resources := ResourceCR
    Status := .Pending }

def syncResource (r : PodResourceReconciler) (pod : Pod) (ResourceCR : ResourceMap)
    (podController : PodResource) (w : World) : Option Err × World :=
  match getResource (newResource r pod ResourceCR podController).key w with
  | (.ok _, w1) => (some (.Errorf .AlreadyExists), w1)
  | (.error _, w1) => createResourceObj (newResource r pod ResourceCR podController) w1

/-- The loop over `podList.Items` in `UpdateResourceUsed`; `some _` is the early return on a
failed quota read, or `Err.Panic` when a price lacks its unit. -/
def samplePods (r : PodResourceReconciler) (fl : FloatOps) (now : Int)
    (podController : PodResource) : List Pod → World → Option Err × World
  | [], w => (none, w)
  | pod :: rest, w =>
    if checkPodStatus pod then
      match checkPodNamespace r pod w with
      | (false, w1) => samplePods r fl now podController rest w1
      | (true, w1) =>
        match containerResources fl now podController pod with
        | none => (some .Panic, w1)
        | some infos =>
          match getResourceQuota ⟨pod.Namespace, r.ResourceQuotaPrefix ++ pod.Namespace⟩ w1
            with
          | (.error e, w2) => (some e, w2)
          | (.ok resourceQuota, w2) =>
            match addStorage fl now podController pod (quotaStorage resourceQuota) infos with
            | none => (some .Panic, w2)
            | some infos1 =>
              samplePods r fl now podController rest
                (syncResource r pod infos1 podController w2).2
    else samplePods r fl now podController rest w

/-- One run of the closure passed to `retry.RetryOnConflict` in `UpdateResourceUsed`. -/
def sampleStatusAttempt (now : Int) (podController : PodResource) (w : World) :
    Option Err × PodResource × World :=
  match getPodResource podController.key w with
  | (.error e, w1) => (IgnoreNotFound (some e), podController, w1)
  | (.ok cur, w1) =>
    let p1 : PodResource := { cur with LatestUpdateTime := now, SeqID := cur.SeqID + 1 }
    match statusUpdatePodResource p1 w1 with
    | (some e, w2) => (some e, p1, w2)
    | (none, w2) => (none, p1, w2)

def UpdateResourceUsed (r : PodResourceReconciler) (fl : FloatOps) (now : Int)
    (podController : PodResource) (w : World) : Option Err × PodResource × World :=
  match listPods w with
  | (.error e, w1) => (some e, podController, w1)
  | (.ok pods, w1) =>
    match samplePods r fl now podController pods w1 with
    | (some e, w2) => (some e, podController, w2)
    | (none, w2) =>
      match RetryOnConflict (sampleStatusAttempt now) podController w2 with
      | (some e, p1, w3) => (some (.Errorf e), p1, w3)
      | (none, p1, w3) => (none, p1, w3)

/-- The sampling gate of `PodResourceReconciler.Reconcile`. -/
def sampleGate (now : Int) (podController : PodResource) : Bool :=
  decide (now - podController.LatestUpdateTime
    ≥ DurationMinutes Minute * podController.Interval)

def PodResourceReconciler.Reconcile (r : PodResourceReconciler) (fl : FloatOps) (now : Int)
    (req : NamespacedName) (w : World) : Result × Option Err × World :=
  match getPodResource req w with
  | (.error e, w1) => (⟨false, 0⟩, IgnoreNotFound (some e), w1)
  | (.ok podController, w1) =>
    match CreateOrUpdateExtensionResourcesPrice r podController w1 with
    | (some e, w2) => (⟨true, Second⟩, IgnoreNotFound (some e), w2)
    | (none, w2) =>
      if sampleGate now podController then
        match UpdateResourceUsed r fl now podController w2 with
        | (some .Panic, _, w3) => (⟨false, 0⟩, some .Panic, w3)
        | (some e, _, w3) => (⟨true, 0⟩, IgnoreNotFound (some e), w3)
        | (none, p1, w3) => (⟨true, p1.Interval * Minute⟩, none, w3)
      else (⟨true, podController.Interval * Minute⟩, none, w2)

/-- The sum of the `storage` costs over the Resource-Usage Records in the store that were
published for a namespace. -/
def storageCostSum (ns : String) (s : Store) : Int :=
  (s.Resources.map (fun x =>
    match mapGet "storage" x.Resources with
    | some v => if v.Namespace = ns then v.Cost else 0
    | none => 0)).sum

/-- Whether a namespace is a tenant namespace in the store: the namespace object exists and
carries the owner annotation. -/
def isTenantNamespace (r : PodResourceReconciler) (s : Store) (ns : String) : Bool :=
  match s.findNamespace ns with
  | some n => (n.Annotations.lookup r.UserAnnotationOwnerKey).isSome
  | none => false

/-- The pods that a sampling pass bills: running pods of tenant namespaces. -/
def billedPod (r : PodResourceReconciler) (s : Store) (pod : Pod) : Bool :=
  checkPodStatus pod && isTenantNamespace r s pod.Namespace

/-- The storage usage that the quota object of a namespace reports in the store (zero when the
quota object is absent). -/
def storageOf (r : PodResourceReconciler) (s : Store) (ns : String) : Int :=
  match s.findResourceQuota ⟨ns, r.ResourceQuotaPrefix ++ ns⟩ with
  | some q => quotaStorage q
  | none => 0

/-- The Resource-Usage Record of one pod: the container loops, the storage step and the
object built by `syncResource`; `none` when a price lacks its unit and the pass panics. -/
def podRecord (r : PodResourceReconciler) (fl : FloatOps) (now : Int)
    (podController : PodResource) (s : Store) (pod : Pod) : Option Resource :=
  match containerResources fl now podController pod with
  | none => none
  | some infos =>
    match addStorage fl now podController pod (storageOf r s pod.Namespace) infos with
    | none => none
    | some infos1 => some (newResource r pod infos1 podController)

/-- The quantities of one resource kind that the containers of a pod declare (limit first,
request otherwise), in container order. -/
def declaredQuantities (resourceName : String) (pod : Pod) : List Int :=
  pod.Containers.filterMap (checkResourceExist resourceName)

/-- The cost and used quantity of a kind after one more declared quantity. -/
def addDeclared (fl : FloatOps) (pc : PodResource) (k : String) (acc : Option (Int × Int))
    (q : Option Int) : Option (Int × Int) :=
  match q with
  | none => acc
  | some q1 =>
    match acc with
    | none => some (fl.quot (q1 * (priceOf pc k).Price) (unitOf pc k), q1)
    | some cu => some (cu.1 + fl.quot (q1 * (priceOf pc k).Price) (unitOf pc k), cu.2 + q1)

/-! ## The float64 cost expressions

The two cost expressions of the sampler convert an `int64` product and an `int64` unit to
float64, divide, and convert the quotient (or its `math.Ceil`) back to `int64`.  A finite
float64 is modelled by the rational number it stands for; `none` stands for the values that
are not finite (a division by zero gives an infinity or NaN).  Conversion and division round
to the nearest float64, ties to the even significand (IEEE 754 binary64: 53 significant bits,
least exponent `-1074`).  The operands of the expressions are `int64` values, so no quotient
reaches the overflow threshold `2 ^ 1024`. -/

/-- Rounding to the nearest integer, ties to the even one. -/
def roundHalfEven (x : ℚ) : Int :=
  if x - ⌊x⌋ < 1 / 2 then ⌊x⌋
  else if 1 / 2 < x - ⌊x⌋ then ⌊x⌋ + 1
  else if ⌊x⌋ % 2 = 0 then ⌊x⌋ else ⌊x⌋ + 1

/-- The exponent of the unit in the last place of the float64 values around `x`: 52 below the
binary exponent of `x`, and `-1074` in the subnormal range. -/
def float64Exp (x : ℚ) : Int :=
  max (Int.log 2 |x| - 52) (-1074)

/-- The float64 nearest to `x`, ties to even. -/
def roundFloat64 (x : ℚ) : ℚ :=
  roundHalfEven (x / 2 ^ float64Exp x) * 2 ^ float64Exp x

/-- The result of an `int64` operation whose mathematical result is `n`: Go's integer
arithmetic wraps around. -/
def wrapInt64 (n : Int) : Int :=
  (n + 2 ^ 63) % 2 ^ 64 - 2 ^ 63

/-- The conversion `float64(n)` of an `int64`. -/
def float64OfInt64 (n : Int) : ℚ :=
  roundFloat64 n

/-- The float64 division `x / y`; a zero divisor gives an infinity or NaN. -/
def float64Div (x y : ℚ) : Option ℚ :=
  if y = 0 then none else some (roundFloat64 (x / y))

/-- The function `math.Ceil`; it is exact, and keeps an infinity or NaN. -/
def float64Ceil : Option ℚ → Option ℚ
  | none => none
  | some x => some (⌈x⌉ : Int)

/-- The conversion `int64(x)` of a float64: the fraction is discarded (truncation towards
zero).  For a value that `int64` cannot represent Go leaves the result to the
implementation; the value modelled is that of amd64, `-2 ^ 63`. -/
def int64OfFloat64 : Option ℚ → Int
  | none => -2 ^ 63
  | some x =>
    if -2 ^ 63 ≤ (if 0 ≤ x then ⌊x⌋ else ⌈x⌉) ∧ (if 0 ≤ x then ⌊x⌋ else ⌈x⌉) < 2 ^ 63 then
      (if 0 ≤ x then ⌊x⌋ else ⌈x⌉)
    else -2 ^ 63

/-- The two cost expressions as the code computes them.  The first argument is the
mathematical product of the quantity's milli-value and the price, which the code forms in
`int64`; the second is the unit's milli-value. -/
def float64Ops : FloatOps :=
  { quot := fun a b =>
      int64OfFloat64 (float64Div (float64OfInt64 (wrapInt64 a)) (float64OfInt64 b))
    quotCeil := fun a b =>
      int64OfFloat64
        (float64Ceil (float64Div (float64OfInt64 (wrapInt64 a)) (float64OfInt64 b))) }

/-! ## Sample data -/

/-- A record used to evaluate the definitions: 23 hourly entries of amount 5. -/
def sampleMetering : Metering :=
  { Name := "metering-ns-a", Namespace := "metering-system"
    Spec := { Namespace := "ns-a", Owner := "a", TimeInterval := 60, Resources := [] }
    Status := { BillingListH := List.replicate 23 ⟨0, .HOUR, false, 5⟩, BillingListD := [],
                TotalAmount := 115, LatestUpdateTime := 0, SeqID := 23 } }

def sampleWorld : World :=
  { store := { Meterings := [sampleMetering], Resources := [], AccountBalances := [] }
    faults := [] }

def sampleReconcile : MeteringReconcile :=
  { MeteringSystemNamespace := "metering-system", MeteringInterval := 60,
    MeteringPrefix := "metering-", AccountBalancePrefix := "accountbalance" }

/-- A fresh record: nothing billed yet, sequence 0. -/
def freshMetering : Metering :=
  { Name := "metering-ns-a", Namespace := "metering-system"
    Spec := { Namespace := "ns-a", Owner := "a", TimeInterval := 60, Resources := [] }
    Status := { BillingListH := [], BillingListD := [], TotalAmount := 0,
                LatestUpdateTime := 0, SeqID := 0 } }

def freshWorld : World :=
  { store := { Meterings := [freshMetering], Resources := [], AccountBalances := [] }
    faults := [] }

/-- An accumulator holding a `cpu` cost of 10. -/
def cpuUsage : ResourceMap := [("cpu", ⟨1000, 5, "ns-a", 10, ""⟩)]

/-- The fresh store with the ledger name of owner `a`, sequence 0, already taken. -/
def duplicateWorld : World :=
  { store := { Meterings := [freshMetering], Resources := [],
               AccountBalances := [⟨"accountbalance-a-0", "metering-system", "a", 0, 10, []⟩] }
    faults := [] }

/-- An accumulator whose costs sum to -3. -/
def negativeUsage : ResourceMap :=
  [("cpu", ⟨1000, 5, "ns-a", 4, ""⟩), ("memory", ⟨1, 5, "ns-a", -7, ""⟩)]

/-- A pending Resource-Usage Record with a `cpu` and a `memory` entry for namespace `ns-a`. -/
def sampleResource : Resource :=
  { Name := "ns-a-pod-web-0", Namespace := "metering-system", DeletionTimestamp := none,
    Resources := [("cpu", ⟨1, 5, "ns-a", 10, ""⟩), ("memory", ⟨2, 5, "ns-a", 7, ""⟩)],
    Status := .Pending }

/-- The fresh store holding the pending record; the seventh store call of a pass fails. -/
def ingestWorld : World :=
  { store := { Meterings := [freshMetering], Resources := [sampleResource],
               AccountBalances := [] }
    faults := [none, none, none, none, none, none, some .Unavailable] }

/-- The fresh store holding the same record already marked `Complete`. -/
def completeWorld : World :=
  { store := { Meterings := [freshMetering],
               Resources := [{ sampleResource with Status := .Complete }],
               AccountBalances := [] }
    faults := [] }

/-- An accumulator with two entries whose costs sum to 0. -/
def zeroUsage : ResourceMap :=
  [("cpu", ⟨1000, 5, "ns-a", 0, ""⟩), ("memory", ⟨1, 5, "ns-a", 0, ""⟩)]

/-- The two float64 expressions evaluated in exact integer arithmetic (truncated quotient and
ceiling quotient); used to evaluate the sampler on the small operands of the sample data,
where it agrees with `float64Ops`. -/
def exactOps : FloatOps :=
  { quot := fun a b => Int.tdiv a b
    quotCeil := fun a b => -(Int.fdiv (-a) b) }

def sampleSampler : PodResourceReconciler :=
  { MeteringSystemNamespace := "metering-system"
    PodResourcePricePrefix := "pod"
    ResourceQuotaPrefix := "quota-"
    ExtensionResourcePricePrefix := "extensionresourceprice-"
    UserAnnotationOwnerKey := "user.sealos.io/creator"
    DefaultPodResourceGVK := ["/v1, Kind=Pod"] }

/-- A sampler with interval 60 (minutes), last sample time 0, pricing `cpu` at 1 per 1000
milli-units and `storage` at 2 per 1000 milli-units. -/
def samplePodResource : PodResource :=
  { Name := "podresource-sample", Namespace := "metering-system", Interval := 60,
    Resources := [("cpu", ⟨some 1000, 1⟩), ("storage", ⟨some 1000, 2⟩)], ResourceName := "pod",
    LatestUpdateTime := 0, SeqID := 0 }

/-- Two running pods of the tenant namespace `ns-a`. -/
def podWeb0 : Pod :=
  { Name := "web-0", Namespace := "ns-a", Phase := "Running",
    Containers := [⟨[("cpu", 2000)], []⟩, ⟨[], [("cpu", 1000)]⟩] }

def podWeb1 : Pod :=
  { Name := "web-1", Namespace := "ns-a", Phase := "Running",
    Containers := [⟨[("cpu", 4000)], [("cpu", 1000)]⟩] }

/-- A cluster with the tenant namespace `ns-a` (storage usage 1500 milli-units in its quota),
its two running pods, a pending pod of the tenant and a running pod of a namespace that is
not a tenant. -/
def samplerWorld : World :=
  { store :=
      { Meterings := [], Resources := [], AccountBalances := []
        Pods := [podWeb0, ⟨"job-0", "ns-a", "Pending", [⟨[("cpu", 1000)], []⟩]⟩,
                 ⟨"dns-0", "kube-system", "Running", [⟨[("cpu", 1000)], []⟩]⟩, podWeb1]
        Namespaces := [⟨"ns-a", [("user.sealos.io/creator", "a")]⟩, ⟨"kube-system", []⟩]
        ResourceQuotas := [⟨"quota-ns-a", "ns-a", [("requests.storage", 1500)]⟩]
        PodResources := [samplePodResource] }
    faults := [] }

/-- The sampler of `samplePodResource` with a price table that does not list `storage`. -/
def cpuOnlyPodResource : PodResource :=
  { samplePodResource with Resources := [("cpu", ⟨some 1000, 1⟩)] }


/-! ## Store lemmas -/

theorem nextFault_store (w : World) : (nextFault w).2.store = w.store := by
  unfold nextFault
  split <;> rfl

theorem nextFault_nil (w : World) (h : w.faults = []) : nextFault w = (none, w) := by
  unfold nextFault
  rw [h]

theorem findMetering_key (s : Store) (k : NamespacedName) (m : Metering)
    (h : s.findMetering k = some m) : m.key = k := by
  unfold Store.findMetering at h
  have := List.find?_some h
  simpa using this

theorem find?_map_keep {α : Type} (p : α → Bool) (g : α → α) (hg : ∀ x, p (g x) = p x)
    (l : List α) : (l.map g).find? p = (l.find? p).map g := by
  induction l with
  | nil => rfl
  | cons x xs ih =>
    simp only [List.map_cons, List.find?_cons, hg]
    cases p x <;> simp [ih]

/-- The loop summing the first 24 amounts computes the sum of the first 24 entries. -/
theorem foldl_range_amount (h : List BillingList) (n : Nat) (hn : n ≤ h.length) :
    (List.range n).foldl (fun acc i => acc + (h.getD i default).Amount) 0
      = ((h.take n).map (fun b => b.Amount)).sum := by
  induction n with
  | zero => simp
  | succ n ih =>
    have hlt : n < h.length := hn
    rw [List.range_succ, List.foldl_append, ih (Nat.le_of_lt hlt)]
    rw [List.take_succ, List.map_append, List.sum_append]
    simp [List.getD_eq_getElem?_getD, List.getElem?_eq_getElem hlt]


theorem statusUpdateMetering_ok (m1 m : Metering) (w : World)
    (hf : (nextFault w).1 = none) (hfind : w.store.findMetering m1.key = some m) :
    (statusUpdateMetering m1 w).1 = none ∧
    (statusUpdateMetering m1 w).2.store.findMetering m1.key
      = some { m with Status := m1.Status } ∧
    (statusUpdateMetering m1 w).2.store.Resources = w.store.Resources ∧
    (statusUpdateMetering m1 w).2.store.AccountBalances = w.store.AccountBalances := by
  have hs := nextFault_store w
  have hk := findMetering_key _ _ _ hfind
  unfold statusUpdateMetering
  rcases hnf : nextFault w with ⟨f, w1⟩
  rw [hnf] at hf hs
  simp only at hf hs
  subst hf
  simp only [hs, hfind]
  refine ⟨trivial, ?_, trivial, trivial⟩
  unfold Store.findMetering at hfind ⊢
  simp only
  rw [find?_map_keep, hfind]
  · simp [hk]
  · intro x
    by_cases hx : x.key = m1.key
    · simp [hx, Metering.key]
      simp [Metering.key] at hx
      simp [hx]
    · simp [hx]

theorem statusUpdateMetering_fault (m1 : Metering) (w : World) (f : Fault)
    (hf : (nextFault w).1 = some f) :
    (statusUpdateMetering m1 w).1 = some f.toErr ∧
    (statusUpdateMetering m1 w).2.store = w.store := by
  have hs := nextFault_store w
  unfold statusUpdateMetering
  rcases hnf : nextFault w with ⟨f1, w1⟩
  rw [hnf] at hf hs
  simp only at hf hs
  subst hf
  exact ⟨rfl, hs⟩

theorem getMetering_store (k : NamespacedName) (w : World) :
    (getMetering k w).2.store = w.store := by
  have hs := nextFault_store w
  unfold getMetering
  rcases hnf : nextFault w with ⟨f, w1⟩
  rw [hnf] at hs
  cases f with
  | some f => exact hs
  | none =>
    simp only
    split <;> exact hs

theorem getMetering_result (k : NamespacedName) (w : World) :
    ((nextFault w).1 = none ∧ (getMetering k w).2 = (nextFault w).2 ∧
      (getMetering k w).1 =
        (match w.store.findMetering k with
          | some m => Except.ok m
          | none => Except.error Err.NotFound)) ∨
    (∃ f, (nextFault w).1 = some f ∧ (getMetering k w).2 = (nextFault w).2 ∧
      (getMetering k w).1 = Except.error f.toErr) := by
  have hs := nextFault_store w
  unfold getMetering
  rcases hnf : nextFault w with ⟨f, w1⟩
  rw [hnf] at hs
  simp only at hs
  cases f with
  | some f => right; exact ⟨f, rfl, rfl, rfl⟩
  | none =>
    left
    simp only [hs]
    cases w.store.findMetering k <;> simp


/-- One attempt of `updateBillingList` on a stored record either fails leaving the store as it
was, or writes the rotated status of the stored record. -/
theorem updateBillingListAttempt_cases (now a : Int) (mp m : Metering) (w : World)
    (hfind : w.store.findMetering mp.key = some m) :
    (∃ e, (updateBillingListAttempt now a mp w).1 = some e ∧
      (updateBillingListAttempt now a mp w).2.2.store = w.store ∧
      (updateBillingListAttempt now a mp w).2.1.key = mp.key) ∨
    ((updateBillingListAttempt now a mp w).1 = none ∧
      (updateBillingListAttempt now a mp w).2.2.store.findMetering mp.key
        = some { m with Status := rotateBillingList now a m.Status } ∧
      (updateBillingListAttempt now a mp w).2.2.store.Resources = w.store.Resources ∧
      (updateBillingListAttempt now a mp w).2.2.store.AccountBalances
        = w.store.AccountBalances) := by
  have hk := findMetering_key _ _ _ hfind
  have hgs := getMetering_store mp.key w
  unfold updateBillingListAttempt
  rcases getMetering_result mp.key w with ⟨_, _, hr⟩ | ⟨f, _, _, hr⟩
  · rw [hfind] at hr
    rcases hg : getMetering mp.key w with ⟨r, w1⟩
    rw [hg] at hr hgs
    simp only at hr hgs
    subst hr
    simp only
    have hfind1 : w1.store.findMetering
        ({ m with Status := rotateBillingList now a m.Status } : Metering).key = some m := by
      rw [hgs]
      have : ({ m with Status := rotateBillingList now a m.Status } : Metering).key = mp.key := hk
      rw [this]
      exact hfind
    cases hnf : (nextFault w1).1 with
    | none =>
      right
      have h := statusUpdateMetering_ok _ m w1 hnf hfind1
      rcases hsu : statusUpdateMetering
        ({ m with Status := rotateBillingList now a m.Status } : Metering) w1 with ⟨e, w2⟩
      rw [hsu] at h
      simp only at h
      obtain ⟨h1, h2, h3, h4⟩ := h
      subst h1
      simp only
      refine ⟨trivial, ?_, ?_, ?_⟩
      · have : ({ m with Status := rotateBillingList now a m.Status } : Metering).key = mp.key := hk
        rw [this] at h2
        exact h2
      · rw [h3, hgs]
      · rw [h4, hgs]
    | some f =>
      left
      have h := statusUpdateMetering_fault
        ({ m with Status := rotateBillingList now a m.Status } : Metering) w1 f hnf
      rcases hsu : statusUpdateMetering
        ({ m with Status := rotateBillingList now a m.Status } : Metering) w1 with ⟨e, w2⟩
      rw [hsu] at h
      simp only at h
      obtain ⟨h1, h2⟩ := h
      subst h1
      exact ⟨f.toErr, rfl, by simp only [h2, hgs], hk⟩
  · left
    rcases hg : getMetering mp.key w with ⟨r, w1⟩
    rw [hg] at hr hgs
    simp only at hr hgs
    subst hr
    exact ⟨f.toErr, rfl, hgs, rfl⟩

/-- A successful `retryLoop` of `updateBillingList` with at least one step has written the
rotated status of the stored record. -/
theorem updateBillingList_retry (now a : Int) (m : Metering) (n : Nat) :
    ∀ (last : Option Err) (mp : Metering) (w : World),
      w.store.findMetering mp.key = some m →
      (retryLoop (updateBillingListAttempt now a) (n + 1) last mp w).1 = none →
      (retryLoop (updateBillingListAttempt now a) (n + 1) last mp w).2.2.store.findMetering mp.key
        = some { m with Status := rotateBillingList now a m.Status } ∧
      (retryLoop (updateBillingListAttempt now a) (n + 1) last mp w).2.2.store.Resources
        = w.store.Resources ∧
      (retryLoop (updateBillingListAttempt now a) (n + 1) last mp w).2.2.store.AccountBalances
        = w.store.AccountBalances := by
  induction n with
  | zero =>
    intro last mp w hfind hok
    rcases updateBillingListAttempt_cases now a mp m w hfind with ⟨e, h1, _, _⟩ | ⟨h1, h2, h3, h4⟩
    · exfalso
      rcases hat : updateBillingListAttempt now a mp w with ⟨r, s1, w1⟩
      rw [hat] at h1
      simp only at h1
      subst h1
      simp only [retryLoop, hat] at hok
      split at hok <;> simp at hok
    · rcases hat : updateBillingListAttempt now a mp w with ⟨r, s1, w1⟩
      rw [hat] at h1 h2 h3 h4
      simp only at h1 h2 h3 h4
      subst h1
      simp only [retryLoop, hat]
      exact ⟨h2, h3, h4⟩
  | succ n ih =>
    intro last mp w hfind hok
    rcases updateBillingListAttempt_cases now a mp m w hfind with ⟨e, h1, hs, hkey⟩ | ⟨h1, h2, h3, h4⟩
    · rcases hat : updateBillingListAttempt now a mp w with ⟨r, s1, w1⟩
      rw [hat] at h1 hs hkey
      simp only at h1 hs hkey
      subst h1
      rw [retryLoop, hat] at hok ⊢
      simp only at hok ⊢
      by_cases hc : e = Err.Conflict
      · simp only [hc, if_true] at hok ⊢
        have hfind1 : w1.store.findMetering s1.key = some m := by rw [hs, hkey]; exact hfind
        have := ih (some Err.Conflict) s1 w1 hfind1 hok
        rw [hkey, hs] at this
        exact this
      · simp [hc] at hok
    · rcases hat : updateBillingListAttempt now a mp w with ⟨r, s1, w1⟩
      rw [hat] at h1 h2 h3 h4
      simp only at h1 h2 h3 h4
      subst h1
      rw [retryLoop, hat]
      exact ⟨h2, h3, h4⟩

theorem updateBillingList_noFault (now a : Int) (mp m : Metering) (w : World)
    (hfind : w.store.findMetering mp.key = some m) (hf : w.faults = []) :
    (updateBillingList now a mp w).1 = none := by
  have hk := findMetering_key _ _ _ hfind
  have hkey : ({ m with Status := rotateBillingList now a m.Status } : Metering).key = mp.key := hk
  have hat : updateBillingListAttempt now a mp w
      = (none, { m with Status := rotateBillingList now a m.Status },
          (statusUpdateMetering { m with Status := rotateBillingList now a m.Status } w).2) := by
    unfold updateBillingListAttempt getMetering
    rw [nextFault_nil w hf]
    simp only [hfind]
    unfold statusUpdateMetering
    rw [nextFault_nil w hf]
    simp only [hkey, hfind]
  unfold updateBillingList RetryOnConflict DefaultRetrySteps
  rw [retryLoop, hat]

/-! ## Lemmas on the billing pass -/

theorem updateMetering_store (m1 : Metering) (w : World) :
    ((updateMetering m1 w).1 ≠ none ∧ (updateMetering m1 w).2.store = w.store) ∨
    ((updateMetering m1 w).1 = none ∧
      (updateMetering m1 w).2.store = { w.store with
        Meterings := w.store.Meterings.map (fun x => if x.key = m1.key then m1 else x) }) := by
  have hs := nextFault_store w
  unfold updateMetering
  rcases hnf : nextFault w with ⟨f, w1⟩
  rw [hnf] at hs
  simp only at hs
  cases f with
  | some f => left; exact ⟨by simp, hs⟩
  | none =>
    simp only [hs]
    cases w.store.findMetering m1.key with
    | none => left; exact ⟨by simp, hs⟩
    | some x => right; exact ⟨rfl, by simp [hs]⟩

theorem findMetering_update (s : Store) (k : NamespacedName) (m m1 : Metering)
    (hfind : s.findMetering k = some m) (hk : m1.key = k) :
    ({ s with Meterings := s.Meterings.map (fun x => if x.key = m1.key then m1 else x) }
      : Store).findMetering k = some m1 := by
  have hmk := findMetering_key _ _ _ hfind
  unfold Store.findMetering at hfind ⊢
  simp only
  rw [find?_map_keep, hfind]
  · simp [hmk, hk]
  · intro x
    by_cases hx : x.key = m1.key
    · simp [hx, hk]
    · simp [hx]

/-- The helper `CreateOrUpdate` on a stored record either fails leaving the store as it was,
or leaves the mutated record in the store and touches nothing else. -/
theorem CreateOrUpdate_cases (obj m : Metering) (f : Metering → Metering) (w : World)
    (hfind : w.store.findMetering obj.key = some m) (hkey : ∀ x, (f x).key = x.key) :
    ((CreateOrUpdate obj f w).1 ≠ none ∧ (CreateOrUpdate obj f w).2.2.store = w.store) ∨
    ((CreateOrUpdate obj f w).1 = none ∧ (CreateOrUpdate obj f w).2.1 = f m ∧
      (CreateOrUpdate obj f w).2.2.store.findMetering obj.key = some (f m) ∧
      (CreateOrUpdate obj f w).2.2.store.Resources = w.store.Resources ∧
      (CreateOrUpdate obj f w).2.2.store.AccountBalances = w.store.AccountBalances) := by
  have hmk := findMetering_key _ _ _ hfind
  have hgs := getMetering_store obj.key w
  unfold CreateOrUpdate
  rcases getMetering_result obj.key w with ⟨_, _, hr⟩ | ⟨fl, _, _, hr⟩
  · rw [hfind] at hr
    rcases hg : getMetering obj.key w with ⟨res, w1⟩
    rw [hg] at hr hgs
    simp only at hr hgs
    subst hr
    simp only
    by_cases heq : m = f m
    · right
      rw [if_pos heq]
      refine ⟨rfl, rfl, ?_, ?_, ?_⟩
      · simp only [hgs]; rw [← heq]; exact hfind
      · simp only [hgs]
      · simp only [hgs]
    · rw [if_neg heq]
      rcases updateMetering_store (f m) w1 with ⟨h1, h2⟩ | ⟨h1, h2⟩
      · left
        rcases hu : updateMetering (f m) w1 with ⟨e, w2⟩
        rw [hu] at h1 h2
        simp only at h1 h2
        cases e with
        | none => exact absurd rfl h1
        | some e => exact ⟨by simp, by simp only [h2, hgs]⟩
      · right
        rcases hu : updateMetering (f m) w1 with ⟨e, w2⟩
        rw [hu] at h1 h2
        simp only at h1 h2
        subst h1
        simp only
        refine ⟨trivial, trivial, ?_, ?_, ?_⟩
        · rw [h2, hgs]
          exact findMetering_update _ _ m _ hfind (by rw [hkey, hmk])
        · rw [h2, hgs]
        · rw [h2, hgs]
  · left
    rcases hg : getMetering obj.key w with ⟨res, w1⟩
    rw [hg] at hr hgs
    simp only at hr hgs
    subst hr
    cases fl <;> exact ⟨by simp [Fault.toErr], hgs⟩

theorem getAccountBalance_result (k : NamespacedName) (w : World) :
    (getAccountBalance k w).2.store = w.store ∧
    (((getAccountBalance k w).1 =
        (match w.store.findAccountBalance k with
          | some a => Except.ok a
          | none => Except.error Err.NotFound)) ∨
      (∃ f : Fault, (getAccountBalance k w).1 = Except.error f.toErr)) := by
  have hs := nextFault_store w
  unfold getAccountBalance
  rcases hnf : nextFault w with ⟨f, w1⟩
  rw [hnf] at hs
  simp only at hs
  cases f with
  | some f => exact ⟨hs, Or.inr ⟨f, rfl⟩⟩
  | none =>
    simp only [hs]
    cases w.store.findAccountBalance k <;> exact ⟨hs, Or.inl rfl⟩

theorem createAccountBalanceObj_store (a : AccountBalance) (w : World) :
    ((createAccountBalanceObj a w).1 ≠ none ∧ (createAccountBalanceObj a w).2.store = w.store) ∨
    ((createAccountBalanceObj a w).1 = none ∧
      (createAccountBalanceObj a w).2.store = { w.store with
        AccountBalances := w.store.AccountBalances ++ [a] }) := by
  have hs := nextFault_store w
  unfold createAccountBalanceObj
  rcases hnf : nextFault w with ⟨f, w1⟩
  rw [hnf] at hs
  simp only at hs
  cases f with
  | some f => left; exact ⟨by simp, hs⟩
  | none =>
    simp only [hs]
    cases w.store.findAccountBalance a.key with
    | some x => left; exact ⟨by simp, hs⟩
    | none => right; exact ⟨rfl, by simp [hs]⟩

/-- The call `createAccountBalance` either leaves the store as it was (and then succeeds only
for a zero amount), or succeeds for a positive amount whose ledger name was free and appends
the ledger object. -/
theorem createAccountBalance_cases (r : MeteringReconcile) (now : Int) (m : Metering)
    (totalAmount : Int) (w : World) :
    ((createAccountBalance r now m totalAmount w).2.store = w.store ∧
      ((createAccountBalance r now m totalAmount w).1 = none → totalAmount = 0)) ∨
    ((createAccountBalance r now m totalAmount w).1 = none ∧ 0 < totalAmount ∧
      w.store.findAccountBalance (newAccountBalance r now m totalAmount).key = none ∧
      (createAccountBalance r now m totalAmount w).2.store = { w.store with
        AccountBalances := w.store.AccountBalances ++ [newAccountBalance r now m totalAmount] })
    := by
  unfold createAccountBalance
  by_cases h0 : totalAmount = 0
  · left; simp [h0]
  · rw [if_neg h0]
    by_cases hneg : totalAmount < 0
    · left; simp [hneg]
    · rw [if_neg hneg]
      have hpos : 0 < totalAmount := by omega
      obtain ⟨hgs, hres⟩ := getAccountBalance_result (newAccountBalance r now m totalAmount).key w
      rcases hg : getAccountBalance (newAccountBalance r now m totalAmount).key w with ⟨res, w1⟩
      rw [hg] at hgs hres
      simp only at hgs hres
      rcases hres with hres | ⟨f, hres⟩
      · cases hfa : w.store.findAccountBalance (newAccountBalance r now m totalAmount).key with
        | some a =>
          rw [hfa] at hres
          subst hres
          left
          exact ⟨hgs, by simp⟩
        | none =>
          rw [hfa] at hres
          subst hres
          simp only [IgnoreNotFound, if_true]
          rcases createAccountBalanceObj_store (newAccountBalance r now m totalAmount) w1
            with ⟨h1, h2⟩ | ⟨h1, h2⟩
          · left
            rcases hc : createAccountBalanceObj (newAccountBalance r now m totalAmount) w1
              with ⟨e, w2⟩
            rw [hc] at h1 h2
            simp only at h1 h2
            cases e with
            | none => exact absurd rfl h1
            | some e => exact ⟨by simp only [h2, hgs], by simp⟩
          · right
            rcases hc : createAccountBalanceObj (newAccountBalance r now m totalAmount) w1
              with ⟨e, w2⟩
            rw [hc] at h1 h2
            simp only at h1 h2
            subst h1
            exact ⟨rfl, hpos, trivial, by simp only [h2, hgs]⟩
      · subst hres
        left
        cases f <;>
          exact ⟨by simp [Fault.toErr, IgnoreNotFound, hgs], by simp [Fault.toErr, IgnoreNotFound]⟩

/-- A failed `retryLoop` of `updateBillingList` leaves the store as it was. -/
theorem updateBillingList_retry_err (now a : Int) (m : Metering) (n : Nat) :
    ∀ (last : Option Err) (mp : Metering) (w : World),
      w.store.findMetering mp.key = some m →
      (retryLoop (updateBillingListAttempt now a) n last mp w).1 ≠ none →
      (retryLoop (updateBillingListAttempt now a) n last mp w).2.2.store = w.store := by
  induction n with
  | zero =>
    intro last mp w _ _
    rfl
  | succ n ih =>
    intro last mp w hfind herr
    rcases updateBillingListAttempt_cases now a mp m w hfind with ⟨e, h1, hs, hkey⟩ | ⟨h1, _, _, _⟩
    · rcases hat : updateBillingListAttempt now a mp w with ⟨res, s1, w1⟩
      rw [hat] at h1 hs hkey
      simp only at h1 hs hkey
      subst h1
      rw [retryLoop, hat] at herr ⊢
      simp only at herr ⊢
      by_cases hc : e = Err.Conflict
      · simp only [hc, if_true] at herr ⊢
        have hfind1 : w1.store.findMetering s1.key = some m := by rw [hs, hkey]; exact hfind
        rw [ih (some Err.Conflict) s1 w1 hfind1 herr, hs]
      · simp only [hc, if_false]
        exact hs
    · exfalso
      rcases hat : updateBillingListAttempt now a mp w with ⟨res, s1, w1⟩
      rw [hat] at h1
      simp only at h1
      subst h1
      rw [retryLoop, hat] at herr
      exact herr rfl

theorem clearResources_key (x : Metering) : (clearResources x).key = x.key := rfl

theorem mapDelete_foldl (ks : List (String × ResourceInfo)) :
    ∀ m : ResourceMap, (∀ kv ∈ m, ∃ kv1 ∈ ks, kv1.1 = kv.1) →
      ks.foldl (fun m kv => mapDelete kv.1 m) m = [] := by
  induction ks with
  | nil =>
    intro m h
    cases m with
    | nil => rfl
    | cons kv rest =>
      obtain ⟨kv1, hmem, _⟩ := h kv (List.mem_cons_self _ _)
      cases hmem
  | cons k ks ih =>
    intro m h
    rw [List.foldl_cons]
    apply ih
    intro kv hkv
    unfold mapDelete at hkv
    rw [List.mem_filter] at hkv
    obtain ⟨hmem, hne⟩ := hkv
    obtain ⟨kv1, hmem1, heq⟩ := h kv hmem
    rcases List.mem_cons.mp hmem1 with h1 | h1
    · subst h1
      simp at hne
      exact absurd heq (fun h => hne h.symm)
    · exact ⟨kv1, h1, heq⟩

/-- Deleting every key empties the accumulator. -/
theorem clearResources_empty (x : Metering) : (clearResources x).Spec.Resources = [] := by
  unfold clearResources
  simp only
  apply mapDelete_foldl
  intro kv hkv
  exact ⟨kv, hkv, rfl⟩

/-- The outcomes of a billing pass on a stored record `m`: either the store is as it was (and
the pass succeeded only because the interval had not elapsed), or the interval had elapsed,
the ledger list is as it was (zero cost) or extended by the new ledger object (positive cost,
free name), and the record is untouched (failure), cleared (failure), or cleared and rotated
(success). -/
theorem billingPass_cases (r : MeteringReconcile) (now : Int) (req : NamespacedName)
    (w : World) (m : Metering) (hfind : w.store.findMetering req = some m) :
    ((billingPass r now req w).2.2.store = w.store ∧
      ((billingPass r now req w).2.1 = none → overTimeInterval now m = false)) ∨
    (overTimeInterval now m = true ∧
      (billingPass r now req w).2.2.store.Resources = w.store.Resources ∧
      (((CalculateCost m).1 = 0 ∧
          (billingPass r now req w).2.2.store.AccountBalances = w.store.AccountBalances) ∨
        (0 < (CalculateCost m).1 ∧
          w.store.findAccountBalance (newAccountBalance r now m (CalculateCost m).1).key = none ∧
          (billingPass r now req w).2.2.store.AccountBalances = w.store.AccountBalances ++
            [newAccountBalance r now m (CalculateCost m).1])) ∧
      (((billingPass r now req w).2.1 ≠ none ∧
          (billingPass r now req w).2.2.store.findMetering req = some m) ∨
        ((billingPass r now req w).2.1 ≠ none ∧
          (billingPass r now req w).2.2.store.findMetering req = some (clearResources m)) ∨
        ((billingPass r now req w).2.1 = none ∧
          (billingPass r now req w).1 = ⟨true, Minute * r.MeteringInterval⟩ ∧
          (billingPass r now req w).2.2.store.findMetering req
            = some { clearResources m with
                Status := rotateBillingList now (CalculateCost m).1 m.Status }))) := by
  have hmk := findMetering_key _ _ _ hfind
  have hgs := getMetering_store req w
  unfold billingPass
  rcases getMetering_result req w with ⟨_, _, hr⟩ | ⟨fl, _, _, hr⟩
  swap
  · left
    rcases hg : getMetering req w with ⟨res, w1⟩
    rw [hg] at hr hgs
    simp only at hr hgs
    subst hr
    cases fl <;> exact ⟨hgs, by simp [Fault.toErr, IgnoreNotFound]⟩
  rw [hfind] at hr
  rcases hg : getMetering req w with ⟨res, w1⟩
  rw [hg] at hr hgs
  simp only at hr hgs
  subst hr
  simp only
  by_cases hov : overTimeInterval now m = true
  swap
  · left
    rw [if_neg hov]
    exact ⟨hgs, fun _ => by simpa using hov⟩
  rw [if_pos hov]
  have hcc : CalculateCost m = ((CalculateCost m).1, none) := rfl
  rw [hcc]
  simp only
  generalize (CalculateCost m).1 = total
  have hfind1 : w1.store.findMetering req = some m := by rw [hgs]; exact hfind
  rcases hca : createAccountBalance r now m total w1 with ⟨e1, w2⟩
  have hcab := createAccountBalance_cases r now m total w1
  rw [hca] at hcab
  simp only at hcab
  -- the ledger step
  have hledger : (e1 ≠ none ∧ w2.store = w.store) ∨ (e1 = none ∧
      w2.store.Meterings = w.store.Meterings ∧ w2.store.Resources = w.store.Resources ∧
      ((total = 0 ∧ w2.store.AccountBalances = w.store.AccountBalances) ∨
        (0 < total ∧ w.store.findAccountBalance (newAccountBalance r now m total).key = none ∧
          w2.store.AccountBalances
            = w.store.AccountBalances ++ [newAccountBalance r now m total]))) := by
    rcases hcab with ⟨h1, h2⟩ | ⟨h1, h2, h3, h4⟩
    · cases e1 with
      | some e => left; exact ⟨by simp, by rw [h1, hgs]⟩
      | none =>
        right
        refine ⟨rfl, by rw [h1, hgs], by rw [h1, hgs], Or.inl ⟨h2 rfl, by rw [h1, hgs]⟩⟩
    · right
      rw [hgs] at h3 h4
      refine ⟨h1, by rw [h4], by rw [h4], Or.inr ⟨h2, h3, by rw [h4]⟩⟩
  rcases hledger with ⟨he1, hs2⟩ | ⟨he1, hm2, hr2, hab2⟩
  · left
    cases e1 with
    | none => exact absurd rfl he1
    | some e => exact ⟨hs2, by simp⟩
  subst he1
  simp only
  have hfind2 : w2.store.findMetering m.key = some m := by
    rw [hmk]
    unfold Store.findMetering at hfind ⊢
    rw [hm2]
    exact hfind
  rcases hcl : clearResourceUsed m w2 with ⟨e2, m2, w3⟩
  have hclc := CreateOrUpdate_cases m m clearResources w2 hfind2 clearResources_key
  unfold clearResourceUsed at hcl
  rw [hcl] at hclc
  simp only at hclc
  rw [hmk] at hclc hfind2
  rcases hclc with ⟨he2, hs3⟩ | ⟨he2, hm2eq, hf3, hr3, hab3⟩
  · -- the reset failed: only the ledger step is visible
    right
    cases e2 with
    | none => exact absurd rfl he2
    | some e =>
      simp only
      refine ⟨hov, by rw [hs3, hr2], ?_, Or.inl ⟨by simp, by rw [hs3]; exact hfind2⟩⟩
      rw [hs3]
      exact hab2
  subst he2
  subst hm2eq
  simp only
  have hfind3 : w3.store.findMetering (clearResources m).key = some (clearResources m) := by
    rw [clearResources_key, hmk]
    exact hf3
  rcases hub : updateBillingList now total (clearResources m) w3 with ⟨e3, m3, w4⟩
  right
  refine ⟨hov, ?_, ?_, ?_⟩
  · cases e3 with
    | some e =>
      have h := updateBillingList_retry_err now total (clearResources m) DefaultRetrySteps none
        (clearResources m) w3 hfind3 (by
          unfold updateBillingList RetryOnConflict at hub
          rw [hub]; simp)
      unfold updateBillingList RetryOnConflict at hub
      rw [hub] at h
      simp only at h ⊢
      rw [h, hr3, hr2]
    | none =>
      have h := (updateBillingList_retry now total (clearResources m) 4 none
        (clearResources m) w3 hfind3 (by
          unfold updateBillingList RetryOnConflict DefaultRetrySteps at hub
          rw [hub])).2.1
      unfold updateBillingList RetryOnConflict DefaultRetrySteps at hub
      rw [hub] at h
      simp only at h ⊢
      rw [h, hr3, hr2]
  · cases e3 with
    | some e =>
      have h := updateBillingList_retry_err now total (clearResources m) DefaultRetrySteps none
        (clearResources m) w3 hfind3 (by
          unfold updateBillingList RetryOnConflict at hub
          rw [hub]; simp)
      unfold updateBillingList RetryOnConflict at hub
      rw [hub] at h
      simp only at h ⊢
      rw [h, hab3]
      exact hab2
    | none =>
      have h := (updateBillingList_retry now total (clearResources m) 4 none
        (clearResources m) w3 hfind3 (by
          unfold updateBillingList RetryOnConflict DefaultRetrySteps at hub
          rw [hub])).2.2
      unfold updateBillingList RetryOnConflict DefaultRetrySteps at hub
      rw [hub] at h
      simp only at h ⊢
      rw [h, hab3]
      exact hab2
  · cases e3 with
    | some e =>
      right; left
      have h := updateBillingList_retry_err now total (clearResources m) DefaultRetrySteps none
        (clearResources m) w3 hfind3 (by
          unfold updateBillingList RetryOnConflict at hub
          rw [hub]; simp)
      unfold updateBillingList RetryOnConflict at hub
      rw [hub] at h
      simp only at h ⊢
      rw [h]
      exact ⟨by simp, hf3⟩
    | none =>
      right; right
      have h := (updateBillingList_retry now total (clearResources m) 4 none
        (clearResources m) w3 hfind3 (by
          unfold updateBillingList RetryOnConflict DefaultRetrySteps at hub
          rw [hub])).1
      unfold updateBillingList RetryOnConflict DefaultRetrySteps at hub
      rw [hub] at h
      simp only at h ⊢
      rw [clearResources_key, hmk] at h
      exact ⟨trivial, trivial, h⟩

/-! ## Passes that meet no store fault -/

theorem CreateOrUpdate_noFault (obj m : Metering) (f : Metering → Metering) (w : World)
    (hf : w.faults = []) (hfind : w.store.findMetering obj.key = some m)
    (hkey : ∀ x, (f x).key = x.key) :
    (CreateOrUpdate obj f w).1 = none ∧ (CreateOrUpdate obj f w).2.2.faults = [] := by
  have hmk := findMetering_key _ _ _ hfind
  unfold CreateOrUpdate getMetering
  rw [nextFault_nil w hf]
  simp only [hfind]
  by_cases heq : m = f m
  · rw [if_pos heq]
    constructor <;> first | rfl | trivial
  · rw [if_neg heq]
    unfold updateMetering
    rw [nextFault_nil w hf]
    have hk : (f m).key = obj.key := by rw [hkey, hmk]
    simp only [hk, hfind]
    constructor <;> first | rfl | trivial

/-- A billing pass on a stored record whose interval has elapsed and whose cost is zero
succeeds when no store call fails. -/
theorem billingPass_zero_noFault (r : MeteringReconcile) (now : Int) (req : NamespacedName)
    (w : World) (m : Metering) (hf : w.faults = [])
    (hfind : w.store.findMetering req = some m) (hov : overTimeInterval now m = true)
    (hzero : (CalculateCost m).1 = 0) :
    (billingPass r now req w).2.1 = none := by
  have hmk := findMetering_key _ _ _ hfind
  have hfindk : w.store.findMetering m.key = some m := by rw [hmk]; exact hfind
  unfold billingPass getMetering
  rw [nextFault_nil w hf]
  simp only [hfind, hov, if_true]
  have hcc : CalculateCost m = (0, none) := by
    rw [← hzero]
    rfl
  rw [hcc]
  simp only [createAccountBalance, if_true]
  obtain ⟨h1, h2⟩ := CreateOrUpdate_noFault m m clearResources w hf hfindk clearResources_key
  rcases CreateOrUpdate_cases m m clearResources w hfindk clearResources_key with
    ⟨h3, _⟩ | ⟨_, h4, h5, _, _⟩
  · exact absurd h1 h3
  · unfold clearResourceUsed
    rcases hcl : CreateOrUpdate m clearResources w with ⟨e2, m2, w3⟩
    rw [hcl] at h1 h2 h4 h5
    simp only at h1 h2 h4 h5
    subst h1
    subst h4
    simp only
    have hfind3 : w3.store.findMetering (clearResources m).key = some (clearResources m) := by
      rw [clearResources_key]
      exact h5
    have hok := updateBillingList_noFault now 0 (clearResources m) (clearResources m) w3
      hfind3 h2
    rcases hub : updateBillingList now 0 (clearResources m) w3 with ⟨e3, m3, w4⟩
    rw [hub] at hok
    simp only at hok
    subst hok
    rfl

/-! ## C1: the history rotation step -/

/-- C1: `updateBillingList` on a stored record with hourly list `H`, daily list `D`, total `T`
and sequence `S` succeeds when no store call fails, and whenever it succeeds the stored record
has: hourly list `H ++ [{now, a, unsettled}]` when that list has fewer than 24 entries, and
otherwise that list without its first 24 entries, with one daily entry carrying the sum of
those 24 amounts appended to `D` (`D` unchanged in the first case); total `T + a`; last billing
time `now`; sequence `S + 1`; the same spec. -/
theorem updateBillingList_rotation (now a : Int) (mp m : Metering) (w : World)
    (hfind : w.store.findMetering mp.key = some m) :
    (w.faults = [] → (updateBillingList now a mp w).1 = none) ∧
    ((updateBillingList now a mp w).1 = none →
      ∃ m1, (updateBillingList now a mp w).2.2.store.findMetering mp.key = some m1 ∧
        m1.Spec = m.Spec ∧
        ((m.Status.BillingListH ++ [(⟨now, .HOUR, false, a⟩ : BillingList)]).length < 24 →
          m1.Status.BillingListH
            = m.Status.BillingListH ++ [(⟨now, .HOUR, false, a⟩ : BillingList)] ∧
          m1.Status.BillingListD = m.Status.BillingListD) ∧
        (24 ≤ (m.Status.BillingListH ++ [(⟨now, .HOUR, false, a⟩ : BillingList)]).length →
          m1.Status.BillingListH
            = (m.Status.BillingListH ++ [(⟨now, .HOUR, false, a⟩ : BillingList)]).drop 24 ∧
          m1.Status.BillingListD = m.Status.BillingListD ++
            [(⟨now, .DAY, false,
              (((m.Status.BillingListH ++ [(⟨now, .HOUR, false, a⟩ : BillingList)]).take 24).map
                (fun b => b.Amount)).sum⟩ : BillingList)]) ∧
        m1.Status.TotalAmount = m.Status.TotalAmount + a ∧
        m1.Status.LatestUpdateTime = now ∧
        m1.Status.SeqID = m.Status.SeqID + 1) := by
  refine ⟨updateBillingList_noFault now a mp m w hfind, ?_⟩
  intro hok
  have h := (updateBillingList_retry now a m 4 none mp w hfind hok).1
  refine ⟨_, h, rfl, ?_, ?_, rfl, rfl, rfl⟩
  · intro hlt
    have hn : ¬ 24 ≤ (m.Status.BillingListH ++ [NewBillingList now .HOUR a]).length :=
      Nat.not_le.mpr hlt
    simp only [rotateBillingList, if_neg hn]
    exact ⟨rfl, trivial⟩
  · intro hge
    have hge1 : 24 ≤ (m.Status.BillingListH ++ [NewBillingList now .HOUR a]).length := hge
    simp only [rotateBillingList, if_pos hge1]
    refine ⟨rfl, ?_⟩
    rw [foldl_range_amount _ 24 hge1]
    rfl

theorem updateBillingList_rotation_witness :
    sampleWorld.store.findMetering sampleMetering.key = some sampleMetering ∧
    (updateBillingList 3600 5 sampleMetering sampleWorld).1 = none ∧
    ∃ m1, (updateBillingList 3600 5 sampleMetering sampleWorld).2.2.store.findMetering
        sampleMetering.key = some m1 ∧
      m1.Status.BillingListH = [] ∧
      m1.Status.BillingListD = [⟨3600, .DAY, false, 120⟩] ∧
      m1.Status.TotalAmount = 120 ∧ m1.Status.LatestUpdateTime = 3600 ∧
      m1.Status.SeqID = 24 := by
  have h := updateBillingList_rotation 3600 5 sampleMetering sampleMetering sampleWorld
    (by decide)
  refine ⟨by decide, h.1 rfl, ?_⟩
  obtain ⟨m1, h1, _, _, h3, h4, h5, h6⟩ := h.2 (h.1 rfl)
  have h3 := h3 (by decide)
  refine ⟨m1, h1, ?_, ?_, ?_, h5, ?_⟩
  · rw [h3.1]; decide
  · rw [h3.2]; decide
  · rw [h4]; decide
  · rw [h6]; decide

/-! ## C2: total billed and the ledger -/

theorem ledgerSum_append (o : String) (s : Store) (a : AccountBalance) (h : a.Owner = o) :
    ledgerSum o { s with AccountBalances := s.AccountBalances ++ [a] }
      = ledgerSum o s + a.Amount := by
  unfold ledgerSum
  simp [List.filter_append, h]

theorem ledgerSum_congr (o : String) (s1 s2 : Store)
    (h : s1.AccountBalances = s2.AccountBalances) : ledgerSum o s1 = ledgerSum o s2 := by
  unfold ledgerSum
  rw [h]

theorem findMetering_setAccumulator (s : Store) (req : NamespacedName) (usage : ResourceMap)
    (m : Metering) (hfind : s.findMetering req = some m) :
    (setAccumulator req usage s).findMetering req
      = some { m with Spec := { m.Spec with Resources := usage } } := by
  have hmk := findMetering_key _ _ _ hfind
  unfold Store.findMetering setAccumulator at *
  simp only
  rw [find?_map_keep, hfind]
  · simp [hmk]
  · intro x
    by_cases hx : x.key = req
    · rw [if_pos hx]
      have : ({ x with Spec := { x.Spec with Resources := usage } } : Metering).key = x.key := rfl
      rw [this]
    · rw [if_neg hx]

/-- One clean pass keeps the total billed equal to the owner's ledger sum. -/
theorem runPass_invariant (r : MeteringReconcile) (req : NamespacedName) (o : String)
    (w : World) (p : PassInput) (hclean : cleanPass r req w p = true)
    (hinv : ∃ m, w.store.findMetering req = some m ∧ m.Spec.Owner = o ∧
      m.Status.TotalAmount = ledgerSum o w.store) :
    ∃ m, (runPass r req w p).store.findMetering req = some m ∧ m.Spec.Owner = o ∧
      m.Status.TotalAmount = ledgerSum o (runPass r req w p).store := by
  obtain ⟨m, hfind, ho, htot⟩ := hinv
  have hfind1 := findMetering_setAccumulator w.store req p.usage m hfind
  have hab1 : (passStart req w p).store.AccountBalances = w.store.AccountBalances := rfl
  have hl1 : ledgerSum o (passStart req w p).store = ledgerSum o w.store :=
    ledgerSum_congr _ _ _ hab1
  unfold cleanPass at hclean
  rw [decide_eq_true_eq] at hclean
  unfold runPass
  have hc := billingPass_cases r p.now req (passStart req w p) _ hfind1
  rcases hc with ⟨hs, _⟩ | ⟨_, _, hled, hrec⟩
  · rw [hs]
    exact ⟨_, hfind1, ho, by rw [hl1]; exact htot⟩
  · rcases hled with ⟨ht0, hab⟩ | ⟨_, _, hab⟩
    · have hl : ledgerSum o (billingPass r p.now req (passStart req w p)).2.2.store
          = ledgerSum o w.store := by rw [ledgerSum_congr _ _ _ hab, hl1]
      rcases hrec with ⟨_, hf⟩ | ⟨_, hf⟩ | ⟨_, _, hf⟩
      · exact ⟨_, hf, ho, by rw [hl]; exact htot⟩
      · exact ⟨_, hf, ho, by rw [hl]; exact htot⟩
      · refine ⟨_, hf, ho, ?_⟩
        rw [hl]
        simp only [rotateBillingList, ht0, add_zero]
        exact htot
    · have hl : ledgerSum o (billingPass r p.now req (passStart req w p)).2.2.store
          = ledgerSum o w.store + (CalculateCost
              { m with Spec := { m.Spec with Resources := p.usage } }).1 := by
        have h1 := ledgerSum_append o (passStart req w p).store
          (newAccountBalance r p.now { m with Spec := { m.Spec with Resources := p.usage } }
            (CalculateCost { m with Spec := { m.Spec with Resources := p.usage } }).1) ho
        rw [hl1] at h1
        exact (ledgerSum_congr _ _ _ hab).trans h1
      have hne : (billingPass r p.now req (passStart req w p)).2.2.store.AccountBalances
          ≠ (passStart req w p).store.AccountBalances := by
        rw [hab]
        intro h
        have := congrArg List.length h
        simp at this
      rcases hrec with ⟨he, _⟩ | ⟨he, _⟩ | ⟨_, _, hf⟩
      · rcases hclean with h | h
        · exact absurd h he
        · exact absurd h hne
      · rcases hclean with h | h
        · exact absurd h he
        · exact absurd h hne
      · refine ⟨_, hf, ho, ?_⟩
        rw [hl]
        simp only [rotateBillingList]
        rw [htot]

theorem runPasses_invariant (r : MeteringReconcile) (req : NamespacedName) (o : String)
    (ps : List PassInput) :
    ∀ w : World, cleanRun r req ps w = true →
      (∃ m, w.store.findMetering req = some m ∧ m.Spec.Owner = o ∧
        m.Status.TotalAmount = ledgerSum o w.store) →
      ∃ m, (runPasses r req ps w).store.findMetering req = some m ∧ m.Spec.Owner = o ∧
        m.Status.TotalAmount = ledgerSum o (runPasses r req ps w).store := by
  induction ps with
  | nil =>
    intro w _ hinv
    exact hinv
  | cons p ps ih =>
    intro w hclean hinv
    simp only [cleanRun, Bool.and_eq_true] at hclean
    unfold runPasses
    rw [List.foldl_cons]
    exact ih (runPass r req w p) hclean.2 (runPass_invariant r req o w p hclean.1 hinv)

/-- C2 (as stated, refuted): from a fresh record with an accumulated `cpu` cost of 10, one
billing pass whose fourth store call (the accumulator reset) fails leaves a ledger object of
amount 10 for the owner while the record's total billed is still 0. -/
theorem totalAmount_ledger_counterexample :
    freshWorld.store.findMetering freshMetering.key = some freshMetering ∧
    ledgerSum "a" freshWorld.store = 0 ∧
    (billingPass sampleReconcile 3600 freshMetering.key
      (passStart freshMetering.key freshWorld
        ⟨3600, [none, none, none, some .Unavailable], cpuUsage⟩)).2.1 = some .Unavailable ∧
    ((runPasses sampleReconcile freshMetering.key
        [⟨3600, [none, none, none, some .Unavailable], cpuUsage⟩]
        freshWorld).store.findMetering freshMetering.key).map
      (fun m => m.Status.TotalAmount) = some 0 ∧
    ledgerSum "a" (runPasses sampleReconcile freshMetering.key
        [⟨3600, [none, none, none, some .Unavailable], cpuUsage⟩] freshWorld).store = 10 := by
  decide

/-- C2 (amended): starting from a record with total billed 0 and no ledger object of its owner,
after any run of billing passes on the record, with any clocks, fault schedules and
accumulator contents, in which every pass completes or fails without having created a ledger
object, the record is still stored and its total billed equals the sum of the amounts of the
owner's ledger objects. -/
theorem totalAmount_eq_ledgerSum (r : MeteringReconcile) (req : NamespacedName) (w : World)
    (m0 : Metering) (ps : List PassInput)
    (hfind : w.store.findMetering req = some m0)
    (hfresh : m0.Status.TotalAmount = 0)
    (hledger : ∀ a ∈ w.store.AccountBalances, a.Owner ≠ m0.Spec.Owner)
    (hclean : cleanRun r req ps w = true) :
    ∃ m, (runPasses r req ps w).store.findMetering req = some m ∧
      m.Spec.Owner = m0.Spec.Owner ∧
      m.Status.TotalAmount = ledgerSum m0.Spec.Owner (runPasses r req ps w).store := by
  apply runPasses_invariant r req m0.Spec.Owner ps w hclean
  refine ⟨m0, hfind, rfl, ?_⟩
  rw [hfresh]
  unfold ledgerSum
  have : w.store.AccountBalances.filter (fun a => decide (a.Owner = m0.Spec.Owner)) = [] := by
    rw [List.filter_eq_nil_iff]
    intro a ha
    simpa using hledger a ha
  rw [this]
  rfl

theorem totalAmount_eq_ledgerSum_witness :
    cleanRun sampleReconcile freshMetering.key
      [⟨3600, [], cpuUsage⟩, ⟨5000, [], cpuUsage⟩, ⟨7200, [some .Unavailable], cpuUsage⟩,
        ⟨7200, [], cpuUsage⟩] freshWorld = true ∧
    ∃ m, (runPasses sampleReconcile freshMetering.key
        [⟨3600, [], cpuUsage⟩, ⟨5000, [], cpuUsage⟩, ⟨7200, [some .Unavailable], cpuUsage⟩,
          ⟨7200, [], cpuUsage⟩] freshWorld).store.findMetering freshMetering.key = some m ∧
      m.Spec.Owner = freshMetering.Spec.Owner ∧
      m.Status.TotalAmount = ledgerSum freshMetering.Spec.Owner
        (runPasses sampleReconcile freshMetering.key
          [⟨3600, [], cpuUsage⟩, ⟨5000, [], cpuUsage⟩, ⟨7200, [some .Unavailable], cpuUsage⟩,
            ⟨7200, [], cpuUsage⟩] freshWorld).store :=
  ⟨by decide, totalAmount_eq_ledgerSum sampleReconcile freshMetering.key freshWorld
    freshMetering _ (by decide) (by decide) (by decide) (by decide)⟩

/-! ## C3 and C5: passes that must fail without effect -/

/-- C3: for a stored record whose pass computes a positive total cost (the interval has
elapsed) and whose ledger name `<pfx>-<owner>-<sequenceID>` is already taken in the store, the
billing pass returns an error under every fault schedule and leaves the whole store as it was:
the existing ledger object is not overwritten, no second object is created, and the record's
accumulator, history, total and sequence are unchanged. -/
theorem billingPass_duplicate_ledger (r : MeteringReconcile) (now : Int) (req : NamespacedName)
    (w : World) (m : Metering) (existing : AccountBalance)
    (hfind : w.store.findMetering req = some m)
    (hov : overTimeInterval now m = true)
    (hpos : 0 < (CalculateCost m).1)
    (hdup : w.store.findAccountBalance
      ⟨r.MeteringSystemNamespace, accountBalanceName r m.Spec.Owner m.Status.SeqID⟩
        = some existing) :
    (billingPass r now req w).2.1 ≠ none ∧
    (billingPass r now req w).2.2.store = w.store := by
  rcases billingPass_cases r now req w m hfind with ⟨hs, he⟩ | ⟨_, _, hled, _⟩
  · refine ⟨fun h => ?_, hs⟩
    rw [he h] at hov
    cases hov
  · rcases hled with ⟨h0, _⟩ | ⟨_, habsent, _⟩
    · omega
    · have : (newAccountBalance r now m (CalculateCost m).1).key
          = ⟨r.MeteringSystemNamespace, accountBalanceName r m.Spec.Owner m.Status.SeqID⟩ := rfl
      rw [this, hdup] at habsent
      cases habsent

theorem billingPass_duplicate_ledger_witness :
    (billingPass sampleReconcile 3600 freshMetering.key
      (passStart freshMetering.key duplicateWorld ⟨3600, [], cpuUsage⟩)).2.1 ≠ none ∧
    (billingPass sampleReconcile 3600 freshMetering.key
      (passStart freshMetering.key duplicateWorld ⟨3600, [], cpuUsage⟩)).2.2.store
      = (passStart freshMetering.key duplicateWorld ⟨3600, [], cpuUsage⟩).store :=
  billingPass_duplicate_ledger sampleReconcile 3600 freshMetering.key
    (passStart freshMetering.key duplicateWorld ⟨3600, [], cpuUsage⟩)
    { freshMetering with Spec := { freshMetering.Spec with Resources := cpuUsage } }
    ⟨"accountbalance-a-0", "metering-system", "a", 0, 10, []⟩
    (by decide) (by decide) (by decide) (by decide)

/-- C5: for a stored record whose interval has elapsed and whose accumulator costs sum to a
negative total, the billing pass returns an error under every fault schedule and leaves the
whole store as it was: no ledger object is created and the record's accumulator, history,
total, last billing time and sequence are unchanged. -/
theorem billingPass_negative_total (r : MeteringReconcile) (now : Int) (req : NamespacedName)
    (w : World) (m : Metering)
    (hfind : w.store.findMetering req = some m)
    (hov : overTimeInterval now m = true)
    (hneg : (CalculateCost m).1 < 0) :
    (billingPass r now req w).2.1 ≠ none ∧
    (billingPass r now req w).2.2.store = w.store := by
  rcases billingPass_cases r now req w m hfind with ⟨hs, he⟩ | ⟨_, _, hled, _⟩
  · refine ⟨fun h => ?_, hs⟩
    rw [he h] at hov
    cases hov
  · rcases hled with ⟨h0, _⟩ | ⟨hpos, _, _⟩ <;> omega

theorem billingPass_negative_total_witness :
    (billingPass sampleReconcile 3600 freshMetering.key
      (passStart freshMetering.key freshWorld ⟨3600, [], negativeUsage⟩)).2.1 ≠ none ∧
    (billingPass sampleReconcile 3600 freshMetering.key
      (passStart freshMetering.key freshWorld ⟨3600, [], negativeUsage⟩)).2.2.store
      = (passStart freshMetering.key freshWorld ⟨3600, [], negativeUsage⟩).store :=
  billingPass_negative_total sampleReconcile 3600 freshMetering.key
    (passStart freshMetering.key freshWorld ⟨3600, [], negativeUsage⟩)
    { freshMetering with Spec := { freshMetering.Spec with Resources := negativeUsage } }
    (by decide) (by decide) (by decide)

/-! ## C4: the ledger name determines owner and sequence -/

/-- The value of a decimal digit character. -/
theorem digitChar_val (d : Nat) (hd : d < 10) :
    (Nat.digitChar d).toNat - 48 = d ∧ Nat.digitChar d ≠ '-' := by
  interval_cases d <;> exact ⟨by decide, by decide⟩

/-- Reading back the digits written by `Nat.toDigitsCore` gives the number. -/
theorem toDigitsCore_value (fuel : Nat) :
    ∀ (n : Nat) (ds : List Char), n < fuel →
      (Nat.toDigitsCore 10 fuel n ds).foldl (fun acc c => 10 * acc + (c.toNat - 48)) 0
        = ds.foldl (fun acc c => 10 * acc + (c.toNat - 48)) n := by
  induction fuel with
  | zero => intro n ds h; omega
  | succ fuel ih =>
    intro n ds h
    have hd := (digitChar_val (n % 10) (Nat.mod_lt _ (by decide))).1
    unfold Nat.toDigitsCore
    simp only
    by_cases h0 : n / 10 = 0
    · rw [if_pos h0, List.foldl_cons, hd]
      have : n % 10 = n := Nat.mod_eq_of_lt (by omega)
      simp [this]
    · rw [if_neg h0, ih (n / 10) _ (by omega), List.foldl_cons, hd]
      have : 10 * (n / 10) + n % 10 = n := Nat.div_add_mod n 10
      rw [this]

theorem toDigitsCore_noDash (fuel : Nat) :
    ∀ (n : Nat) (ds : List Char), (∀ c ∈ ds, c ≠ '-') →
      ∀ c ∈ Nat.toDigitsCore 10 fuel n ds, c ≠ '-' := by
  induction fuel with
  | zero =>
    intro n ds h c hc
    exact h c hc
  | succ fuel ih =>
    intro n ds h c hc
    have hd := (digitChar_val (n % 10) (Nat.mod_lt _ (by decide))).2
    have hds : ∀ c ∈ Nat.digitChar (n % 10) :: ds, c ≠ '-' := by
      intro c hc
      rcases List.mem_cons.mp hc with h1 | h1
      · rw [h1]; exact hd
      · exact h c h1
    unfold Nat.toDigitsCore at hc
    simp only at hc
    by_cases h0 : n / 10 = 0
    · rw [if_pos h0] at hc
      exact hds c hc
    · rw [if_neg h0] at hc
      exact ih _ _ hds c hc

theorem toDigits_injective (a b : Nat) (h : Nat.toDigits 10 a = Nat.toDigits 10 b) : a = b := by
  have ha := toDigitsCore_value (a + 1) a [] (Nat.lt_succ_self a)
  have hb := toDigitsCore_value (b + 1) b [] (Nat.lt_succ_self b)
  unfold Nat.toDigits at h
  rw [h, hb] at ha
  simpa using ha.symm

/-- Two lists split at a separator that does not occur in either tail split alike. -/
theorem append_sep_cancel (c : Char) :
    ∀ (l1 l2 r1 r2 : List Char), c ∉ r1 → c ∉ r2 →
      l1 ++ c :: r1 = l2 ++ c :: r2 → l1 = l2 ∧ r1 = r2 := by
  intro l1 l2 r1 r2 h1 h2 h
  have hrev : r1.reverse ++ c :: l1.reverse = r2.reverse ++ c :: l2.reverse := by
    have := congrArg List.reverse h
    simpa using this
  have key : ∀ (p1 p2 q1 q2 : List Char), c ∉ p1 → c ∉ p2 →
      p1 ++ c :: q1 = p2 ++ c :: q2 → p1 = p2 ∧ q1 = q2 := by
    intro p1
    induction p1 with
    | nil =>
      intro p2 q1 q2 _ hp2 he
      cases p2 with
      | nil => simpa using he
      | cons x xs =>
        simp at he
        exact absurd (he.1 ▸ List.mem_cons_self _ _) hp2
    | cons y ys ih =>
      intro p2 q1 q2 hp1 hp2 he
      cases p2 with
      | nil =>
        simp at he
        exact absurd (he.1 ▸ List.mem_cons_self _ _) hp1
      | cons x xs =>
        simp at he
        obtain ⟨hxy, hrest⟩ := he
        have := ih xs q1 q2 (fun hm => hp1 (List.mem_cons_of_mem _ hm))
          (fun hm => hp2 (List.mem_cons_of_mem _ hm)) hrest
        exact ⟨by rw [hxy, this.1], this.2⟩
  have := key r1.reverse r2.reverse l1.reverse l2.reverse (by simpa using h1)
    (by simpa using h2) hrev
  exact ⟨List.reverse_injective this.2, List.reverse_injective this.1⟩

/-- C4: the ledger name `<pfx>-<owner>-<sequenceID>` built by `createAccountBalance` is
injective in the owner and the sequence: for owners that are arbitrary strings (dashes
included) and non-negative sequence numbers, equal names have equal owners and equal
sequence numbers. -/
theorem accountBalanceName_injective (r : MeteringReconcile) (o1 o2 : String) (s1 s2 : Int)
    (h1 : 0 ≤ s1) (h2 : 0 ≤ s2)
    (h : accountBalanceName r o1 s1 = accountBalanceName r o2 s2) :
    o1 = o2 ∧ s1 = s2 := by
  obtain ⟨n1, rfl⟩ := Int.eq_ofNat_of_zero_le h1
  obtain ⟨n2, rfl⟩ := Int.eq_ofNat_of_zero_le h2
  have hstr : ∀ n : Nat, (toString (n : Int)).data = Nat.toDigits 10 n := fun n => rfl
  have hd := congrArg String.data h
  unfold accountBalanceName at hd
  simp only [String.data_append, hstr, List.append_assoc] at hd
  have hd1 := List.append_cancel_left hd
  have hd2 : o1.data ++ '-' :: Nat.toDigits 10 n1 = o2.data ++ '-' :: Nat.toDigits 10 n2 := by
    simpa using hd1
  have hnd : ∀ n : Nat, '-' ∉ Nat.toDigits 10 n := by
    intro n hmem
    exact toDigitsCore_noDash (n + 1) n [] (by simp) '-' hmem rfl
  obtain ⟨ho, hs⟩ := append_sep_cancel '-' _ _ _ _ (hnd n1) (hnd n2) hd2
  refine ⟨String.ext ho, ?_⟩
  rw [toDigits_injective n1 n2 hs]

theorem accountBalanceName_injective_witness :
    accountBalanceName sampleReconcile "a-1" 2 = accountBalanceName sampleReconcile "a-1" 2 ∧
    ("a-1" = "a-1" ∧ (2 : Int) = 2) :=
  ⟨rfl, accountBalanceName_injective sampleReconcile "a-1" "a-1" 2 2 (by decide) (by decide) rfl⟩

/-! ## C6: the fold of one resource entry -/

theorem mapGet_mapSet_same (k : String) (v : ResourceInfo) (m : ResourceMap) :
    mapGet k (mapSet k v m) = some v := by
  induction m with
  | nil => simp [mapSet, mapGet]
  | cons kv rest ih =>
    obtain ⟨k1, v1⟩ := kv
    by_cases h : k1 = k
    · simp [mapSet, mapGet, h]
    · simp [mapSet, mapGet, h, ih]

theorem mapGet_mapSet_ne (k k1 : String) (v : ResourceInfo) (m : ResourceMap) (hne : k1 ≠ k) :
    mapGet k1 (mapSet k v m) = mapGet k1 m := by
  induction m with
  | nil => simp [mapSet, mapGet, Ne.symm hne]
  | cons kv rest ih =>
    obtain ⟨k2, v2⟩ := kv
    by_cases h : k2 = k
    · subst h
      simp [mapSet, mapGet, Ne.symm hne]
    · by_cases h1 : k2 = k1
      · subst h1
        simp [mapSet, mapGet, h]
      · simp [mapSet, mapGet, h, h1, ih]

/-- The cost and the used quantity that a fold leaves for its kind. -/
theorem foldResource_get (now : Int) (k : String) (e : ResourceInfo) (m : Metering) :
    (mapGet k (foldResource now k e m).Spec.Resources).map (fun v => (v.Cost, v.Used))
      = some (match mapGet k m.Spec.Resources with
          | none => (e.Cost, e.Used)
          | some cur => (cur.Cost + e.Cost, cur.Used + e.Used)) := by
  unfold foldResource
  cases hg : mapGet k m.Spec.Resources with
  | none => simp [mapGet_mapSet_same]
  | some cur => simp [mapGet_mapSet_same]

/-- C6: folding an entry `e` of kind `k` into the accumulator of a record inserts `e` verbatim
when `k` is absent, and otherwise leaves for `k` the cost `existing + incoming` and the used
quantity `existing + incoming`; every other kind is unchanged; and for two entries of the
same kind the resulting cost and used quantity for that kind do not depend on the order of
the two folds. -/
theorem foldResource_correct (now : Int) (k : String) (e : ResourceInfo) (m : Metering) :
    (mapGet k m.Spec.Resources = none →
      mapGet k (foldResource now k e m).Spec.Resources = some e) ∧
    (∀ cur, mapGet k m.Spec.Resources = some cur →
      ∃ v, mapGet k (foldResource now k e m).Spec.Resources = some v ∧
        v.Cost = cur.Cost + e.Cost ∧ v.Used = cur.Used + e.Used) ∧
    (∀ k1, k1 ≠ k →
      mapGet k1 (foldResource now k e m).Spec.Resources = mapGet k1 m.Spec.Resources) ∧
    (∀ (now1 now2 : Int) (e1 e2 : ResourceInfo),
      (mapGet k (foldResource now2 k e2 (foldResource now1 k e1 m)).Spec.Resources).map
          (fun v => (v.Cost, v.Used))
        = (mapGet k (foldResource now1 k e1 (foldResource now2 k e2 m)).Spec.Resources).map
          (fun v => (v.Cost, v.Used))) := by
  refine ⟨?_, ?_, ?_, ?_⟩
  · intro h
    unfold foldResource
    rw [h]
    exact mapGet_mapSet_same _ _ _
  · intro cur h
    unfold foldResource
    rw [h]
    exact ⟨_, mapGet_mapSet_same _ _ _, rfl, rfl⟩
  · intro k1 hne
    unfold foldResource
    cases mapGet k m.Spec.Resources with
    | none => exact mapGet_mapSet_ne _ _ _ _ hne
    | some cur => exact mapGet_mapSet_ne _ _ _ _ hne
  · intro now1 now2 e1 e2
    rw [foldResource_get, foldResource_get]
    have h1 := foldResource_get now1 k e1 m
    have h2 := foldResource_get now2 k e2 m
    cases hg1 : mapGet k (foldResource now1 k e1 m).Spec.Resources with
    | none => rw [hg1] at h1; cases h1
    | some v1 =>
      cases hg2 : mapGet k (foldResource now2 k e2 m).Spec.Resources with
      | none => rw [hg2] at h2; cases h2
      | some v2 =>
        rw [hg1] at h1
        rw [hg2] at h2
        simp only [Option.map_some', Option.some.injEq, Prod.mk.injEq] at h1 h2
        cases hg : mapGet k m.Spec.Resources with
        | none =>
          rw [hg] at h1 h2
          simp only [Prod.mk.injEq] at h1 h2
          simp only [Option.some.injEq, Prod.mk.injEq]
          rw [h1.1, h1.2, h2.1, h2.2]
          exact ⟨add_comm _ _, add_comm _ _⟩
        | some cur =>
          rw [hg] at h1 h2
          simp only [Prod.mk.injEq] at h1 h2
          simp only [Option.some.injEq, Prod.mk.injEq]
          rw [h1.1, h1.2, h2.1, h2.2]
          constructor <;> ring

/-- The `cpu` costs 10 and 15 fold to 25 in either order. -/
theorem foldResource_correct_witness :
    (mapGet "cpu" (foldResource 2 "cpu" ⟨3, 2, "ns-a", 15, ""⟩
        (foldResource 1 "cpu" ⟨4, 1, "ns-a", 10, ""⟩ freshMetering)).Spec.Resources).map
      (fun v => (v.Cost, v.Used)) = some (25, 7) ∧
    (mapGet "cpu" (foldResource 1 "cpu" ⟨4, 1, "ns-a", 10, ""⟩
        (foldResource 2 "cpu" ⟨3, 2, "ns-a", 15, ""⟩ freshMetering)).Spec.Resources).map
      (fun v => (v.Cost, v.Used)) = some (25, 7) := by
  have h := (foldResource_correct 0 "cpu" ⟨0, 0, "", 0, ""⟩ freshMetering).2.2.2 1 2
    ⟨4, 1, "ns-a", 10, ""⟩ ⟨3, 2, "ns-a", 15, ""⟩
  refine ⟨by decide, ?_⟩
  rw [← h]
  decide

/-! ## C7: the `Complete` mark inside the ingestion loop -/

/-- C7 (the code at the failing input): a pending record with a `cpu` and a `memory` entry is
ingested; the `cpu` entry is folded and the record is marked `Complete`; the fold of the
`memory` entry then fails.  The pass returns the error, the record is `Complete` in the store
although `memory` was never folded, and a later delivery of the record changes nothing. -/
theorem ingestionPass_complete_before_all_folded :
    (ingestionPass sampleReconcile 100 sampleResource.key ingestWorld).2.1
      = some .Unavailable ∧
    ((ingestionPass sampleReconcile 100 sampleResource.key ingestWorld).2.2.store.findResource
      sampleResource.key).map (fun x => x.Status) = some .Complete ∧
    ((ingestionPass sampleReconcile 100 sampleResource.key ingestWorld).2.2.store.findMetering
      freshMetering.key).map (fun m => (mapGet "cpu" m.Spec.Resources).map (fun v => v.Cost))
      = some (some 10) ∧
    ((ingestionPass sampleReconcile 100 sampleResource.key ingestWorld).2.2.store.findMetering
      freshMetering.key).map (fun m => mapGet "memory" m.Spec.Resources) = some none ∧
    (ingestionPass sampleReconcile 200 sampleResource.key
      (ingestionPass sampleReconcile 100 sampleResource.key ingestWorld).2.2).2.2.store
      = (ingestionPass sampleReconcile 100 sampleResource.key ingestWorld).2.2.store := by
  decide

/-! ## C8: terminal records are skipped -/

theorem getResource_result (k : NamespacedName) (w : World) :
    (getResource k w).2.store = w.store ∧
    (((nextFault w).1 = none ∧ (getResource k w).1 =
        (match w.store.findResource k with
          | some x => Except.ok x
          | none => Except.error Err.NotFound)) ∨
      (∃ f : Fault, (nextFault w).1 = some f ∧ (getResource k w).1 = Except.error f.toErr)) := by
  have hs := nextFault_store w
  unfold getResource
  rcases hnf : nextFault w with ⟨f, w1⟩
  rw [hnf] at hs
  simp only at hs
  cases f with
  | some f => exact ⟨hs, Or.inr ⟨f, rfl, rfl⟩⟩
  | none =>
    simp only [hs]
    cases w.store.findResource k <;> exact ⟨hs, Or.inl ⟨trivial, rfl⟩⟩

/-- One delivery of a terminal record leaves the store as it was. -/
theorem ingestionPass_terminal_store (r : MeteringReconcile) (now : Int) (req : NamespacedName)
    (w : World) (x : Resource) (hfind : w.store.findResource req = some x)
    (hterm : x.Status = .Complete ∨ x.DeletionTimestamp ≠ none) :
    (ingestionPass r now req w).2.2.store = w.store ∧
    ((nextFault w).1 = none →
      (ingestionPass r now req w).1 = ⟨false, 0⟩ ∧ (ingestionPass r now req w).2.1 = none) := by
  obtain ⟨hgs, hres⟩ := getResource_result req w
  unfold ingestionPass
  rcases hg : getResource req w with ⟨res, w1⟩
  rw [hg] at hgs hres
  simp only at hgs hres
  rcases hres with ⟨_, hres⟩ | ⟨f, hf, hres⟩
  · rw [hfind] at hres
    subst hres
    simp only [if_pos hterm]
    exact ⟨hgs, fun _ => ⟨trivial, trivial⟩⟩
  · subst hres
    have hne : IgnoreNotFound (some f.toErr) ≠ none := by
      cases f <;> simp [Fault.toErr, IgnoreNotFound]
    simp only [if_pos hne]
    refine ⟨hgs, fun h => ?_⟩
    rw [h] at hf
    cases hf

/-- C8: for a stored Resource-Usage Record whose status is `Complete` or whose deletion
timestamp is set, a delivery to the ingestion sections leaves the whole store as it was under
every fault schedule (no accumulator and no record is modified), returns success whenever the
read of the record itself does not fail, and any number of further deliveries, each with its
own clock and fault schedule, still leave the store as it was. -/
theorem ingestionPass_skips_terminal (r : MeteringReconcile) (now : Int)
    (req : NamespacedName) (w : World) (x : Resource)
    (hfind : w.store.findResource req = some x)
    (hterm : x.Status = .Complete ∨ x.DeletionTimestamp ≠ none) :
    (ingestionPass r now req w).2.2.store = w.store ∧
    ((nextFault w).1 = none →
      (ingestionPass r now req w).1 = ⟨false, 0⟩ ∧ (ingestionPass r now req w).2.1 = none) ∧
    ∀ ds : List (Int × List (Option Fault)), (deliverAll r req ds w).store = w.store := by
  obtain ⟨h1, h2⟩ := ingestionPass_terminal_store r now req w x hfind hterm
  refine ⟨h1, h2, ?_⟩
  intro ds
  unfold deliverAll
  have key : ∀ (ds : List (Int × List (Option Fault))) (w1 : World), w1.store = w.store →
      (ds.foldl (fun w2 d => (ingestionPass r d.1 req { w2 with faults := d.2 }).2.2)
        w1).store = w.store := by
    intro ds
    induction ds with
    | nil => intro w1 h; exact h
    | cons d ds ih =>
      intro w1 h
      rw [List.foldl_cons]
      apply ih
      have hf1 : ({ w1 with faults := d.2 } : World).store.findResource req = some x := by
        show w1.store.findResource req = some x
        rw [h]; exact hfind
      rw [(ingestionPass_terminal_store r d.1 req _ x hf1 hterm).1]
      exact h
  exact key ds w rfl

theorem ingestionPass_skips_terminal_witness :
    (ingestionPass sampleReconcile 100 sampleResource.key completeWorld).2.2.store
      = completeWorld.store ∧
    ((nextFault completeWorld).1 = none →
      (ingestionPass sampleReconcile 100 sampleResource.key completeWorld).1 = ⟨false, 0⟩ ∧
      (ingestionPass sampleReconcile 100 sampleResource.key completeWorld).2.1 = none) ∧
    ∀ ds : List (Int × List (Option Fault)),
      (deliverAll sampleReconcile sampleResource.key ds completeWorld).store
        = completeWorld.store :=
  ingestionPass_skips_terminal sampleReconcile 100 sampleResource.key completeWorld
    { sampleResource with Status := .Complete } (by decide) (Or.inl rfl)

/-! ## C9: the elapsed test -/

theorem durationSeconds_minute : DurationSeconds Minute = 60 := by decide

/-- C9: `overTimeInterval` holds exactly when `now - lastBillingTimestamp` is at least the
record's own interval in minutes times 60 seconds; and when it does not hold, the billing
pass on the stored record leaves the whole store as it was under every fault schedule: no
ledger object is created and the record's accumulator, history, totals and sequence are
unchanged. -/
theorem overTimeInterval_gates_billing (r : MeteringReconcile) (now : Int)
    (req : NamespacedName) (w : World) (m : Metering)
    (hfind : w.store.findMetering req = some m) :
    (overTimeInterval now m = true ↔
      now - m.Status.LatestUpdateTime ≥ m.Spec.TimeInterval * 60) ∧
    (overTimeInterval now m = false → (billingPass r now req w).2.2.store = w.store) := by
  constructor
  · unfold overTimeInterval
    rw [decide_eq_true_eq, durationSeconds_minute, mul_comm]
  · intro hov
    rcases billingPass_cases r now req w m hfind with ⟨hs, _⟩ | ⟨h, _⟩
    · exact hs
    · rw [hov] at h
      cases h

theorem overTimeInterval_gates_billing_witness :
    (overTimeInterval 3599 { freshMetering with
        Spec := { freshMetering.Spec with Resources := cpuUsage } } = true ↔
      (3599 : Int) - 0 ≥ 60 * 60) ∧
    (overTimeInterval 3599 { freshMetering with
        Spec := { freshMetering.Spec with Resources := cpuUsage } } = false →
      (billingPass sampleReconcile 3599 freshMetering.key
        (passStart freshMetering.key freshWorld ⟨3599, [], cpuUsage⟩)).2.2.store
        = (passStart freshMetering.key freshWorld ⟨3599, [], cpuUsage⟩).store) :=
  overTimeInterval_gates_billing sampleReconcile 3599 freshMetering.key
    (passStart freshMetering.key freshWorld ⟨3599, [], cpuUsage⟩)
    { freshMetering with Spec := { freshMetering.Spec with Resources := cpuUsage } }
    (by decide)

/-! ## C10: the zero-cost period -/

/-- C10: for a stored record whose interval has elapsed and whose accumulator costs sum to
exactly 0, the billing pass succeeds when no store call fails, and whenever it succeeds it has
created no ledger object, the stored record has an accumulator with no entries, the same
total billed, the sequence advanced by 1, the last billing time `now`, and the hourly history
extended by a zero-amount entry (the first 24 entries of the extended list rotated into one
daily entry when it reaches 24). -/
theorem billingPass_zero_cost (r : MeteringReconcile) (now : Int) (req : NamespacedName)
    (w : World) (m : Metering)
    (hfind : w.store.findMetering req = some m)
    (hov : overTimeInterval now m = true)
    (hzero : (CalculateCost m).1 = 0) :
    (w.faults = [] → (billingPass r now req w).2.1 = none) ∧
    ((billingPass r now req w).2.1 = none →
      (billingPass r now req w).2.2.store.AccountBalances = w.store.AccountBalances ∧
      ∃ m1, (billingPass r now req w).2.2.store.findMetering req = some m1 ∧
        m1.Spec.Resources = [] ∧
        m1.Status.TotalAmount = m.Status.TotalAmount ∧
        m1.Status.SeqID = m.Status.SeqID + 1 ∧
        m1.Status.LatestUpdateTime = now ∧
        m1.Status.BillingListH
          = (if (m.Status.BillingListH ++ [(⟨now, .HOUR, false, 0⟩ : BillingList)]).length < 24
              then m.Status.BillingListH ++ [(⟨now, .HOUR, false, 0⟩ : BillingList)]
              else (m.Status.BillingListH ++ [(⟨now, .HOUR, false, 0⟩ : BillingList)]).drop 24)
        ∧ m1.Status = rotateBillingList now 0 m.Status) := by
  refine ⟨fun hf => billingPass_zero_noFault r now req w m hf hfind hov hzero, ?_⟩
  intro hok
  rcases billingPass_cases r now req w m hfind with ⟨_, he⟩ | ⟨_, _, hled, hrec⟩
  · rw [he hok] at hov
    cases hov
  · have hab : (billingPass r now req w).2.2.store.AccountBalances
        = w.store.AccountBalances := by
      rcases hled with ⟨_, h⟩ | ⟨h, _, _⟩
      · exact h
      · omega
    refine ⟨hab, ?_⟩
    rcases hrec with ⟨he, _⟩ | ⟨he, _⟩ | ⟨_, _, hf⟩
    · exact absurd hok he
    · exact absurd hok he
    · rw [hzero] at hf
      refine ⟨_, hf, clearResources_empty m, ?_, rfl, rfl, ?_, rfl⟩
      · simp [rotateBillingList]
      · simp only [rotateBillingList, NewBillingList]
        by_cases hlen : (m.Status.BillingListH
            ++ [(⟨now, .HOUR, false, 0⟩ : BillingList)]).length < 24
        · rw [if_pos hlen, if_neg (Nat.not_le.mpr hlen)]
        · rw [if_neg hlen, if_pos (Nat.le_of_not_lt hlen)]

theorem billingPass_zero_cost_witness :
    ((passStart freshMetering.key freshWorld ⟨3600, [], zeroUsage⟩).faults = [] →
      (billingPass sampleReconcile 3600 freshMetering.key
        (passStart freshMetering.key freshWorld ⟨3600, [], zeroUsage⟩)).2.1 = none) ∧
    ((billingPass sampleReconcile 3600 freshMetering.key
        (passStart freshMetering.key freshWorld ⟨3600, [], zeroUsage⟩)).2.1 = none →
      (billingPass sampleReconcile 3600 freshMetering.key
        (passStart freshMetering.key freshWorld ⟨3600, [], zeroUsage⟩)).2.2.store.AccountBalances
        = (passStart freshMetering.key freshWorld ⟨3600, [], zeroUsage⟩).store.AccountBalances ∧
      ∃ m1, (billingPass sampleReconcile 3600 freshMetering.key
          (passStart freshMetering.key freshWorld
            ⟨3600, [], zeroUsage⟩)).2.2.store.findMetering freshMetering.key = some m1 ∧
        m1.Spec.Resources = [] ∧
        m1.Status.TotalAmount = 0 ∧
        m1.Status.SeqID = 0 + 1 ∧
        m1.Status.LatestUpdateTime = 3600 ∧
        m1.Status.BillingListH
          = (if (([] : List BillingList) ++ [(⟨3600, .HOUR, false, 0⟩ : BillingList)]).length < 24
              then [] ++ [(⟨3600, .HOUR, false, 0⟩ : BillingList)]
              else (([] : List BillingList) ++ [(⟨3600, .HOUR, false, 0⟩ : BillingList)]).drop 24)
        ∧ m1.Status = rotateBillingList 3600 0 freshMetering.Status) :=
  billingPass_zero_cost sampleReconcile 3600 freshMetering.key
    (passStart freshMetering.key freshWorld ⟨3600, [], zeroUsage⟩)
    { freshMetering with Spec := { freshMetering.Spec with Resources := zeroUsage } }
    (by decide) (by decide) (by decide)

/-! ## C11: the revisit requested by a pass that does not bill -/

/-- C11 (as stated, refuted): a record with interval 60 minutes and last billing time 0 is
reconciled at second 3599.  The elapsed test is false and the pass succeeds without billing,
the remaining time is 1 second, and the revisit is requested after 3600 seconds. -/
theorem billingPass_rearm_counterexample :
    overTimeInterval 3599 freshMetering = false ∧
    (billingPass sampleReconcile 3599 freshMetering.key freshWorld).2.1 = none ∧
    (billingPass sampleReconcile 3599 freshMetering.key freshWorld).2.2.store
      = freshWorld.store ∧
    (freshMetering.Spec.TimeInterval * 60 - (3599 - freshMetering.Status.LatestUpdateTime))
      * Second = 1 * Second ∧
    (billingPass sampleReconcile 3599 freshMetering.key freshWorld).1.RequeueAfter
      = 3600 * Second ∧
    (billingPass sampleReconcile 3599 freshMetering.key freshWorld).1.RequeueAfter
      ≠ (freshMetering.Spec.TimeInterval * 60
          - (3599 - freshMetering.Status.LatestUpdateTime)) * Second := by
  decide

/-- C11 (amended): for a stored record whose elapsed test is false at time `now`, a billing
pass whose read of the record does not fail stops without billing (the store is as it was),
returns success, and requests a revisit after the reconciler's full configured interval,
`MeteringInterval` minutes, whatever time remains of the record's own interval. -/
theorem billingPass_rearm_full_interval (r : MeteringReconcile) (now : Int)
    (req : NamespacedName) (w : World) (m : Metering)
    (hfind : w.store.findMetering req = some m)
    (hread : (nextFault w).1 = none)
    (hov : overTimeInterval now m = false) :
    (billingPass r now req w).1 = ⟨true, Minute * r.MeteringInterval⟩ ∧
    (billingPass r now req w).2.1 = none ∧
    (billingPass r now req w).2.2.store = w.store := by
  have hs := nextFault_store w
  unfold billingPass getMetering
  rcases hnf : nextFault w with ⟨f, w1⟩
  rw [hnf] at hread hs
  simp only at hread hs
  subst hread
  simp only [hs, hfind, hov]
  rw [if_neg (by decide)]
  exact ⟨rfl, rfl, hs⟩

theorem billingPass_rearm_full_interval_witness :
    (billingPass sampleReconcile 3599 freshMetering.key freshWorld).1
      = ⟨true, Minute * sampleReconcile.MeteringInterval⟩ ∧
    (billingPass sampleReconcile 3599 freshMetering.key freshWorld).2.1 = none ∧
    (billingPass sampleReconcile 3599 freshMetering.key freshWorld).2.2.store
      = freshWorld.store :=
  billingPass_rearm_full_interval sampleReconcile 3599 freshMetering.key freshWorld
    freshMetering (by decide) (by decide) (by decide)

/-! ## C12: the history after any number of rotations -/

/-- The history after folding `rotateBillingList` over a list of `(clock, amount)` pairs from
an empty history: the hourly list is the last `n mod 24` entries, and the daily amounts are the
sums of the successive blocks of 24 amounts. -/
theorem rotate_foldl_history (T0 L0 S0 : Int) (xs : List (Int × Int)) :
    (xs.foldl (fun st x => rotateBillingList x.1 x.2 st) ⟨[], [], T0, L0, S0⟩).BillingListH
      = (xs.drop (xs.length - xs.length % 24)).map
          (fun x => (⟨x.1, .HOUR, false, x.2⟩ : BillingList)) ∧
    (xs.foldl (fun st x => rotateBillingList x.1 x.2 st) ⟨[], [], T0, L0, S0⟩).BillingListD.map
        (fun b => b.Amount)
      = (List.range (xs.length / 24)).map
          (fun k => (((xs.drop (24 * k)).take 24).map (fun x => x.2)).sum) := by
  induction xs using List.reverseRecOn with
  | nil => exact ⟨rfl, rfl⟩
  | append_singleton xs x ih =>
    obtain ⟨ihH, ihD⟩ := ih
    rw [List.foldl_append, List.foldl_cons, List.foldl_nil]
    generalize hst : xs.foldl (fun st x => rotateBillingList x.1 x.2 st) ⟨[], [], T0, L0, S0⟩
      = st at ihH ihD
    have hlenH : st.BillingListH.length = xs.length % 24 := by
      rw [ihH, List.length_map, List.length_drop]
      have := Nat.mod_le xs.length 24
      omega
    have hlen1 : (xs ++ [x]).length = xs.length + 1 := by simp
    have hblocks : ∀ k ∈ List.range (xs.length / 24),
        ((((xs ++ [x]).drop (24 * k)).take 24).map (fun x => x.2)).sum
          = (((xs.drop (24 * k)).take 24).map (fun x => x.2)).sum := by
      intro k hk
      rw [List.mem_range] at hk
      have h1 : 24 * k ≤ xs.length := by omega
      rw [List.drop_append_of_le_length h1, List.take_append_of_le_length]
      rw [List.length_drop]
      omega
    by_cases hcase : 24 ≤ (st.BillingListH ++ [NewBillingList x.1 .HOUR x.2]).length
    · -- the 24th entry of a window: rotate
      have hmod : xs.length % 24 = 23 := by
        rw [List.length_append, hlenH] at hcase
        simp at hcase
        have := Nat.mod_lt xs.length (show 24 > 0 by decide)
        omega
      have hlen24 : (st.BillingListH ++ [NewBillingList x.1 .HOUR x.2]).length = 24 := by
        rw [List.length_append, hlenH, hmod]
        rfl
      simp only [rotateBillingList, if_pos hcase]
      constructor
      · rw [List.drop_of_length_le (by omega), hlen1]
        have : xs.length + 1 - (xs.length + 1) % 24 = xs.length + 1 := by omega
        rw [this, List.drop_of_length_le (by simp)]
        rfl
      · rw [List.map_append, ihD, foldl_range_amount _ 24 hcase]
        have hdiv : (xs ++ [x]).length / 24 = xs.length / 24 + 1 := by
          rw [hlen1]; omega
        rw [hdiv, List.range_succ, List.map_append, List.map_congr_left hblocks]
        congr 1
        simp only [List.map_cons, List.map_nil, NewBillingList]
        congr 1
        have hk : 24 * (xs.length / 24) = xs.length - xs.length % 24 := by omega
        have hle : xs.length - xs.length % 24 ≤ xs.length := Nat.sub_le _ _
        have hdl : (xs.drop (xs.length - xs.length % 24)).length = 23 := by
          rw [List.length_drop]; omega
        have htake : ((xs.drop (xs.length - xs.length % 24)) ++ [x]).take 24
            = (xs.drop (xs.length - xs.length % 24)) ++ [x] :=
          List.take_of_length_le (by rw [List.length_append, hdl]; simp)
        have htakeH : (st.BillingListH ++ [NewBillingList x.1 .HOUR x.2]).take 24
            = st.BillingListH ++ [NewBillingList x.1 .HOUR x.2] :=
          List.take_of_length_le (by rw [hlen24])
        rw [hk, List.drop_append_of_le_length hle, htake]
        have htakeH1 : (st.BillingListH ++ [(⟨x.1, .HOUR, false, x.2⟩ : BillingList)]).take 24
            = st.BillingListH ++ [(⟨x.1, .HOUR, false, x.2⟩ : BillingList)] := htakeH
        rw [htakeH1, ihH]
        simp [List.map_append, List.map_map, Function.comp_def]
    · -- inside a window: append
      have hmod : xs.length % 24 < 23 := by
        rw [List.length_append, hlenH] at hcase
        simp at hcase
        omega
      simp only [rotateBillingList, if_neg hcase]
      constructor
      · rw [ihH, hlen1]
        have h1 : xs.length + 1 - (xs.length + 1) % 24 = xs.length - xs.length % 24 := by omega
        have hle : xs.length - xs.length % 24 ≤ xs.length := Nat.sub_le _ _
        rw [h1, List.drop_append_of_le_length hle, List.map_append]
        rfl
      · have hdiv : (xs ++ [x]).length / 24 = xs.length / 24 := by
          rw [hlen1]; omega
        rw [ihD, hdiv, List.map_congr_left hblocks]

/-- A run of rotations that succeeds has folded `rotateBillingList` over the stored status. -/
theorem rotateAll_fold (mp : Metering) (xs : List (Int × Int × List (Option Fault))) :
    ∀ (w w1 : World) (m : Metering), w.store.findMetering mp.key = some m →
      rotateAll mp xs w = some w1 →
      w1.store.findMetering mp.key = some { m with
        Status := (xs.map (fun x => (x.1, x.2.1))).foldl
          (fun st x => rotateBillingList x.1 x.2 st) m.Status } := by
  induction xs with
  | nil =>
    intro w w1 m hfind hrun
    simp only [rotateAll, Option.some.injEq] at hrun
    subst hrun
    exact hfind
  | cons x xs ih =>
    intro w w1 m hfind hrun
    obtain ⟨now, amount, faults⟩ := x
    have hfind0 : ({ w with faults := faults } : World).store.findMetering mp.key = some m :=
      hfind
    rw [rotateAll] at hrun
    rcases hub : updateBillingList now amount mp { w with faults := faults }
      with ⟨e, m2, w2⟩
    rw [hub] at hrun
    cases e with
    | some e => simp at hrun
    | none =>
      simp only at hrun
      have h := (updateBillingList_retry now amount m 4 none mp _ hfind0 (by
        unfold updateBillingList RetryOnConflict DefaultRetrySteps at hub
        rw [hub])).1
      unfold updateBillingList RetryOnConflict DefaultRetrySteps at hub
      rw [hub] at h
      simp only at h
      have := ih w2 w1 _ h hrun
      rw [this]
      rfl

/-- A run of rotations whose store calls all succeed does not fail. -/
theorem rotateAll_noFault (mp : Metering) (xs : List (Int × Int × List (Option Fault))) :
    ∀ (w : World) (m : Metering), w.store.findMetering mp.key = some m →
      (∀ x ∈ xs, x.2.2 = []) → (rotateAll mp xs w).isSome = true := by
  induction xs with
  | nil =>
    intro w m _ _
    rfl
  | cons x xs ih =>
    intro w m hfind hnf
    obtain ⟨now, amount, faults⟩ := x
    have hf : faults = [] := hnf (now, amount, faults) (List.mem_cons_self _ _)
    have hfind0 : ({ w with faults := faults } : World).store.findMetering mp.key = some m :=
      hfind
    have hok := updateBillingList_noFault now amount mp m { w with faults := faults } hfind0 hf
    rw [rotateAll]
    rcases hub : updateBillingList now amount mp { w with faults := faults }
      with ⟨e, m2, w2⟩
    rw [hub] at hok
    simp only at hok
    subst hok
    simp only
    have h := (updateBillingList_retry now amount m 4 none mp _ hfind0 (by
      unfold updateBillingList RetryOnConflict DefaultRetrySteps at hub
      rw [hub])).1
    unfold updateBillingList RetryOnConflict DefaultRetrySteps at hub
    rw [hub] at h
    simp only at h
    exact ih w2 _ h (fun y hy => hnf y (List.mem_cons_of_mem _ hy))

/-- C12: starting from a stored record with empty hourly and daily history, a run of `n`
history rotations with amounts `a_1 .. a_n` (any `n`) does not fail when no store call fails,
and whenever all `n` rotations succeed the stored hourly list is exactly the entries of the
last `n mod 24` rotations in order, the daily list has exactly `n / 24` entries, the amount of
the daily entry number `k` (from 0) is the sum of the amounts `a_(24k+1) .. a_(24k+24)`, and
the hourly list holds fewer than 24 entries. -/
theorem rotateAll_history (mp m : Metering) (w : World)
    (xs : List (Int × Int × List (Option Fault)))
    (hfind : w.store.findMetering mp.key = some m)
    (hH : m.Status.BillingListH = []) (hD : m.Status.BillingListD = []) :
    ((∀ x ∈ xs, x.2.2 = []) → (rotateAll mp xs w).isSome = true) ∧
    ∀ w1, rotateAll mp xs w = some w1 →
      ∃ m1, w1.store.findMetering mp.key = some m1 ∧
        m1.Status.BillingListH = (xs.drop (xs.length - xs.length % 24)).map
          (fun x => (⟨x.1, .HOUR, false, x.2.1⟩ : BillingList)) ∧
        m1.Status.BillingListH.length = xs.length % 24 ∧
        m1.Status.BillingListH.length < 24 ∧
        m1.Status.BillingListD.length = xs.length / 24 ∧
        m1.Status.BillingListD.map (fun b => b.Amount)
          = (List.range (xs.length / 24)).map
              (fun k => (((xs.drop (24 * k)).take 24).map (fun x => x.2.1)).sum) := by
  refine ⟨rotateAll_noFault mp xs w m hfind, ?_⟩
  intro w1 hrun
  have hf := rotateAll_fold mp xs w w1 m hfind hrun
  have hst : m.Status = ⟨[], [], m.Status.TotalAmount, m.Status.LatestUpdateTime,
      m.Status.SeqID⟩ := by
    cases hs : m.Status with
    | mk H D T L S =>
      rw [hs] at hH hD
      simp only at hH hD
      rw [hH, hD]
  rw [hst] at hf
  obtain ⟨h1, h2⟩ := rotate_foldl_history m.Status.TotalAmount m.Status.LatestUpdateTime
    m.Status.SeqID (xs.map (fun x => (x.1, x.2.1)))
  simp only [List.length_map] at h1 h2
  have hH1 : (List.foldl (fun st x => rotateBillingList x.1 x.2 st)
      ⟨[], [], m.Status.TotalAmount, m.Status.LatestUpdateTime, m.Status.SeqID⟩
      (xs.map (fun x => (x.1, x.2.1)))).BillingListH
      = (xs.drop (xs.length - xs.length % 24)).map
          (fun x => (⟨x.1, .HOUR, false, x.2.1⟩ : BillingList)) := by
    rw [h1, ← List.map_drop, List.map_map]
    rfl
  have hD1 : (List.foldl (fun st x => rotateBillingList x.1 x.2 st)
      ⟨[], [], m.Status.TotalAmount, m.Status.LatestUpdateTime, m.Status.SeqID⟩
      (xs.map (fun x => (x.1, x.2.1)))).BillingListD.map (fun b => b.Amount)
      = (List.range (xs.length / 24)).map
          (fun k => (((xs.drop (24 * k)).take 24).map (fun x => x.2.1)).sum) := by
    rw [h2]
    apply List.map_congr_left
    intro k _
    rw [← List.map_drop, ← List.map_take, List.map_map]
    rfl
  have hlen : ((xs.drop (xs.length - xs.length % 24)).map
      (fun x => (⟨x.1, .HOUR, false, x.2.1⟩ : BillingList))).length = xs.length % 24 := by
    rw [List.length_map, List.length_drop]
    have := Nat.mod_le xs.length 24
    omega
  refine ⟨_, hf, hH1, ?_, ?_, ?_, hD1⟩
  · simp only
    rw [hH1, hlen]
  · simp only
    rw [hH1, hlen]
    exact Nat.mod_lt _ (by decide)
  · have := congrArg List.length hD1
    simpa using this

/-- Twenty-four rotations of amount 5 give one daily entry of 120 and an empty hourly list; the
25th rotation leaves exactly one hourly entry. -/
theorem rotateAll_history_witness :
    (∃ w1, rotateAll freshMetering (List.replicate 24 (0, 5, [])) freshWorld = some w1 ∧
      ∃ m1, w1.store.findMetering freshMetering.key = some m1 ∧
        m1.Status.BillingListH = [] ∧
        m1.Status.BillingListD.map (fun b => b.Amount) = [120]) ∧
    (∃ w1, rotateAll freshMetering (List.replicate 25 (0, 5, [])) freshWorld = some w1 ∧
      ∃ m1, w1.store.findMetering freshMetering.key = some m1 ∧
        m1.Status.BillingListH = [⟨0, .HOUR, false, 5⟩] ∧
        m1.Status.BillingListD.map (fun b => b.Amount) = [120]) := by
  have h24 := rotateAll_history freshMetering freshMetering freshWorld
    (List.replicate 24 (0, 5, [])) (by decide) rfl rfl
  have h25 := rotateAll_history freshMetering freshMetering freshWorld
    (List.replicate 25 (0, 5, [])) (by decide) rfl rfl
  constructor
  · have hs := h24.1 (by decide)
    obtain ⟨w1, hw1⟩ := Option.isSome_iff_exists.mp hs
    obtain ⟨m1, hf, hH, _, _, _, hD⟩ := h24.2 w1 hw1
    exact ⟨w1, hw1, m1, hf, by rw [hH]; decide, by rw [hD]; decide⟩
  · have hs := h25.1 (by decide)
    obtain ⟨w1, hw1⟩ := Option.isSome_iff_exists.mp hs
    obtain ⟨m1, hf, hH, _, _, _, hD⟩ := h25.2 w1 hw1
    exact ⟨w1, hw1, m1, hf, by rw [hH]; decide, by rw [hD]; decide⟩

/-! ## Lemmas on the sampler's per-pod map -/

theorem setContainerEntry_ne (fl : FloatOps) (now : Int) (pc : PodResource) (pod : Pod)
    (infos : ResourceMap) (k k1 : String) (q u : Int) (hne : k ≠ k1) :
    mapGet k (setContainerEntry fl now pc pod infos k1 q u) = mapGet k infos := by
  unfold setContainerEntry
  cases mapGet k1 infos with
  | none => exact mapGet_mapSet_ne _ _ _ _ hne
  | some cur => exact mapGet_mapSet_ne _ _ _ _ hne

/-- Adding a container's quantity of one kind leaves every other kind as it was. -/
theorem addContainerResource_ne (fl : FloatOps) (now : Int) (pc : PodResource) (pod : Pod)
    (con : Container) (infos infos1 : ResourceMap) (k k1 : String) (hne : k ≠ k1)
    (h : addContainerResource fl now pc pod con infos k1 = some infos1) :
    mapGet k infos1 = mapGet k infos := by
  unfold addContainerResource at h
  cases hq : checkResourceExist k1 con with
  | none =>
    rw [hq] at h
    simp only [Option.some.injEq] at h
    rw [← h]
  | some q =>
    rw [hq] at h
    cases hu : (priceOf pc k1).Unit with
    | none => rw [hu] at h; simp at h
    | some u =>
      rw [hu] at h
      simp only [Option.some.injEq] at h
      rw [← h]
      exact setContainerEntry_ne fl now pc pod infos k k1 q u hne

theorem addContainerResource_same (fl : FloatOps) (now : Int) (pc : PodResource) (pod : Pod)
    (con : Container) (infos infos1 : ResourceMap) (k : String)
    (h : addContainerResource fl now pc pod con infos k = some infos1) :
    (mapGet k infos1).map (fun v => (v.Cost, v.Used))
      = addDeclared fl pc k ((mapGet k infos).map (fun v => (v.Cost, v.Used)))
          (checkResourceExist k con) := by
  unfold addContainerResource at h
  unfold addDeclared
  cases hq : checkResourceExist k con with
  | none =>
    rw [hq] at h
    simp only [Option.some.injEq] at h
    rw [← h]
  | some q =>
    rw [hq] at h
    cases hu : (priceOf pc k).Unit with
    | none => rw [hu] at h; simp at h
    | some u =>
      rw [hu] at h
      simp only [Option.some.injEq] at h
      have hunit : unitOf pc k = u := by
        unfold unitOf
        rw [hu]
        rfl
      rw [← h, hunit]
      unfold setContainerEntry
      cases hg : mapGet k infos with
      | none => simp [mapGet_mapSet_same]
      | some cur => simp [mapGet_mapSet_same]

/-- The loop body does not panic on a kind whose unit is set. -/
theorem addContainerResource_some (fl : FloatOps) (now : Int) (pc : PodResource) (pod : Pod)
    (con : Container) (infos : ResourceMap) (k : String) (hu : (priceOf pc k).Unit ≠ none) :
    ∃ infos1, addContainerResource fl now pc pod con infos k = some infos1 := by
  unfold addContainerResource
  cases checkResourceExist k con with
  | none => exact ⟨_, rfl⟩
  | some q =>
    cases hu1 : (priceOf pc k).Unit with
    | none => exact absurd hu1 hu
    | some u => exact ⟨_, rfl⟩

/-- The loop over a price table whose kinds all have a unit does not panic; it does not touch
a kind that the table does not list, and, the kinds being distinct, it adds the container's
declared quantity of a listed kind exactly once. -/
theorem priceLoop_spec (fl : FloatOps) (now : Int) (pc : PodResource) (pod : Pod)
    (con : Container) (k : String) (l : PriceMap) :
    ∀ infos : ResourceMap, (∀ k1 ∈ l.map Prod.fst, (priceOf pc k1).Unit ≠ none) →
      ∃ infos1, l.foldlM
          (fun infos2 kv => addContainerResource fl now pc pod con infos2 kv.1) infos
          = some infos1 ∧
        (k ∉ l.map Prod.fst → mapGet k infos1 = mapGet k infos) ∧
        ((l.map Prod.fst).Nodup → k ∈ l.map Prod.fst →
          (mapGet k infos1).map (fun v => (v.Cost, v.Used))
            = addDeclared fl pc k ((mapGet k infos).map (fun v => (v.Cost, v.Used)))
                (checkResourceExist k con)) := by
  induction l with
  | nil =>
    intro infos _
    exact ⟨infos, rfl, fun _ => rfl, fun _ hk => by simp at hk⟩
  | cons kv l ih =>
    intro infos hu
    obtain ⟨mid, hmid⟩ := addContainerResource_some fl now pc pod con infos kv.1
      (hu kv.1 (by simp))
    obtain ⟨infos1, hfold, habs, hpres⟩ := ih mid (fun k1 hk1 => hu k1 (by
      rw [List.map_cons]
      exact List.mem_cons_of_mem _ hk1))
    refine ⟨infos1, ?_, ?_, ?_⟩
    · rw [List.foldlM_cons, hmid]
      exact hfold
    · intro hk
      have hk1 : k ∉ l.map Prod.fst := fun h => hk (by
        rw [List.map_cons]
        exact List.mem_cons_of_mem _ h)
      have hne : k ≠ kv.1 := fun h => hk (by simp [h])
      rw [habs hk1]
      exact addContainerResource_ne fl now pc pod con infos mid k kv.1 hne hmid
    · intro hnd hk
      rw [List.map_cons, List.nodup_cons] at hnd
      by_cases hkv : kv.1 = k
      · have hk1 : k ∉ l.map Prod.fst := by rw [← hkv]; exact hnd.1
        rw [habs hk1]
        rw [hkv] at hmid
        exact addContainerResource_same fl now pc pod con infos mid k hmid
      · have hk1 : k ∈ l.map Prod.fst := by
          rw [List.map_cons, List.mem_cons] at hk
          rcases hk with h | h
          · exact absurd h.symm hkv
          · exact h
        rw [hpres hnd.2 hk1,
          addContainerResource_ne fl now pc pod con infos mid k kv.1 (fun h => hkv h.symm) hmid]

/-- The two nested loops do not panic when every listed kind has a unit, and they fold the
declared quantities of a listed kind, container by container. -/
theorem containerLoop_fold (fl : FloatOps) (now : Int) (pc : PodResource) (pod : Pod)
    (k : String) (hnd : (pc.Resources.map Prod.fst).Nodup) (hk : k ∈ pc.Resources.map Prod.fst)
    (hu : ∀ k1 ∈ pc.Resources.map Prod.fst, (priceOf pc k1).Unit ≠ none)
    (cs : List Container) :
    ∀ infos : ResourceMap,
      ∃ infos1, cs.foldlM
          (fun infos2 con =>
            pc.Resources.foldlM
              (fun infos3 kv => addContainerResource fl now pc pod con infos3 kv.1) infos2)
          infos = some infos1 ∧
        (mapGet k infos1).map (fun v => (v.Cost, v.Used))
          = cs.foldl (fun acc con => addDeclared fl pc k acc (checkResourceExist k con))
              ((mapGet k infos).map (fun v => (v.Cost, v.Used))) := by
  induction cs with
  | nil => intro infos; exact ⟨infos, rfl, rfl⟩
  | cons con cs ih =>
    intro infos
    obtain ⟨mid, hmid, _, hpres⟩ := priceLoop_spec fl now pc pod con k pc.Resources infos hu
    obtain ⟨infos1, hfold, hval⟩ := ih mid
    refine ⟨infos1, ?_, ?_⟩
    · rw [List.foldlM_cons, hmid]
      exact hfold
    · rw [hval, List.foldl_cons, hpres hnd hk]

/-- The two nested loops do not panic when every listed kind has a unit. -/
theorem containerLoop_some (fl : FloatOps) (now : Int) (pc : PodResource) (pod : Pod)
    (hu : ∀ k1 ∈ pc.Resources.map Prod.fst, (priceOf pc k1).Unit ≠ none)
    (cs : List Container) :
    ∀ infos : ResourceMap,
      ∃ infos1, cs.foldlM
          (fun infos2 con =>
            pc.Resources.foldlM
              (fun infos3 kv => addContainerResource fl now pc pod con infos3 kv.1) infos2)
          infos = some infos1 := by
  induction cs with
  | nil => intro infos; exact ⟨infos, rfl⟩
  | cons con cs ih =>
    intro infos
    obtain ⟨mid, hmid, _, _⟩ := priceLoop_spec fl now pc pod con "" pc.Resources infos hu
    obtain ⟨infos1, hfold⟩ := ih mid
    exact ⟨infos1, by rw [List.foldlM_cons, hmid]; exact hfold⟩

/-- Folding declared quantities into an accumulator that already holds a value adds the sums. -/
theorem addDeclared_foldl_some (fl : FloatOps) (pc : PodResource) (k : String)
    (cs : List Container) :
    ∀ cu : Int × Int,
      cs.foldl (fun acc con => addDeclared fl pc k acc (checkResourceExist k con)) (some cu)
        = some (cu.1 + ((cs.filterMap (checkResourceExist k)).map
              (fun q => fl.quot (q * (priceOf pc k).Price) (unitOf pc k))).sum,
            cu.2 + (cs.filterMap (checkResourceExist k)).sum) := by
  induction cs with
  | nil => intro cu; simp
  | cons con cs ih =>
    intro cu
    rw [List.foldl_cons]
    cases hq : checkResourceExist k con with
    | none =>
      rw [List.filterMap_cons, hq]
      exact ih cu
    | some q =>
      rw [List.filterMap_cons, hq]
      have h1 : addDeclared fl pc k (some cu) (some q)
          = some (cu.1 + fl.quot (q * (priceOf pc k).Price) (unitOf pc k), cu.2 + q) := rfl
      rw [h1, ih]
      simp only [List.map_cons, List.sum_cons]
      congr 1
      ext <;> simp only <;> ring

/-- Folding declared quantities from nothing gives nothing when no container declares the
kind, and the sums of the costs and of the quantities otherwise. -/
theorem addDeclared_foldl_none (fl : FloatOps) (pc : PodResource) (k : String)
    (cs : List Container) :
    cs.foldl (fun acc con => addDeclared fl pc k acc (checkResourceExist k con)) none
      = if cs.filterMap (checkResourceExist k) = [] then none
        else some (((cs.filterMap (checkResourceExist k)).map
              (fun q => fl.quot (q * (priceOf pc k).Price) (unitOf pc k))).sum,
            (cs.filterMap (checkResourceExist k)).sum) := by
  induction cs with
  | nil => rfl
  | cons con cs ih =>
    rw [List.foldl_cons]
    cases hq : checkResourceExist k con with
    | none =>
      rw [List.filterMap_cons, hq]
      exact ih
    | some q =>
      rw [List.filterMap_cons, hq]
      have h1 : addDeclared fl pc k none (some q)
          = some (fl.quot (q * (priceOf pc k).Price) (unitOf pc k), q) := rfl
      rw [h1, addDeclared_foldl_some]
      simp

/-- The storage step leaves every kind other than `storage` as it was. -/
theorem setStorageEntry_ne (fl : FloatOps) (now : Int) (pc : PodResource) (pod : Pod)
    (storage u : Int) (infos : ResourceMap) (k : String) (hne : k ≠ "storage") :
    mapGet k (setStorageEntry fl now pc pod storage u infos) = mapGet k infos := by
  unfold setStorageEntry
  cases mapGet "storage" infos with
  | none => exact mapGet_mapSet_ne _ _ _ _ hne
  | some cur => exact mapGet_mapSet_ne _ _ _ _ hne

/-- When every listed kind and `storage` have a unit, the record of a pod exists; it is named
from the pod's namespace, the pod's name and the sampler's sequence, and for a listed kind
other than `storage` it carries the sums over the quantities that the pod's containers
declare. -/
theorem podRecord_sums (r : PodResourceReconciler) (fl : FloatOps) (now : Int)
    (pc : PodResource) (s : Store) (pod : Pod)
    (hnd : (pc.Resources.map Prod.fst).Nodup)
    (hu : ∀ k1 ∈ pc.Resources.map Prod.fst, (priceOf pc k1).Unit ≠ none)
    (hs : (priceOf pc "storage").Unit ≠ none) :
    ∃ x, podRecord r fl now pc s pod = some x ∧
      x.key = ⟨r.MeteringSystemNamespace, GetResourceName r pod.Namespace pod.Name pc.SeqID⟩ ∧
      ∀ k ∈ pc.Resources.map Prod.fst, k ≠ "storage" →
        (mapGet k x.Resources).map (fun v => (v.Cost, v.Used))
          = if declaredQuantities k pod = [] then none
            else some (((declaredQuantities k pod).map
                  (fun q => fl.quot (q * (priceOf pc k).Price) (unitOf pc k))).sum,
                (declaredQuantities k pod).sum) := by
  obtain ⟨infos, hinfos⟩ := containerLoop_some fl now pc pod hu pod.Containers []
  cases hsu : (priceOf pc "storage").Unit with
  | none => exact absurd hsu hs
  | some u =>
    refine ⟨newResource r pod
      (setStorageEntry fl now pc pod (storageOf r s pod.Namespace) u infos) pc, ?_, rfl, ?_⟩
    · unfold podRecord containerResources
      rw [hinfos]
      simp only [addStorage, hsu]
    · intro k hk hne
      obtain ⟨infos1, hinfos1, hval⟩ := containerLoop_fold fl now pc pod k hnd hk hu
        pod.Containers []
      rw [hinfos] at hinfos1
      simp only [Option.some.injEq] at hinfos1
      subst hinfos1
      unfold newResource declaredQuantities
      simp only
      rw [setStorageEntry_ne _ _ _ _ _ _ _ _ hne, hval]
      exact addDeclared_foldl_none fl pc k pod.Containers

/-! ## Lemmas on a sampling pass that meets no store fault -/

theorem checkPodNamespace_noFault (r : PodResourceReconciler) (pod : Pod) (w : World)
    (hf : w.faults = []) :
    checkPodNamespace r pod w = (isTenantNamespace r w.store pod.Namespace, w) := by
  unfold checkPodNamespace getNamespace isTenantNamespace
  rw [nextFault_nil w hf]
  simp only
  cases h : w.store.findNamespace pod.Namespace <;> simp only [h]

theorem getResourceQuota_noFault (k : NamespacedName) (w : World) (q : ResourceQuota)
    (hf : w.faults = []) (hq : w.store.findResourceQuota k = some q) :
    getResourceQuota k w = (.ok q, w) := by
  unfold getResourceQuota
  rw [nextFault_nil w hf]
  simp only [hq]

theorem syncResource_noFault (r : PodResourceReconciler) (pod : Pod) (cr : ResourceMap)
    (pc : PodResource) (w : World) (hf : w.faults = [])
    (hfree : w.store.findResource (newResource r pod cr pc).key = none) :
    (syncResource r pod cr pc w).2
      = { w with store := { w.store with
            Resources := w.store.Resources ++ [newResource r pod cr pc] } } := by
  unfold syncResource getResource
  rw [nextFault_nil w hf]
  simp only [hfree]
  unfold createResourceObj
  rw [nextFault_nil w hf]
  simp only [hfree]

theorem findResource_append_ne (s : Store) (x : Resource) (k : NamespacedName)
    (hne : x.key ≠ k) (hfree : s.findResource k = none) :
    ({ s with Resources := s.Resources ++ [x] } : Store).findResource k = none := by
  unfold Store.findResource at hfree ⊢
  simp only
  rw [List.find?_append, hfree]
  simp [hne]

/-- The record of a pod when the container loops and the storage step do not panic. -/
theorem podRecord_eq (r : PodResourceReconciler) (fl : FloatOps) (now : Int)
    (pc : PodResource) (s : Store) (pod : Pod) (infos : ResourceMap) (u : Int)
    (hc : containerResources fl now pc pod = some infos)
    (hs : (priceOf pc "storage").Unit = some u) :
    podRecord r fl now pc s pod
      = some (newResource r pod
          (setStorageEntry fl now pc pod (storageOf r s pod.Namespace) u infos) pc) := by
  unfold podRecord
  rw [hc]
  simp only [addStorage, hs]

/-- The pod loop of a sampling pass that meets no store fault publishes, in pod order, the
record of every billed pod, provided every listed kind and `storage` have a unit, the quota
objects of the billed pods exist and their record names are free and pairwise distinct. -/
theorem samplePods_noFault (r : PodResourceReconciler) (fl : FloatOps) (now : Int)
    (pc : PodResource)
    (hu : ∀ k1 ∈ pc.Resources.map Prod.fst, (priceOf pc k1).Unit ≠ none)
    (hs : (priceOf pc "storage").Unit ≠ none) (pods : List Pod) :
    ∀ w : World, w.faults = [] →
      (∀ p ∈ pods.filter (billedPod r w.store),
        (w.store.findResourceQuota ⟨p.Namespace, r.ResourceQuotaPrefix ++ p.Namespace⟩).isSome
          = true) →
      ((pods.filter (billedPod r w.store)).map
        (fun p => GetResourceName r p.Namespace p.Name pc.SeqID)).Nodup →
      (∀ p ∈ pods.filter (billedPod r w.store),
        w.store.findResource
          ⟨r.MeteringSystemNamespace, GetResourceName r p.Namespace p.Name pc.SeqID⟩ = none) →
      samplePods r fl now pc pods w
        = (none, { w with store := { w.store with
            Resources := w.store.Resources
              ++ (pods.filter (billedPod r w.store)).filterMap
                  (podRecord r fl now pc w.store) } }) := by
  induction pods with
  | nil =>
    intro w _ _ _ _
    simp [samplePods]
  | cons pod rest ih =>
    intro w hf hquota hnd hfree
    rw [samplePods]
    by_cases hst : checkPodStatus pod = true
    · rw [if_pos hst, checkPodNamespace_noFault r pod w hf]
      by_cases htn : isTenantNamespace r w.store pod.Namespace = true
      · -- a billed pod: its record is published
        have hb : billedPod r w.store pod = true := by
          unfold billedPod
          rw [hst, htn]
          rfl
        rw [List.filter_cons_of_pos hb] at hquota hnd hfree ⊢
        rw [htn]
        simp only
        obtain ⟨infos, hinfos⟩ := containerLoop_some fl now pc pod hu pod.Containers []
        have hc : containerResources fl now pc pod = some infos := hinfos
        obtain ⟨u, hsu⟩ := Option.ne_none_iff_exists'.mp hs
        rw [hc]
        simp only
        have hq := hquota pod (List.mem_cons_self _ _)
        obtain ⟨q, hq1⟩ := Option.isSome_iff_exists.mp hq
        rw [getResourceQuota_noFault _ w q hf hq1]
        simp only
        have hstor : quotaStorage q = storageOf r w.store pod.Namespace := by
          unfold storageOf
          rw [hq1]
        rw [hstor]
        have hadd : addStorage fl now pc pod (storageOf r w.store pod.Namespace) infos
            = some (setStorageEntry fl now pc pod (storageOf r w.store pod.Namespace) u
                infos) := by
          simp only [addStorage, hsu]
        rw [hadd]
        simp only
        have hfree0 := hfree pod (List.mem_cons_self _ _)
        have hrecpod := podRecord_eq r fl now pc w.store pod infos u hc hsu
        have hsync := syncResource_noFault r pod
          (setStorageEntry fl now pc pod (storageOf r w.store pod.Namespace) u infos) pc w hf
          hfree0
        rw [hsync]
        rw [List.map_cons, List.nodup_cons] at hnd
        generalize hrec : newResource r pod
          (setStorageEntry fl now pc pod (storageOf r w.store pod.Namespace) u infos) pc
          = rec0 at hfree0 hsync hrecpod ⊢
        have hreckey : rec0.key
            = ⟨r.MeteringSystemNamespace, GetResourceName r pod.Namespace pod.Name pc.SeqID⟩ := by
          rw [← hrec]
          rfl
        -- the store after the publication has the same namespaces and quotas
        have hfilter : List.filter (billedPod r ({ w.store with
            Resources := w.store.Resources ++ [rec0] } : Store)) rest
            = List.filter (billedPod r w.store) rest := by
          congr 1
        have hpr : podRecord r fl now pc ({ w.store with
            Resources := w.store.Resources ++ [rec0] } : Store)
            = podRecord r fl now pc w.store := rfl
        have key := ih ({ w with store := { w.store with
            Resources := w.store.Resources ++ [rec0] } }) hf
        rw [hfilter] at key
        rw [key]
        · congr 2
          simp only [hpr, List.filterMap_cons, hrecpod, List.append_assoc,
            List.singleton_append]
        · intro p hp
          exact hquota p (List.mem_cons_of_mem _ hp)
        · exact hnd.2
        · intro p hp
          apply findResource_append_ne
          · intro hkey
            apply hnd.1
            rw [List.mem_map]
            refine ⟨p, hp, ?_⟩
            rw [hreckey] at hkey
            have := congrArg NamespacedName.Name hkey
            exact this.symm
          · exact hfree p (List.mem_cons_of_mem _ hp)
      · have hb : billedPod r w.store pod = false := by
          unfold billedPod
          rw [hst]
          simpa using htn
        have htn1 : isTenantNamespace r w.store pod.Namespace = false := by simpa using htn
        rw [List.filter_cons_of_neg (by simp [hb])] at hquota hnd hfree ⊢
        rw [htn1]
        exact ih w hf hquota hnd hfree
    · have hb : billedPod r w.store pod = false := by
        unfold billedPod
        simp [hst]
      rw [if_neg hst]
      rw [List.filter_cons_of_neg (by simp [hb])] at hquota hnd hfree ⊢
      exact ih w hf hquota hnd hfree

theorem retryLoop_resources {σ : Type} (fn : σ → World → Option Err × σ × World)
    (h : ∀ s w, (fn s w).2.2.store.Resources = w.store.Resources) (n : Nat) :
    ∀ (last : Option Err) (s : σ) (w : World),
      (retryLoop fn n last s w).2.2.store.Resources = w.store.Resources := by
  induction n with
  | zero => intro last s w; rfl
  | succ n ih =>
    intro last s w
    rw [retryLoop]
    have hfn := h s w
    rcases hr : fn s w with ⟨e, s1, w1⟩
    rw [hr] at hfn
    simp only at hfn
    cases e with
    | none => exact hfn
    | some e =>
      simp only
      by_cases hc : e = Err.Conflict
      · rw [if_pos hc, ih, hfn]
      · rw [if_neg hc]
        exact hfn

/-- The status write of the sampler leaves the published records as they are. -/
theorem sampleStatusAttempt_resources (now : Int) (p : PodResource) (w : World) :
    (sampleStatusAttempt now p w).2.2.store.Resources = w.store.Resources := by
  have hs := nextFault_store w
  unfold sampleStatusAttempt getPodResource
  rcases hnf : nextFault w with ⟨f, w1⟩
  rw [hnf] at hs
  simp only at hs
  cases f with
  | some f => simp only; rw [hs]
  | none =>
    simp only
    cases hfp : w1.store.findPodResource p.key with
    | none => simp only; rw [hs]
    | some cur =>
      simp only
      have hs1 := nextFault_store w1
      unfold statusUpdatePodResource
      rcases hnf1 : nextFault w1 with ⟨f1, w2⟩
      rw [hnf1] at hs1
      simp only at hs1
      cases f1 with
      | some f1 => simp only; rw [hs1, hs]
      | none =>
        simp only
        cases w2.store.findPodResource
          ({ cur with LatestUpdateTime := now, SeqID := cur.SeqID + 1 } : PodResource).key with
        | none => simp only; rw [hs1, hs]
        | some x => simp only; rw [hs1, hs]

/-- The records in the store after a sampling pass that meets no store fault. -/
theorem UpdateResourceUsed_noFault (r : PodResourceReconciler) (fl : FloatOps) (now : Int)
    (pc : PodResource) (w : World) (hf : w.faults = [])
    (hu : ∀ k1 ∈ pc.Resources.map Prod.fst, (priceOf pc k1).Unit ≠ none)
    (hs : (priceOf pc "storage").Unit ≠ none)
    (hquota : ∀ p ∈ w.store.Pods.filter (billedPod r w.store),
      (w.store.findResourceQuota ⟨p.Namespace, r.ResourceQuotaPrefix ++ p.Namespace⟩).isSome
        = true)
    (hnd : ((w.store.Pods.filter (billedPod r w.store)).map
      (fun p => GetResourceName r p.Namespace p.Name pc.SeqID)).Nodup)
    (hfree : ∀ p ∈ w.store.Pods.filter (billedPod r w.store),
      w.store.findResource
        ⟨r.MeteringSystemNamespace, GetResourceName r p.Namespace p.Name pc.SeqID⟩ = none) :
    (UpdateResourceUsed r fl now pc w).2.2.store.Resources
      = w.store.Resources
        ++ (w.store.Pods.filter (billedPod r w.store)).filterMap
            (podRecord r fl now pc w.store) := by
  unfold UpdateResourceUsed listPods
  rw [nextFault_nil w hf]
  simp only
  rw [samplePods_noFault r fl now pc hu hs w.store.Pods w hf hquota hnd hfree]
  simp only
  have hret := retryLoop_resources (sampleStatusAttempt now) (sampleStatusAttempt_resources now)
    DefaultRetrySteps none pc
    { w with store := { w.store with
        Resources := w.store.Resources
          ++ (w.store.Pods.filter (billedPod r w.store)).filterMap
              (podRecord r fl now pc w.store) } }
  unfold RetryOnConflict
  rcases hrl : retryLoop (sampleStatusAttempt now) DefaultRetrySteps none pc
    { w with store := { w.store with
        Resources := w.store.Resources
          ++ (w.store.Pods.filter (billedPod r w.store)).filterMap
              (podRecord r fl now pc w.store) } }
    with ⟨e, p1, w3⟩
  rw [hrl] at hret
  simp only at hret
  cases e <;> exact hret

theorem findPodResource_key (s : Store) (k : NamespacedName) (p : PodResource)
    (h : s.findPodResource k = some p) : p.key = k := by
  unfold Store.findPodResource at h
  have := List.find?_some h
  simpa using this

/-- The status write of the sampler succeeds at its first attempt when no store call fails. -/
theorem sampleStatusAttempt_noFault (now : Int) (p : PodResource) (w : World)
    (hf : w.faults = []) : (sampleStatusAttempt now p w).1 = none := by
  unfold sampleStatusAttempt getPodResource
  rw [nextFault_nil w hf]
  simp only
  cases hfp : w.store.findPodResource p.key with
  | none => rfl
  | some cur =>
    simp only
    unfold statusUpdatePodResource
    rw [nextFault_nil w hf]
    simp only
    have hkey : ({ cur with LatestUpdateTime := now, SeqID := cur.SeqID + 1 } : PodResource).key
        = p.key := findPodResource_key w.store p.key cur hfp
    rw [hkey, hfp]

/-- A sampling pass that meets no store fault returns no error when every listed kind and
`storage` have a unit and the quota objects of the billed pods exist. -/
theorem UpdateResourceUsed_noFault_ok (r : PodResourceReconciler) (fl : FloatOps) (now : Int)
    (pc : PodResource) (w : World) (hf : w.faults = [])
    (hu : ∀ k1 ∈ pc.Resources.map Prod.fst, (priceOf pc k1).Unit ≠ none)
    (hs : (priceOf pc "storage").Unit ≠ none)
    (hquota : ∀ p ∈ w.store.Pods.filter (billedPod r w.store),
      (w.store.findResourceQuota ⟨p.Namespace, r.ResourceQuotaPrefix ++ p.Namespace⟩).isSome
        = true)
    (hnd : ((w.store.Pods.filter (billedPod r w.store)).map
      (fun p => GetResourceName r p.Namespace p.Name pc.SeqID)).Nodup)
    (hfree : ∀ p ∈ w.store.Pods.filter (billedPod r w.store),
      w.store.findResource
        ⟨r.MeteringSystemNamespace, GetResourceName r p.Namespace p.Name pc.SeqID⟩ = none) :
    (UpdateResourceUsed r fl now pc w).1 = none := by
  unfold UpdateResourceUsed listPods
  rw [nextFault_nil w hf]
  simp only
  rw [samplePods_noFault r fl now pc hu hs w.store.Pods w hf hquota hnd hfree]
  simp only
  unfold RetryOnConflict DefaultRetrySteps
  rw [retryLoop]
  have h1 := sampleStatusAttempt_noFault now pc
    { w with store := { w.store with
        Resources := w.store.Resources
          ++ (w.store.Pods.filter (billedPod r w.store)).filterMap
              (podRecord r fl now pc w.store) } } hf
  rcases hat : sampleStatusAttempt now pc
    { w with store := { w.store with
        Resources := w.store.Resources
          ++ (w.store.Pods.filter (billedPod r w.store)).filterMap
              (podRecord r fl now pc w.store) } }
    with ⟨e, p1, w3⟩
  rw [hat] at h1
  simp only at h1
  subst h1
  rfl

/-- Mapping a list through an option-valued function that is defined on every element. -/
theorem filterMap_map_some {α β : Type} (f : α → Option β) (l : List α)
    (h : ∀ a ∈ l, ∃ b, f a = some b) : (l.filterMap f).map some = l.map f := by
  induction l with
  | nil => rfl
  | cons a l ih =>
    obtain ⟨b, hb⟩ := h a (List.mem_cons_self _ _)
    rw [List.filterMap_cons, hb]
    simp only [List.map_cons, hb]
    rw [ih (fun a1 ha1 => h a1 (List.mem_cons_of_mem _ ha1))]

/-! ## C14: storage is added to the record of every pod -/

/-- C14 (the code at the failing input): the tenant namespace `ns-a` has two running pods and a
quota reporting a storage usage of 1500 milli-units, priced at 2 per 1000.  One reading of the
quota costs 3.  The sampling pass succeeds and publishes two records, each carrying the full
storage cost 3, so the storage costs published for the tenant sum to 6. -/
theorem storage_charged_once_per_pod :
    exactOps.quotCeil (1500 * 2) 1000 = 3 ∧
    (samplerWorld.store.Pods.filter (billedPod sampleSampler samplerWorld.store)).map
      (fun p => (p.Namespace, p.Name)) = [("ns-a", "web-0"), ("ns-a", "web-1")] ∧
    (UpdateResourceUsed sampleSampler exactOps 100 samplePodResource samplerWorld).1 = none ∧
    (UpdateResourceUsed sampleSampler exactOps 100 samplePodResource
      samplerWorld).2.2.store.Resources.map
        (fun x => (x.Name, (mapGet "storage" x.Resources).map (fun v => v.Cost)))
      = [("ns-a-pod-web-0-0", some 3), ("ns-a-pod-web-1-0", some 3)] ∧
    storageCostSum "ns-a"
      (UpdateResourceUsed sampleSampler exactOps 100 samplePodResource samplerWorld).2.2.store
      = 6 := by
  decide

/-! ## C15: one record per billed pod -/

/-- C15 (as stated, refuted): the tenant namespace `ns-a` has two running pods; the sampling
pass publishes two records for it, one per pod, and each carries the `cpu` cost and quantity
of its own pod (3 for 3000, 4 for 4000), none the sums 7 and 7000 over the tenant's pods. -/
theorem one_record_per_tenant_counterexample :
    (samplerWorld.store.Pods.filter (billedPod sampleSampler samplerWorld.store)).map
      (fun p => p.Namespace) = ["ns-a", "ns-a"] ∧
    (UpdateResourceUsed sampleSampler exactOps 100 samplePodResource samplerWorld).1 = none ∧
    (UpdateResourceUsed sampleSampler exactOps 100 samplePodResource
      samplerWorld).2.2.store.Resources.length = 2 ∧
    (UpdateResourceUsed sampleSampler exactOps 100 samplePodResource
      samplerWorld).2.2.store.Resources.map
        (fun x => (x.Name, (mapGet "cpu" x.Resources).map
          (fun v => (v.Namespace, v.Cost, v.Used))))
      = [("ns-a-pod-web-0-0", some ("ns-a", 3, 3000)),
         ("ns-a-pod-web-1-0", some ("ns-a", 4, 4000))] := by
  decide

/-- Without a unit for `storage` the storage step panics at the first billed pod: with a
price table that lists only `cpu` the sampling pass ends with `Err.Panic`, publishes no
record and leaves the sampler's status as it was. -/
theorem UpdateResourceUsed_panics_without_storage_unit :
    (priceOf cpuOnlyPodResource "storage").Unit = none ∧
    (UpdateResourceUsed sampleSampler exactOps 100 cpuOnlyPodResource samplerWorld).1
      = some Err.Panic ∧
    (UpdateResourceUsed sampleSampler exactOps 100 cpuOnlyPodResource
      samplerWorld).2.2.store.Resources = [] ∧
    ((UpdateResourceUsed sampleSampler exactOps 100 cpuOnlyPodResource
      samplerWorld).2.2.store.findPodResource samplePodResource.key).map
        (fun p => (p.LatestUpdateTime, p.SeqID)) = some (0, 0) := by
  decide

/-- C15 (amended): for every pod list, a sampling pass that meets no store fault, with a unit
set for every kind of the price table and for `storage` (so that no `Unit.MilliValue()`
panics), the quota object of every billed pod's namespace present and the record names free
and pairwise distinct, returns no error and publishes exactly one Resource-Usage Record for
each running pod of a tenant namespace, in pod order: one per pod, named from the pod's
namespace, the pod's name and the sampler's sequence.  For every priced kind other than
`storage` (kinds of the price table distinct) that record carries nothing when no container
of the pod declares the kind, and otherwise the sum of the costs and the sum of the
quantities over the pod's containers that declare it. -/
theorem UpdateResourceUsed_one_record_per_pod (r : PodResourceReconciler) (fl : FloatOps)
    (now : Int) (pc : PodResource) (w : World) (hf : w.faults = [])
    (hunits : ∀ k ∈ pc.Resources.map Prod.fst, (priceOf pc k).Unit ≠ none)
    (hstorage : (priceOf pc "storage").Unit ≠ none)
    (hquota : ∀ p ∈ w.store.Pods.filter (billedPod r w.store),
      (w.store.findResourceQuota ⟨p.Namespace, r.ResourceQuotaPrefix ++ p.Namespace⟩).isSome
        = true)
    (hnd : ((w.store.Pods.filter (billedPod r w.store)).map
      (fun p => GetResourceName r p.Namespace p.Name pc.SeqID)).Nodup)
    (hfree : ∀ p ∈ w.store.Pods.filter (billedPod r w.store),
      w.store.findResource
        ⟨r.MeteringSystemNamespace, GetResourceName r p.Namespace p.Name pc.SeqID⟩ = none)
    (hkeys : (pc.Resources.map Prod.fst).Nodup) :
    (UpdateResourceUsed r fl now pc w).1 = none ∧
    (UpdateResourceUsed r fl now pc w).2.2.store.Resources.map some
      = w.store.Resources.map some
        ++ (w.store.Pods.filter (billedPod r w.store)).map (podRecord r fl now pc w.store) ∧
    ∀ p ∈ w.store.Pods.filter (billedPod r w.store),
      ∃ x, podRecord r fl now pc w.store p = some x ∧
        x.Name = GetResourceName r p.Namespace p.Name pc.SeqID ∧
        x.Namespace = r.MeteringSystemNamespace ∧
        ∀ k ∈ pc.Resources.map Prod.fst, k ≠ "storage" →
          (mapGet k x.Resources).map (fun v => (v.Cost, v.Used))
            = if declaredQuantities k p = [] then none
              else some (((declaredQuantities k p).map
                    (fun q => fl.quot (q * (priceOf pc k).Price) (unitOf pc k))).sum,
                  (declaredQuantities k p).sum) := by
  have hrec : ∀ p ∈ w.store.Pods.filter (billedPod r w.store),
      ∃ x, podRecord r fl now pc w.store p = some x := by
    intro p _
    obtain ⟨x, hx, _⟩ := podRecord_sums r fl now pc w.store p hkeys hunits hstorage
    exact ⟨x, hx⟩
  refine ⟨UpdateResourceUsed_noFault_ok r fl now pc w hf hunits hstorage hquota hnd hfree,
    ?_, ?_⟩
  · rw [UpdateResourceUsed_noFault r fl now pc w hf hunits hstorage hquota hnd hfree,
      List.map_append, filterMap_map_some _ _ hrec]
  · intro p _
    obtain ⟨x, hx, hkey, hsum⟩ := podRecord_sums r fl now pc w.store p hkeys hunits hstorage
    exact ⟨x, hx, congrArg NamespacedName.Name hkey, congrArg NamespacedName.Namespace hkey,
      hsum⟩

theorem UpdateResourceUsed_one_record_per_pod_witness :
    (UpdateResourceUsed sampleSampler exactOps 100 samplePodResource samplerWorld).1 = none ∧
    (UpdateResourceUsed sampleSampler exactOps 100 samplePodResource
        samplerWorld).2.2.store.Resources.map some
      = samplerWorld.store.Resources.map some
        ++ (samplerWorld.store.Pods.filter (billedPod sampleSampler samplerWorld.store)).map
            (podRecord sampleSampler exactOps 100 samplePodResource samplerWorld.store) ∧
    ∀ p ∈ samplerWorld.store.Pods.filter (billedPod sampleSampler samplerWorld.store),
      ∃ x, podRecord sampleSampler exactOps 100 samplePodResource samplerWorld.store p
          = some x ∧
        x.Name = GetResourceName sampleSampler p.Namespace p.Name samplePodResource.SeqID ∧
        x.Namespace = sampleSampler.MeteringSystemNamespace ∧
        ∀ k ∈ samplePodResource.Resources.map Prod.fst, k ≠ "storage" →
          (mapGet k x.Resources).map (fun v => (v.Cost, v.Used))
            = if declaredQuantities k p = [] then none
              else some (((declaredQuantities k p).map
                    (fun q => exactOps.quot (q * (priceOf samplePodResource k).Price)
                      (unitOf samplePodResource k))).sum,
                  (declaredQuantities k p).sum) :=
  UpdateResourceUsed_one_record_per_pod sampleSampler exactOps 100 samplePodResource
    samplerWorld rfl (by decide) (by decide) (by decide) (by decide) (by decide) (by decide)

/-! ## C16: the sampling gate -/

/-- C16 (the code at the failing input): a sampler with interval 60 minutes and last sample
time 0 is reconciled at second 60.  Only one minute has elapsed (`60 - 0 < 60 * 60`), yet the
gate holds, the reconcile runs the sampling pass (two records are published, the sampler's
sequence and last sample time advance) and asks to be revisited after 60 minutes.  At second
59 the gate does not hold and nothing is sampled. -/
theorem sampleGate_compares_seconds_with_minutes :
    DurationMinutes Minute = 1 ∧
    ¬ ((60 : Int) - samplePodResource.LatestUpdateTime ≥ samplePodResource.Interval * 60) ∧
    sampleGate 60 samplePodResource = true ∧
    (PodResourceReconciler.Reconcile sampleSampler exactOps 60 samplePodResource.key
      samplerWorld).2.1 = none ∧
    (PodResourceReconciler.Reconcile sampleSampler exactOps 60 samplePodResource.key
      samplerWorld).1 = ⟨true, 60 * Minute⟩ ∧
    (PodResourceReconciler.Reconcile sampleSampler exactOps 60 samplePodResource.key
      samplerWorld).2.2.store.Resources.length = 2 ∧
    ((PodResourceReconciler.Reconcile sampleSampler exactOps 60 samplePodResource.key
      samplerWorld).2.2.store.findPodResource samplePodResource.key).map
        (fun p => (p.LatestUpdateTime, p.SeqID)) = some (60, 1) ∧
    sampleGate 59 samplePodResource = false ∧
    (PodResourceReconciler.Reconcile sampleSampler exactOps 59 samplePodResource.key
      samplerWorld).2.2.store.Resources = [] ∧
    ((PodResourceReconciler.Reconcile sampleSampler exactOps 59 samplePodResource.key
      samplerWorld).2.2.store.findPodResource samplePodResource.key).map
        (fun p => (p.LatestUpdateTime, p.SeqID)) = some (0, 0) := by
  decide

/-! ## Lemmas on float64 rounding -/

theorem roundHalfEven_intCast (n : Int) : roundHalfEven (n : ℚ) = n := by
  unfold roundHalfEven
  rw [Int.floor_intCast]
  simp

theorem floor_le_roundHalfEven (x : ℚ) : ⌊x⌋ ≤ roundHalfEven x := by
  unfold roundHalfEven
  split_ifs <;> omega

theorem roundHalfEven_le_floor_add_one (x : ℚ) : roundHalfEven x ≤ ⌊x⌋ + 1 := by
  unfold roundHalfEven
  split_ifs <;> omega

/-- Rounding does not cross an integer from above. -/
theorem le_roundHalfEven (x : ℚ) (N : Int) (h : (N : ℚ) ≤ x) : N ≤ roundHalfEven x :=
  le_trans (Int.le_floor.mpr h) (floor_le_roundHalfEven x)

/-- Rounding does not cross an integer from below. -/
theorem roundHalfEven_le (x : ℚ) (N : Int) (h : x ≤ (N : ℚ)) : roundHalfEven x ≤ N := by
  have h1 := Int.floor_le x
  have hfl : ⌊x⌋ ≤ N := Int.cast_le.mp (le_trans h1 h)
  rcases lt_or_eq_of_le hfl with hlt | heq
  · have := roundHalfEven_le_floor_add_one x
    omega
  · have hx : x = (N : ℚ) := le_antisymm h (by rw [← heq]; exact h1)
    rw [hx, roundHalfEven_intCast]

/-- A value more than one half below an integer rounds below it. -/
theorem roundHalfEven_le_sub_one (x : ℚ) (N : Int) (h : x < (N : ℚ) - 1 / 2) :
    roundHalfEven x ≤ N - 1 := by
  have h1 := Int.floor_le x
  have hfl : ⌊x⌋ ≤ N - 1 := by
    have h3 : (⌊x⌋ : ℚ) < (N : ℚ) := by linarith
    have := Int.cast_lt.mp h3
    omega
  have hhalf : ¬ (x - ⌊x⌋ < 1 / 2) → ⌊x⌋ + 1 ≤ N - 1 := by
    intro c
    have h3 : (⌊x⌋ : ℚ) < ((N - 1 : Int) : ℚ) := by
      push_cast
      linarith [not_lt.mp c]
    have := Int.cast_lt.mp h3
    omega
  unfold roundHalfEven
  split_ifs with c1 c2 c3
  · exact hfl
  · exact hhalf c1
  · exact hfl
  · exact hhalf c1

/-- A value more than one half above an integer rounds above it. -/
theorem add_one_le_roundHalfEven (x : ℚ) (N : Int) (h : (N : ℚ) + 1 / 2 < x) :
    N + 1 ≤ roundHalfEven x := by
  have h2 := Int.lt_floor_add_one x
  have hfl : N ≤ ⌊x⌋ := Int.le_floor.mpr (by linarith)
  rcases lt_or_eq_of_le hfl with hlt | heq
  · have := floor_le_roundHalfEven x
    omega
  · have c2 : 1 / 2 < x - ⌊x⌋ := by rw [← heq]; linarith
    have c1 : ¬ (x - ⌊x⌋ < 1 / 2) := not_lt.mpr (le_of_lt c2)
    unfold roundHalfEven
    rw [if_neg c1, if_pos c2, ← heq]

/-- The float64 nearest to `x` when the unit in the last place is `2 ^ (-k)`. -/
theorem roundFloat64_eq (x : ℚ) (k : ℕ) (he : float64Exp x = -(k : Int)) :
    roundFloat64 x = (roundHalfEven (x * 2 ^ k) : ℚ) / 2 ^ k := by
  unfold roundFloat64
  rw [he, zpow_neg, zpow_natCast, div_inv_eq_mul, div_eq_mul_inv]

/-- With a unit in the last place `2 ^ (-k)` every integer is a float64 of that binade scale,
so rounding does not cross an integer. -/
theorem roundGrid_ge (x : ℚ) (k : ℕ) (N : Int) (h : (N : ℚ) ≤ x) :
    (N : ℚ) ≤ (roundHalfEven (x * 2 ^ k) : ℚ) / 2 ^ k := by
  have hpos : (0 : ℚ) < 2 ^ k := by positivity
  rw [le_div_iff₀ hpos]
  have h1 : ((N * 2 ^ k : Int) : ℚ) ≤ x * 2 ^ k := by
    push_cast
    exact mul_le_mul_of_nonneg_right h (le_of_lt hpos)
  have h2 := le_roundHalfEven _ _ h1
  have h3 : ((N * 2 ^ k : Int) : ℚ) ≤ (roundHalfEven (x * 2 ^ k) : ℚ) := Int.cast_le.mpr h2
  push_cast at h3
  exact h3

theorem roundGrid_le (x : ℚ) (k : ℕ) (N : Int) (h : x ≤ (N : ℚ)) :
    (roundHalfEven (x * 2 ^ k) : ℚ) / 2 ^ k ≤ (N : ℚ) := by
  have hpos : (0 : ℚ) < 2 ^ k := by positivity
  rw [div_le_iff₀ hpos]
  have h1 : x * 2 ^ k ≤ ((N * 2 ^ k : Int) : ℚ) := by
    push_cast
    exact mul_le_mul_of_nonneg_right h (le_of_lt hpos)
  have h2 := roundHalfEven_le _ _ h1
  have h3 : (roundHalfEven (x * 2 ^ k) : ℚ) ≤ ((N * 2 ^ k : Int) : ℚ) := Int.cast_le.mpr h2
  push_cast at h3
  exact h3

/-- A value at least `1 / u` below an integer, with `u` below two units in the last place
inverted, rounds to a float64 below that integer. -/
theorem roundGrid_lt (x u : ℚ) (k : ℕ) (N : Int) (hu : 0 < u) (huk : u < 2 * 2 ^ k)
    (h : x + 1 / u ≤ (N : ℚ)) :
    (roundHalfEven (x * 2 ^ k) : ℚ) / 2 ^ k < (N : ℚ) := by
  have hpos : (0 : ℚ) < 2 ^ k := by positivity
  have hgap : 1 / 2 < 1 / u * 2 ^ k := by
    rw [one_div_mul_eq_div, lt_div_iff₀ hu]
    linarith
  have h1 : x * 2 ^ k < ((N * 2 ^ k : Int) : ℚ) - 1 / 2 := by
    push_cast
    have := mul_le_mul_of_nonneg_right h (le_of_lt hpos)
    rw [add_mul] at this
    linarith
  have h2 := roundHalfEven_le_sub_one _ _ h1
  have h3 : (roundHalfEven (x * 2 ^ k) : ℚ) ≤ ((N * 2 ^ k - 1 : Int) : ℚ) := Int.cast_le.mpr h2
  push_cast at h3
  rw [div_lt_iff₀ hpos]
  linarith

theorem roundGrid_gt (x u : ℚ) (k : ℕ) (N : Int) (hu : 0 < u) (huk : u < 2 * 2 ^ k)
    (h : (N : ℚ) + 1 / u ≤ x) :
    (N : ℚ) < (roundHalfEven (x * 2 ^ k) : ℚ) / 2 ^ k := by
  have hpos : (0 : ℚ) < 2 ^ k := by positivity
  have hgap : 1 / 2 < 1 / u * 2 ^ k := by
    rw [one_div_mul_eq_div, lt_div_iff₀ hu]
    linarith
  have h1 : ((N * 2 ^ k : Int) : ℚ) + 1 / 2 < x * 2 ^ k := by
    push_cast
    have := mul_le_mul_of_nonneg_right h (le_of_lt hpos)
    rw [add_mul] at this
    linarith
  have h2 := add_one_le_roundHalfEven _ _ h1
  have h3 : ((N * 2 ^ k + 1 : Int) : ℚ) ≤ (roundHalfEven (x * 2 ^ k) : ℚ) := Int.cast_le.mpr h2
  push_cast at h3
  rw [lt_div_iff₀ hpos]
  linarith

/-- Below `2 ^ 53` the unit in the last place is at most 1. -/
theorem float64Exp_nonpos (x : ℚ) (h0 : 0 ≤ x) (h : x < 2 ^ 53) :
    ∃ k : ℕ, float64Exp x = -(k : Int) := by
  apply Int.exists_eq_neg_ofNat
  unfold float64Exp
  apply max_le _ (by norm_num)
  rw [abs_of_nonneg h0]
  rcases eq_or_lt_of_le h0 with hz | hpos
  · rw [← hz, Int.log_of_right_le_zero 2 (le_refl (0 : ℚ))]
    norm_num
  · have h1 : Int.log 2 x < 53 := by
      rw [← Int.lt_zpow_iff_log_lt (by norm_num) hpos]
      norm_num
      exact h
    omega

/-- A positive `x` with `u * x < 2 ^ 53` and `u ≤ 2 ^ 64` has a unit in the last place below
`2 / u`. -/
theorem float64Exp_gap (x u : ℚ) (k : ℕ) (hx : 0 < x) (hu : 0 < u) (hux : u * x < 2 ^ 53)
    (hu64 : u ≤ 2 ^ 64) (he : float64Exp x = -(k : Int)) : u < 2 * 2 ^ k := by
  have hpos : (0 : ℚ) < 2 ^ k := by positivity
  have hkey : u * (2 : ℚ) ^ (-(k : Int)) < 2 := by
    rw [← he]
    unfold float64Exp
    rw [abs_of_pos hx]
    rcases max_cases (Int.log 2 x - 52) (-1074) with ⟨hm, _⟩ | ⟨hm, _⟩
    · rw [hm, zpow_sub₀ (by norm_num : (2 : ℚ) ≠ 0)]
      have h1 : ((2 : ℕ) : ℚ) ^ Int.log 2 x ≤ x := Int.zpow_log_le_self (by norm_num) hx
      have h2 : (2 : ℚ) ^ Int.log 2 x ≤ x := by
        simpa using h1
      have h3 : u * (2 : ℚ) ^ Int.log 2 x ≤ u * x := mul_le_mul_of_nonneg_left h2 (le_of_lt hu)
      have h4 : u * ((2 : ℚ) ^ Int.log 2 x / 2 ^ (52 : Int))
          = u * (2 : ℚ) ^ Int.log 2 x / 2 ^ (52 : Int) := by ring
      rw [h4, div_lt_iff₀ (by positivity)]
      have h5 : (2 : ℚ) * 2 ^ (52 : Int) = 2 ^ 53 := by norm_num
      rw [h5]
      exact lt_of_le_of_lt h3 hux
    · rw [hm]
      have h1 : (2 : ℚ) ^ (-1074 : Int) ≤ 2 ^ (-64 : Int) :=
        zpow_le_zpow_right₀ (by norm_num) (by norm_num)
      have h2 : u * (2 : ℚ) ^ (-1074 : Int) ≤ u * 2 ^ (-64 : Int) :=
        mul_le_mul_of_nonneg_left h1 (le_of_lt hu)
      have h3 : u * (2 : ℚ) ^ (-64 : Int) ≤ 2 ^ 64 * 2 ^ (-64 : Int) :=
        mul_le_mul_of_nonneg_right hu64 (by positivity)
      have h4 : (2 : ℚ) ^ 64 * 2 ^ (-64 : Int) = 1 := by norm_num
      linarith
  rw [zpow_neg, zpow_natCast, ← div_eq_mul_inv, div_lt_iff₀ hpos] at hkey
  exact hkey

/-- A non-negative integer below `2 ^ 53` is a float64. -/
theorem roundFloat64_intCast (n : Int) (h0 : 0 ≤ n) (h : n < 2 ^ 53) :
    roundFloat64 (n : ℚ) = n := by
  have h0q : (0 : ℚ) ≤ (n : ℚ) := Int.cast_nonneg.mpr h0
  have hq : (n : ℚ) < 2 ^ 53 := by
    have := (Int.cast_lt (R := ℚ)).mpr h
    push_cast at this
    exact this
  obtain ⟨k, hk⟩ := float64Exp_nonpos (n : ℚ) h0q hq
  rw [roundFloat64_eq _ k hk]
  exact le_antisymm (roundGrid_le _ k n (le_refl _)) (roundGrid_ge _ k n (le_refl _))

/-- The float64 quotient of two integers `0 ≤ a < 2 ^ 53` and `0 < u < 2 ^ 53` lies in the
same unit interval as the exact quotient, on either side. -/
theorem roundFloat64_div_bounds (a u : Int) (ha : 0 ≤ a) (ha53 : a < 2 ^ 53) (hu : 0 < u)
    (hu53 : u < 2 ^ 53) :
    ((⌊(a : ℚ) / u⌋ : Int) : ℚ) ≤ roundFloat64 ((a : ℚ) / u) ∧
    roundFloat64 ((a : ℚ) / u) < ((⌊(a : ℚ) / u⌋ : Int) : ℚ) + 1 ∧
    ((⌈(a : ℚ) / u⌉ : Int) : ℚ) - 1 < roundFloat64 ((a : ℚ) / u) ∧
    roundFloat64 ((a : ℚ) / u) ≤ ((⌈(a : ℚ) / u⌉ : Int) : ℚ) := by
  have huq : (0 : ℚ) < (u : ℚ) := Int.cast_pos.mpr hu
  have haq : (0 : ℚ) ≤ (a : ℚ) := Int.cast_nonneg.mpr ha
  have ha53q : (a : ℚ) < 2 ^ 53 := by
    have := (Int.cast_lt (R := ℚ)).mpr ha53
    push_cast at this
    exact this
  have hu53q : (u : ℚ) < 2 ^ 53 := by
    have := (Int.cast_lt (R := ℚ)).mpr hu53
    push_cast at this
    exact this
  have hu1 : (1 : ℚ) ≤ (u : ℚ) := by
    have : (1 : Int) ≤ u := hu
    have := (Int.cast_le (R := ℚ)).mpr this
    push_cast at this
    exact this
  have hx0 : (0 : ℚ) ≤ (a : ℚ) / u := div_nonneg haq (le_of_lt huq)
  have hxa : (a : ℚ) / u ≤ a := div_le_self haq hu1
  have hx53 : (a : ℚ) / u < 2 ^ 53 := lt_of_le_of_lt hxa ha53q
  obtain ⟨k, hk⟩ := float64Exp_nonpos _ hx0 hx53
  rw [roundFloat64_eq _ k hk]
  have hmul : (u : ℚ) * ((a : ℚ) / u) = a := mul_div_cancel₀ _ (ne_of_gt huq)
  rcases eq_or_lt_of_le hx0 with hz | hxpos
  · -- the quotient is zero
    rw [← hz]
    have h0 : roundHalfEven (0 * 2 ^ k) = 0 := by
      have := roundHalfEven_intCast 0
      simpa using this
    rw [h0]
    simp
  · have hgap := float64Exp_gap _ (u : ℚ) k hxpos huq (by rw [hmul]; exact ha53q)
      (le_trans (le_of_lt hu53q) (by norm_num)) hk
    refine ⟨roundGrid_ge _ k _ (Int.floor_le _), ?_, ?_, roundGrid_le _ k _ (Int.le_ceil _)⟩
    · -- the quotient is at least 1 / u below the next integer
      have h1 : (a : ℚ) / u < ((⌊(a : ℚ) / u⌋ + 1 : Int) : ℚ) := by
        push_cast
        exact Int.lt_floor_add_one _
      have h2 : (a : ℚ) < ((⌊(a : ℚ) / u⌋ + 1 : Int) : ℚ) * u := (div_lt_iff₀ huq).mp h1
      have h3 : a < (⌊(a : ℚ) / u⌋ + 1) * u := by
        have : (a : ℚ) < (((⌊(a : ℚ) / u⌋ + 1) * u : Int) : ℚ) := by
          push_cast
          push_cast at h2
          exact h2
        exact Int.cast_lt.mp this
      have h4 : (a : ℚ) + 1 ≤ (((⌊(a : ℚ) / u⌋ + 1) * u : Int) : ℚ) := by
        have : a + 1 ≤ (⌊(a : ℚ) / u⌋ + 1) * u := h3
        have := (Int.cast_le (R := ℚ)).mpr this
        push_cast at this ⊢
        exact this
      have h5 : (a : ℚ) / u + 1 / u ≤ ((⌊(a : ℚ) / u⌋ + 1 : Int) : ℚ) := by
        rw [← add_div, div_le_iff₀ huq]
        push_cast at h4 ⊢
        exact h4
      have := roundGrid_lt _ (u : ℚ) k _ huq hgap h5
      push_cast at this
      exact this
    · -- the quotient is at least 1 / u above the previous integer
      have h1 : ((⌈(a : ℚ) / u⌉ - 1 : Int) : ℚ) < (a : ℚ) / u := by
        push_cast
        have := Int.ceil_lt_add_one ((a : ℚ) / u)
        linarith
      have h2 : ((⌈(a : ℚ) / u⌉ - 1 : Int) : ℚ) * u < (a : ℚ) := (lt_div_iff₀ huq).mp h1
      have h3 : (⌈(a : ℚ) / u⌉ - 1) * u < a := by
        have : (((⌈(a : ℚ) / u⌉ - 1) * u : Int) : ℚ) < (a : ℚ) := by
          push_cast
          push_cast at h2
          exact h2
        exact Int.cast_lt.mp this
      have h4 : (((⌈(a : ℚ) / u⌉ - 1) * u : Int) : ℚ) + 1 ≤ (a : ℚ) := by
        have : (⌈(a : ℚ) / u⌉ - 1) * u + 1 ≤ a := h3
        have := (Int.cast_le (R := ℚ)).mpr this
        push_cast at this ⊢
        exact this
      have h5 : ((⌈(a : ℚ) / u⌉ - 1 : Int) : ℚ) + 1 / u ≤ (a : ℚ) / u := by
        rw [le_div_iff₀ huq, add_mul, one_div_mul_cancel (ne_of_gt huq)]
        push_cast at h4 ⊢
        exact h4
      have := roundGrid_gt _ (u : ℚ) k _ huq hgap h5
      push_cast at this
      exact this

/-- A product in `[0, 2 ^ 63)` does not wrap. -/
theorem wrapInt64_eq (n : Int) (h0 : 0 ≤ n) (h : n < 2 ^ 63) : wrapInt64 n = n := by
  unfold wrapInt64
  norm_num at h ⊢
  omega

/-- The conversion to `int64` of a non-negative float64 whose integer part is in range. -/
theorem int64OfFloat64_nonneg (y : ℚ) (h0 : 0 ≤ y) (h : ⌊y⌋ < 2 ^ 63) :
    int64OfFloat64 (some y) = ⌊y⌋ := by
  have hfl : 0 ≤ ⌊y⌋ := Int.floor_nonneg.mpr h0
  unfold int64OfFloat64
  simp only [if_pos h0]
  rw [if_pos]
  exact ⟨le_trans (by norm_num) hfl, h⟩

/-- The unit in the last place of a value in the binade `[2 ^ L, 2 ^ (L + 1))`. -/
theorem float64Exp_eq (x : ℚ) (L : Int) (h1 : (2 : ℚ) ^ L ≤ |x|) (h2 : |x| < (2 : ℚ) ^ (L + 1))
    (hL : -1022 ≤ L) : float64Exp x = L - 52 := by
  have hpos : (0 : ℚ) < |x| := lt_of_lt_of_le (by positivity) h1
  have hlo : L ≤ Int.log 2 |x| := by
    rw [← Int.zpow_le_iff_le_log (by norm_num) hpos]
    simpa using h1
  have hhi : Int.log 2 |x| < L + 1 := by
    rw [← Int.lt_zpow_iff_log_lt (by norm_num) hpos]
    simpa using h2
  unfold float64Exp
  rw [max_eq_left (by omega)]
  omega

/-- A value whose significand is an integer at the scale of its binade is a float64. -/
theorem roundFloat64_exact (x : ℚ) (L m : Int) (h1 : (2 : ℚ) ^ L ≤ |x|)
    (h2 : |x| < (2 : ℚ) ^ (L + 1)) (hL : -1022 ≤ L) (hm : x = (m : ℚ) * 2 ^ (L - 52)) :
    roundFloat64 x = x := by
  unfold roundFloat64
  rw [float64Exp_eq x L h1 h2 hL]
  have hne : (2 : ℚ) ^ (L - 52) ≠ 0 := by positivity
  have hdiv : x / 2 ^ (L - 52) = (m : ℚ) := by
    rw [hm, mul_div_assoc, div_self hne, mul_one]
  rw [hdiv, roundHalfEven_intCast, ← hm]

/-- A value half-way between two neighbouring float64 values goes to the one with the even
significand. -/
theorem roundFloat64_tie_even (x : ℚ) (L m : Int) (h1 : (2 : ℚ) ^ L ≤ |x|)
    (h2 : |x| < (2 : ℚ) ^ (L + 1)) (hL : -1022 ≤ L)
    (hm : x = ((m : ℚ) + 1 / 2) * 2 ^ (L - 52)) (heven : m % 2 = 0) :
    roundFloat64 x = (m : ℚ) * 2 ^ (L - 52) := by
  unfold roundFloat64
  rw [float64Exp_eq x L h1 h2 hL]
  have hne : (2 : ℚ) ^ (L - 52) ≠ 0 := by positivity
  have hdiv : x / 2 ^ (L - 52) = (m : ℚ) + 1 / 2 := by
    rw [hm, mul_div_assoc, div_self hne, mul_one]
  rw [hdiv]
  have hfl : ⌊(m : ℚ) + 1 / 2⌋ = m := by
    rw [Int.floor_eq_iff]
    constructor <;> linarith
  have hr : roundHalfEven ((m : ℚ) + 1 / 2) = m := by
    unfold roundHalfEven
    rw [hfl]
    have e1 : (m : ℚ) + 1 / 2 - (m : ℚ) = 1 / 2 := by ring
    rw [e1, if_neg (lt_irrefl _), if_neg (lt_irrefl _), if_pos heven]
  rw [hr]

/-- The conversion to `int64` of a negative float64 whose integer part is in range. -/
theorem int64OfFloat64_neg (y : ℚ) (h0 : y < 0) (h : -2 ^ 63 ≤ ⌈y⌉) :
    int64OfFloat64 (some y) = ⌈y⌉ := by
  have hc : ⌈y⌉ ≤ 0 := Int.ceil_le.mpr (by simpa using le_of_lt h0)
  unfold int64OfFloat64
  simp only [if_neg (not_le.mpr h0)]
  rw [if_pos]
  exact ⟨h, lt_of_le_of_lt hc (by norm_num)⟩

/-- The float64 nearest to a value of the binade `[2 ^ L, 2 ^ (L + 1))` lies in the closed
binade. -/
theorem roundFloat64_binade (x : ℚ) (L : Int) (h1 : (2 : ℚ) ^ L ≤ x)
    (h2 : x < (2 : ℚ) ^ (L + 1)) (hL : -1022 ≤ L) :
    (2 : ℚ) ^ L ≤ roundFloat64 x ∧ roundFloat64 x ≤ (2 : ℚ) ^ (L + 1) := by
  have hx : (0 : ℚ) < x := lt_of_lt_of_le (by positivity) h1
  have habs : |x| = x := abs_of_pos hx
  have he := float64Exp_eq x L (by rw [habs]; exact h1) (by rw [habs]; exact h2) hL
  have hpos : (0 : ℚ) < 2 ^ (L - 52) := by positivity
  have hs1 : (2 : ℚ) ^ L = ((2 ^ 52 : Int) : ℚ) * 2 ^ (L - 52) := by
    have : L = 52 + (L - 52) := by omega
    conv_lhs => rw [this, zpow_add₀ (by norm_num : (2 : ℚ) ≠ 0)]
    norm_num
  have hs2 : (2 : ℚ) ^ (L + 1) = ((2 ^ 53 : Int) : ℚ) * 2 ^ (L - 52) := by
    have : L + 1 = 53 + (L - 52) := by omega
    conv_lhs => rw [this, zpow_add₀ (by norm_num : (2 : ℚ) ≠ 0)]
    norm_num
  unfold roundFloat64
  rw [he]
  constructor
  · rw [hs1]
    apply mul_le_mul_of_nonneg_right _ (le_of_lt hpos)
    apply Int.cast_le.mpr
    apply le_roundHalfEven
    rw [le_div_iff₀ hpos, ← hs1]
    exact h1
  · rw [hs2]
    apply mul_le_mul_of_nonneg_right _ (le_of_lt hpos)
    apply Int.cast_le.mpr
    apply roundHalfEven_le
    rw [div_le_iff₀ hpos, ← hs2]
    exact le_of_lt h2

/-- The conversion of a unit `2 ^ 53 ≤ u < 2 ^ 63` gives a float64 between `2 ^ 53` and
`2 ^ 64`. -/
theorem float64OfInt64_large (u : Int) (h53 : 2 ^ 53 ≤ u) (h63 : u < 2 ^ 63) :
    (2 : ℚ) ^ 53 ≤ float64OfInt64 u ∧ float64OfInt64 u ≤ (2 : ℚ) ^ 64 := by
  have h53q : (2 : ℚ) ^ 53 ≤ (u : ℚ) := by
    have := (Int.cast_le (R := ℚ)).mpr h53
    push_cast at this
    exact this
  have h63q : (u : ℚ) < 2 ^ 63 := by
    have := (Int.cast_lt (R := ℚ)).mpr h63
    push_cast at this
    exact this
  have hpos : (0 : ℚ) < (u : ℚ) := lt_of_lt_of_le (by positivity) h53q
  have h1 : (2 : ℚ) ^ Int.log 2 (u : ℚ) ≤ (u : ℚ) := by
    have := Int.zpow_log_le_self (b := 2) (by norm_num) hpos
    simpa using this
  have h2 : (u : ℚ) < (2 : ℚ) ^ (Int.log 2 (u : ℚ) + 1) := by
    have := Int.lt_zpow_succ_log_self (b := 2) (by norm_num) (u : ℚ)
    simpa using this
  have hL : (53 : Int) ≤ Int.log 2 (u : ℚ) := by
    rw [← Int.zpow_le_iff_le_log (by norm_num) hpos]
    norm_num
    exact h53q
  have hL63 : Int.log 2 (u : ℚ) < 63 := by
    rw [← Int.lt_zpow_iff_log_lt (by norm_num) hpos]
    norm_num
    exact h63q
  obtain ⟨hlo, hhi⟩ := roundFloat64_binade (u : ℚ) _ h1 h2 (by omega)
  unfold float64OfInt64
  constructor
  · refine le_trans ?_ hlo
    have := zpow_le_zpow_right₀ (by norm_num : (1 : ℚ) ≤ 2) hL
    norm_num at this ⊢
    exact this
  · refine le_trans hhi ?_
    have : Int.log 2 (u : ℚ) + 1 ≤ 64 := by omega
    have := zpow_le_zpow_right₀ (by norm_num : (1 : ℚ) ≤ 2) this
    norm_num at this ⊢
    exact this

/-- Below 1 the unit in the last place is at most `2 ^ (-53)`. -/
theorem float64Exp_lt_one (x : ℚ) (h0 : 0 < x) (h : x < 1) :
    ∃ k : ℕ, float64Exp x = -((k + 53 : ℕ) : Int) := by
  have h1 : Int.log 2 x < 0 := by
    rw [← Int.lt_zpow_iff_log_lt (by norm_num) h0]
    norm_num
    exact h
  have hle : float64Exp x ≤ -53 := by
    unfold float64Exp
    rw [abs_of_pos h0]
    apply max_le
    · omega
    · norm_num
  obtain ⟨n, hn⟩ := Int.exists_eq_neg_ofNat (le_trans hle (by norm_num))
  refine ⟨n - 53, ?_⟩
  rw [hn]
  have : 53 ≤ n := by omega
  congr 1
  omega

/-- The float64 quotient of a positive value by a larger one, when the exact quotient is at
most `1 - 2 ^ (-53)` and at least `2 ^ (-64)`, lies strictly between 0 and 1. -/
theorem roundFloat64_unit_interval (x : ℚ) (h0 : 0 < x) (hhi : x * 2 ^ 53 ≤ 2 ^ 53 - 1)
    (hlo : 1 / x ≤ 2 ^ 64) :
    0 < roundFloat64 x ∧ roundFloat64 x < 1 := by
  have hx1 : x < 1 := by
    have h53 : (0 : ℚ) < 2 ^ 53 := by positivity
    have : x * 2 ^ 53 < 1 * 2 ^ 53 := by linarith
    exact lt_of_mul_lt_mul_right this (le_of_lt h53)
  obtain ⟨k, hk⟩ := float64Exp_lt_one x h0 hx1
  rw [roundFloat64_eq x (k + 53) hk]
  have hinv : (0 : ℚ) < 1 / x := by positivity
  have hgap := float64Exp_gap x (1 / x) (k + 53) h0 hinv
    (by rw [one_div_mul_cancel (ne_of_gt h0)]; norm_num) hlo hk
  constructor
  · have := roundGrid_gt x (1 / x) (k + 53) 0 hinv hgap (by simp)
    simpa using this
  · have hpos : (0 : ℚ) < 2 ^ (k + 53) := by positivity
    have hk0 : (0 : ℚ) < 2 ^ k := by positivity
    rw [div_lt_iff₀ hpos, one_mul]
    have h1 : x * 2 ^ (k + 53) ≤ ((2 ^ (k + 53) - 2 ^ k : Int) : ℚ) := by
      push_cast
      have := mul_le_mul_of_nonneg_left hhi (le_of_lt hk0)
      have e1 : x * 2 ^ (k + 53) = 2 ^ k * (x * 2 ^ 53) := by ring
      have e2 : (2 : ℚ) ^ (k + 53) - 2 ^ k = 2 ^ k * (2 ^ 53 - 1) := by ring
      rw [e1, e2]
      exact this
    have h2 := roundHalfEven_le _ _ h1
    have h3 : (roundHalfEven (x * 2 ^ (k + 53)) : ℚ) ≤ ((2 ^ (k + 53) - 2 ^ k : Int) : ℚ) :=
      Int.cast_le.mpr h2
    push_cast at h3
    linarith

/-- The float64 quotient of the converted operands, for a product `0 ≤ a < 2 ^ 53` and a unit
`0 < u < 2 ^ 63`: the divisor is not zero and the quotient lies in the same unit interval as
the exact quotient `a / u`, on either side. -/
theorem float64_quotient_bounds (a u : Int) (ha : 0 ≤ a) (ha53 : a < 2 ^ 53) (hu : 0 < u)
    (hu63 : u < 2 ^ 63) :
    float64OfInt64 u ≠ 0 ∧
    ((⌊(a : ℚ) / u⌋ : Int) : ℚ) ≤ roundFloat64 (float64OfInt64 a / float64OfInt64 u) ∧
    roundFloat64 (float64OfInt64 a / float64OfInt64 u) < ((⌊(a : ℚ) / u⌋ : Int) : ℚ) + 1 ∧
    ((⌈(a : ℚ) / u⌉ : Int) : ℚ) - 1 < roundFloat64 (float64OfInt64 a / float64OfInt64 u) ∧
    roundFloat64 (float64OfInt64 a / float64OfInt64 u) ≤ ((⌈(a : ℚ) / u⌉ : Int) : ℚ) := by
  have huq : (0 : ℚ) < (u : ℚ) := Int.cast_pos.mpr hu
  have haq : (0 : ℚ) ≤ (a : ℚ) := Int.cast_nonneg.mpr ha
  have hfa : float64OfInt64 a = a := roundFloat64_intCast a ha ha53
  rcases lt_or_le u (2 ^ 53) with hu53 | hu53
  · -- the unit is a float64
    have hfu : float64OfInt64 u = u := roundFloat64_intCast u (le_of_lt hu) hu53
    rw [hfa, hfu]
    exact ⟨ne_of_gt huq, roundFloat64_div_bounds a u ha ha53 hu hu53⟩
  · -- the unit is at least 2 ^ 53, above the product
    obtain ⟨hUlo, hUhi⟩ := float64OfInt64_large u hu53 hu63
    have hUpos : (0 : ℚ) < float64OfInt64 u := lt_of_lt_of_le (by positivity) hUlo
    have hu53q : (2 : ℚ) ^ 53 ≤ (u : ℚ) := by
      have := (Int.cast_le (R := ℚ)).mpr hu53
      push_cast at this
      exact this
    have ha53q : (a : ℚ) ≤ 2 ^ 53 - 1 := by
      have h1 : a ≤ 2 ^ 53 - 1 := by omega
      have := (Int.cast_le (R := ℚ)).mpr h1
      norm_num at this ⊢
      exact this
    have hxlt : (a : ℚ) / u < 1 := by
      rw [div_lt_one huq]
      linarith
    have hx0 : (0 : ℚ) ≤ (a : ℚ) / u := div_nonneg haq (le_of_lt huq)
    have hfloor : ⌊(a : ℚ) / u⌋ = 0 := by
      rw [Int.floor_eq_iff]
      exact ⟨by simpa using hx0, by simpa using hxlt⟩
    rw [hfa, hfloor]
    refine ⟨ne_of_gt hUpos, ?_⟩
    rcases eq_or_lt_of_le ha with hz | hapos
    · -- the product is zero
      have hr0 : roundFloat64 (((0 : Int) : ℚ)) = ((0 : Int) : ℚ) :=
        roundFloat64_intCast 0 (le_refl _) (by norm_num)
      rw [← hz]
      simp only [Int.cast_zero, zero_div] at hr0 ⊢
      rw [hr0]
      simp
    · have hapq : (0 : ℚ) < (a : ℚ) := Int.cast_pos.mpr hapos
      have ha1 : (1 : ℚ) ≤ (a : ℚ) := by
        have h1 : (1 : Int) ≤ a := hapos
        have := (Int.cast_le (R := ℚ)).mpr h1
        push_cast at this
        exact this
      have hxpos : (0 : ℚ) < (a : ℚ) / float64OfInt64 u := div_pos hapq hUpos
      have hhi : (a : ℚ) / float64OfInt64 u * 2 ^ 53 ≤ 2 ^ 53 - 1 := by
        rw [div_mul_eq_mul_div, div_le_iff₀ hUpos]
        calc (a : ℚ) * 2 ^ 53 ≤ (2 ^ 53 - 1) * 2 ^ 53 :=
              mul_le_mul_of_nonneg_right ha53q (by positivity)
          _ ≤ (2 ^ 53 - 1) * float64OfInt64 u :=
              mul_le_mul_of_nonneg_left hUlo (by norm_num)
      have hlo : 1 / ((a : ℚ) / float64OfInt64 u) ≤ 2 ^ 64 := by
        rw [one_div_div, div_le_iff₀ hapq]
        calc float64OfInt64 u ≤ 2 ^ 64 := hUhi
          _ = 2 ^ 64 * 1 := by ring
          _ ≤ 2 ^ 64 * (a : ℚ) := mul_le_mul_of_nonneg_left ha1 (by positivity)
      obtain ⟨hy0, hy1⟩ := roundFloat64_unit_interval _ hxpos hhi hlo
      have hceil : ⌈(a : ℚ) / u⌉ = 1 := by
        rw [Int.ceil_eq_iff]
        exact ⟨by simpa using div_pos hapq huq, by simpa using le_of_lt hxlt⟩
      rw [hceil]
      refine ⟨by simpa using le_of_lt hy0, by simpa using hy1, by simpa using hy0,
        by simpa using le_of_lt hy1⟩

/-- The two cost expressions on a product `0 ≤ a < 2 ^ 53` and a unit `0 < u < 2 ^ 63` are
the exact floor and the exact ceiling of `a / u`. -/
theorem float64Ops_exact (a u : Int) (ha : 0 ≤ a) (ha53 : a < 2 ^ 53) (hu : 0 < u)
    (hu63 : u < 2 ^ 63) :
    float64Ops.quot a u = ⌊(a : ℚ) / (u : ℚ)⌋ ∧
    float64Ops.quotCeil a u = ⌈(a : ℚ) / (u : ℚ)⌉ := by
  have huq : (0 : ℚ) < (u : ℚ) := Int.cast_pos.mpr hu
  have haq : (0 : ℚ) ≤ (a : ℚ) := Int.cast_nonneg.mpr ha
  have hx0 : (0 : ℚ) ≤ (a : ℚ) / u := div_nonneg haq (le_of_lt huq)
  have hu1 : (1 : ℚ) ≤ (u : ℚ) := by
    have : (1 : Int) ≤ u := hu
    have := (Int.cast_le (R := ℚ)).mpr this
    push_cast at this
    exact this
  have hxa : (a : ℚ) / u ≤ a := div_le_self haq hu1
  obtain ⟨hne, hlo, hhi, hclo, hchi⟩ := float64_quotient_bounds a u ha ha53 hu hu63
  have hfloor0 : 0 ≤ ⌊(a : ℚ) / u⌋ := Int.floor_nonneg.mpr hx0
  have hfloora : ⌊(a : ℚ) / u⌋ ≤ a := by
    have : ((⌊(a : ℚ) / u⌋ : Int) : ℚ) ≤ (a : ℚ) := le_trans (Int.floor_le _) hxa
    exact Int.cast_le.mp this
  have hceila : ⌈(a : ℚ) / u⌉ ≤ a := Int.ceil_le.mpr hxa
  have hceil0 : 0 ≤ ⌈(a : ℚ) / u⌉ := Int.ceil_nonneg hx0
  have hy0 : (0 : ℚ) ≤ roundFloat64 (float64OfInt64 a / float64OfInt64 u) :=
    le_trans (Int.cast_nonneg.mpr hfloor0) hlo
  have hwrap : wrapInt64 a = a := wrapInt64_eq a ha (lt_trans ha53 (by norm_num))
  have hdiv : float64Div (float64OfInt64 (wrapInt64 a)) (float64OfInt64 u)
      = some (roundFloat64 (float64OfInt64 a / float64OfInt64 u)) := by
    unfold float64Div
    rw [hwrap, if_neg hne]
  have hfl : ⌊roundFloat64 (float64OfInt64 a / float64OfInt64 u)⌋ = ⌊(a : ℚ) / u⌋ :=
    Int.floor_eq_iff.mpr ⟨hlo, hhi⟩
  have hcl : ⌈roundFloat64 (float64OfInt64 a / float64OfInt64 u)⌉ = ⌈(a : ℚ) / u⌉ :=
    Int.ceil_eq_iff.mpr ⟨hclo, hchi⟩
  constructor
  · show int64OfFloat64 (float64Div (float64OfInt64 (wrapInt64 a)) (float64OfInt64 u)) = _
    rw [hdiv, int64OfFloat64_nonneg _ hy0, hfl]
    rw [hfl]
    exact lt_of_le_of_lt hfloora (lt_trans ha53 (by norm_num))
  · show int64OfFloat64
      (float64Ceil (float64Div (float64OfInt64 (wrapInt64 a)) (float64OfInt64 u))) = _
    rw [hdiv]
    show int64OfFloat64
      (some ((⌈roundFloat64 (float64OfInt64 a / float64OfInt64 u)⌉ : Int) : ℚ)) = _
    rw [hcl, int64OfFloat64_nonneg _ (Int.cast_nonneg.mpr hceil0), Int.floor_intCast]
    rw [Int.floor_intCast]
    exact lt_of_le_of_lt hceila (lt_trans ha53 (by norm_num))

/-- On a product `0 ≤ a < 2 ^ 53` and a unit `0 < u < 2 ^ 63` the float64 expressions agree
with their evaluation in exact integer arithmetic. -/
theorem float64Ops_eq_exactOps (a u : Int) (ha : 0 ≤ a) (ha53 : a < 2 ^ 53) (hu : 0 < u)
    (hu63 : u < 2 ^ 63) :
    float64Ops.quot a u = exactOps.quot a u ∧
    float64Ops.quotCeil a u = exactOps.quotCeil a u := by
  obtain ⟨h1, h2⟩ := float64Ops_exact a u ha ha53 hu hu63
  have hcast : (u : ℚ) = ((u.toNat : ℕ) : ℚ) := by
    have : u = ((u.toNat : ℕ) : Int) := (Int.toNat_of_nonneg (le_of_lt hu)).symm
    conv_lhs => rw [this]
    norm_cast
  have hun : ((u.toNat : ℕ) : Int) = u := Int.toNat_of_nonneg (le_of_lt hu)
  constructor
  · rw [h1, hcast, Rat.floor_intCast_div_natCast, hun]
    exact (Int.tdiv_eq_ediv ha (le_of_lt hu)).symm
  · rw [h2]
    show _ = -(Int.fdiv (-a) u)
    rw [Int.fdiv_eq_ediv _ (le_of_lt hu)]
    have h3 : ⌊((-a : Int) : ℚ) / (u : ℚ)⌋ = -a / u := by
      rw [hcast, Rat.floor_intCast_div_natCast, hun]
    rw [← h3, Int.cast_neg, neg_div, Int.floor_neg, neg_neg]

/-- The cost that the container loop writes for a kind not yet in the pod's map is the first
cost expression on the product of the quantity and the price, and the unit. -/
theorem setContainerEntry_cost (fl : FloatOps) (now : Int) (pc : PodResource) (pod : Pod)
    (infos : ResourceMap) (k : String) (q u : Int) (h : mapGet k infos = none) :
    (mapGet k (setContainerEntry fl now pc pod infos k q u)).map (fun v => v.Cost)
      = some (fl.quot (q * (priceOf pc k).Price) u) := by
  unfold setContainerEntry
  rw [h]
  simp only [mapGet_mapSet_same, Option.map_some']

/-- The cost that the storage step writes when the pod's map has no `storage` entry is the
second cost expression on the product of the storage usage and the price, and the unit. -/
theorem setStorageEntry_cost (fl : FloatOps) (now : Int) (pc : PodResource) (pod : Pod)
    (infos : ResourceMap) (s u : Int) (h : mapGet "storage" infos = none) :
    (mapGet "storage" (setStorageEntry fl now pc pod s u infos)).map (fun v => v.Cost)
      = some (fl.quotCeil (s * (priceOf pc "storage").Price) u) := by
  unfold setStorageEntry
  rw [h]
  simp only [mapGet_mapSet_same, Option.map_some']

/-! ## C13: cost rounding -/

/-- C13 (as stated, refuted): with quantity `2 ^ 53 + 1`, price 1 and unit 1 the product is
not a float64; the conversion rounds it to `2 ^ 53`, so both costs are `2 ^ 53` while the
exact floor and ceiling are `2 ^ 53 + 1`.  With quantity `2 ^ 62`, price 2 and unit 1 the
`int64` product wraps to `-2 ^ 63` and the cost is negative, while the exact floor is
`2 ^ 63`. -/
theorem cost_rounding_counterexample :
    float64Ops.quot ((2 ^ 53 + 1) * 1) 1 = 2 ^ 53 ∧
    float64Ops.quotCeil ((2 ^ 53 + 1) * 1) 1 = 2 ^ 53 ∧
    ⌊(((2 ^ 53 + 1) * 1 : Int) : ℚ) / ((1 : Int) : ℚ)⌋ = 2 ^ 53 + 1 ∧
    ⌈(((2 ^ 53 + 1) * 1 : Int) : ℚ) / ((1 : Int) : ℚ)⌉ = 2 ^ 53 + 1 ∧
    float64Ops.quot (2 ^ 62 * 2) 1 = -2 ^ 63 ∧
    ⌊((2 ^ 62 * 2 : Int) : ℚ) / ((1 : Int) : ℚ)⌋ = 2 ^ 63 := by
  have hw1 : wrapInt64 ((2 ^ 53 + 1) * 1) = 2 ^ 53 + 1 := by
    unfold wrapInt64
    norm_num
  have hw2 : wrapInt64 (2 ^ 62 * 2) = -2 ^ 63 := by
    unfold wrapInt64
    norm_num
  have hone : float64OfInt64 1 = 1 := by
    have := roundFloat64_intCast 1 (by norm_num) (by norm_num)
    simpa [float64OfInt64] using this
  have hbig : float64OfInt64 (2 ^ 53 + 1) = 2 ^ 53 := by
    unfold float64OfInt64
    have := roundFloat64_tie_even (((2 ^ 53 + 1 : Int)) : ℚ) 53 (2 ^ 52)
      (by norm_num [abs_of_pos]) (by norm_num [abs_of_pos]) (by norm_num) (by norm_num)
      (by norm_num)
    rw [this]
    norm_num
  have hpow : roundFloat64 (2 ^ 53 / 1) = 2 ^ 53 := by
    rw [div_one]
    exact roundFloat64_exact _ 53 (2 ^ 52) (by norm_num [abs_of_pos])
      (by norm_num [abs_of_pos]) (by norm_num) (by norm_num)
  have hneg : float64OfInt64 (-2 ^ 63) = -2 ^ 63 := by
    unfold float64OfInt64
    have := roundFloat64_exact (((-2 ^ 63 : Int)) : ℚ) 63 (-2 ^ 52)
      (by norm_num [abs_of_pos]) (by norm_num [abs_of_pos]) (by norm_num) (by norm_num)
    rw [this]
    norm_num
  have hnegdiv : roundFloat64 (-2 ^ 63 / 1) = -2 ^ 63 := by
    rw [div_one]
    exact roundFloat64_exact _ 63 (-2 ^ 52) (by norm_num [abs_of_pos])
      (by norm_num [abs_of_pos]) (by norm_num) (by norm_num)
  have hd1 : float64Div (float64OfInt64 (wrapInt64 ((2 ^ 53 + 1) * 1))) (float64OfInt64 1)
      = some (2 ^ 53) := by
    rw [hw1, hbig, hone]
    unfold float64Div
    rw [if_neg one_ne_zero, hpow]
  have hd2 : float64Div (float64OfInt64 (wrapInt64 (2 ^ 62 * 2))) (float64OfInt64 1)
      = some (-2 ^ 63) := by
    rw [hw2, hneg, hone]
    unfold float64Div
    rw [if_neg one_ne_zero, hnegdiv]
  have hfl53 : ⌊(2 ^ 53 : ℚ)⌋ = 2 ^ 53 := by
    rw [Int.floor_eq_iff]
    norm_num
  have hcl53 : ⌈(2 ^ 53 : ℚ)⌉ = 2 ^ 53 := by
    rw [Int.ceil_eq_iff]
    norm_num
  have hcl63 : ⌈(-2 ^ 63 : ℚ)⌉ = -2 ^ 63 := by
    rw [Int.ceil_eq_iff]
    norm_num
  refine ⟨?_, ?_, ?_, ?_, ?_, ?_⟩
  · show int64OfFloat64
      (float64Div (float64OfInt64 (wrapInt64 ((2 ^ 53 + 1) * 1))) (float64OfInt64 1)) = _
    rw [hd1, int64OfFloat64_nonneg _ (by positivity), hfl53]
    rw [hfl53]
    norm_num
  · show int64OfFloat64 (float64Ceil
      (float64Div (float64OfInt64 (wrapInt64 ((2 ^ 53 + 1) * 1))) (float64OfInt64 1))) = _
    rw [hd1]
    show int64OfFloat64 (some ((⌈(2 ^ 53 : ℚ)⌉ : Int) : ℚ)) = _
    rw [hcl53, int64OfFloat64_nonneg _ (by positivity), Int.floor_intCast]
    rw [Int.floor_intCast]
    norm_num
  · rw [Int.floor_eq_iff]
    norm_num
  · rw [Int.ceil_eq_iff]
    norm_num
  · show int64OfFloat64
      (float64Div (float64OfInt64 (wrapInt64 (2 ^ 62 * 2))) (float64OfInt64 1)) = _
    rw [hd2, int64OfFloat64_neg _ (by norm_num), hcl63]
    rw [hcl63]
  · rw [Int.floor_eq_iff]
    norm_num

/-- C13 (amended): for every quantity `q ≥ 0` and price `p ≥ 0` whose product is below
`2 ^ 53`, and every unit `0 < u < 2 ^ 63`, the cost expression of a pod-container resource,
`int64(float64(q * p) / float64(u))`, is the exact floor of `q * p / u`, and the cost
expression of storage, `int64(math.Ceil(float64(q * p) / float64(u)))`, is its exact
ceiling. -/
theorem cost_rounding_exact (q p u : Int) (hq : 0 ≤ q) (hp : 0 ≤ p) (hqp : q * p < 2 ^ 53)
    (hu : 0 < u) (hu63 : u < 2 ^ 63) :
    float64Ops.quot (q * p) u = ⌊((q * p : Int) : ℚ) / (u : ℚ)⌋ ∧
    float64Ops.quotCeil (q * p) u = ⌈((q * p : Int) : ℚ) / (u : ℚ)⌉ :=
  float64Ops_exact (q * p) u (mul_nonneg hq hp) hqp hu hu63

theorem cost_rounding_exact_witness :
    (float64Ops.quot (1499 * 2) 1000 = ⌊((1499 * 2 : Int) : ℚ) / ((1000 : Int) : ℚ)⌋ ∧
      float64Ops.quotCeil (1499 * 2) 1000
        = ⌈((1499 * 2 : Int) : ℚ) / ((1000 : Int) : ℚ)⌉) ∧
    ⌊((1499 * 2 : Int) : ℚ) / ((1000 : Int) : ℚ)⌋ = 2 ∧
    ⌈((1499 * 2 : Int) : ℚ) / ((1000 : Int) : ℚ)⌉ = 3 :=
  ⟨cost_rounding_exact 1499 2 1000 (by decide) (by decide) (by decide) (by decide)
      (by decide),
    by rw [Int.floor_eq_iff]; norm_num,
    by rw [Int.ceil_eq_iff]; norm_num⟩

/-- The evenly divisible case of the claim's example: quantity 1500 at price 2 per 1000 costs
3 with either rounding, and quantity 1499 costs 2 for a container and 3 for storage. -/
theorem cost_rounding_examples :
    float64Ops.quot (1499 * 2) 1000 = 2 ∧ float64Ops.quotCeil (1499 * 2) 1000 = 3 ∧
    float64Ops.quot (1500 * 2) 1000 = 3 ∧ float64Ops.quotCeil (1500 * 2) 1000 = 3 := by
  obtain ⟨h1, h2⟩ := float64Ops_exact (1499 * 2) 1000 (by decide) (by decide) (by decide)
    (by decide)
  obtain ⟨h3, h4⟩ := float64Ops_exact (1500 * 2) 1000 (by decide) (by decide) (by decide)
    (by decide)
  refine ⟨?_, ?_, ?_, ?_⟩
  · rw [h1, Int.floor_eq_iff]
    norm_num
  · rw [h2, Int.ceil_eq_iff]
    norm_num
  · rw [h3, Int.floor_eq_iff]
    norm_num
  · rw [h4, Int.ceil_eq_iff]
    norm_num

end Sealos
